import Mathlib

/-!
# The edit engine of `node/edit.go`

A shallow embedding of the recursive, schema-aware tree merge implemented by
`editor.edit`, `editor.enter`, `editor.leaf`, `editor.node`, `editor.list`,
`editor.clearOnDifferentChoiceCase` and `editor.clearChoiceCase`.

The schema (package `meta`), the values (package `val`) and the backing nodes
behind a `Selection` are external to the editor.  They enter the model as type
parameters `M` (schema nodes), `V` (values), `N` (backing data nodes) and as a
record `Env` of operations acting on an explicit store `σ`.  Every Selection
operation the editor issues is appended, together with its answer, to a
chronological log, and every invocation of an editor function is logged as
well, so that statements about what the editor does and in which order are
statements about that log.
-/

namespace yang

/-! ## Errors, strategies, paths, selections -/

/-- Go `error` values built by package `c2`: `c2.NewErrC(msg, code)` and
`c2.NewErr(msg)`.  Errors reported by backing nodes are values of the same
type. -/
inductive Err where
  | NewErrC (msg : String) (code : Nat)
  | NewErr (msg : String)
  deriving DecidableEq, Repr

/-- Status code carried by an error, when it has one. -/
def Err.code : Err → Option Nat
  | .NewErrC _ c => some c
  | .NewErr _ => none

/-- The Go type `editStrategy int`. -/
abbrev editStrategy := Int

/-- Constant `editUpsert editStrategy = iota + 1`. -/
def editUpsert : editStrategy := 1
/-- Constant `editInsert`. -/
def editInsert : editStrategy := 2
/-- Constant `editUpdate`. -/
def editUpdate : editStrategy := 3

/-- The Go type `*Path`: `nil`, or a pointer to `Path{parent, meta, key}`. -/
inductive Path (M V : Type) where
  | nil : Path M V
  | mk (parent : Path M V) (meta : M) (key : List V) : Path M V
  deriving DecidableEq, Repr

/-- Assignment `p.key = key` on the pointed-to path. -/
def Path.setKey {M V : Type} : Path M V → List V → Path M V
  | .nil, _ => .nil
  | .mk parent meta _, key => .mk parent meta key

/-- The fields of the Go struct `Selection` that the editor reads. `Node` is
`none` for a nil selection. -/
structure Selection (M N V : Type) where
  Node : Option N
  Path : Path M V
  InsideList : Bool
  LastErr : Option Err
  deriving DecidableEq, Repr

/-- Method `Selection.IsNil`. -/
def Selection.IsNil {M N V : Type} (s : Selection M N V) : Bool := s.Node.isNone

/-- The zero value `Selection{}`. -/
def Selection.empty {M N V : Type} : Selection M N V :=
  { Node := none, Path := .nil, InsideList := false, LastErr := none }

/-- The struct `editor`. -/
structure editor (M V : Type) where
  basePath : Path M V
  useDefault : Bool
  deriving DecidableEq, Repr

/-! ## Request objects -/

/-- The struct `NodeRequest` as built by `enter`. -/
structure NodeRequest (M N V : Type) where
  New : Bool
  Source : yang.Selection M N V
  EditRoot : Bool
  deriving DecidableEq, Repr

/-- The struct `FieldRequest` (with its embedded `Request`). -/
structure FieldRequest (M N V : Type) where
  Selection : yang.Selection M N V
  Path : yang.Path M V
  Base : yang.Path M V
  Meta : M
  deriving DecidableEq, Repr

/-- The struct `ChildRequest` (with its embedded `Request`). -/
structure ChildRequest (M N V : Type) where
  Selection : yang.Selection M N V
  Path : yang.Path M V
  Base : yang.Path M V
  From : yang.Selection M N V
  New : Bool
  Meta : M
  deriving DecidableEq, Repr

/-- The struct `ListRequest` (with its embedded `Request`). -/
structure ListRequest (M N V : Type) where
  Selection : yang.Selection M N V
  Path : yang.Path M V
  Base : yang.Path M V
  From : yang.Selection M N V
  New : Bool
  First : Bool
  Row64 : Int
  Key : List V
  Meta : M
  deriving DecidableEq, Repr

/-- Wrap-around of a signed 64-bit integer. -/
def wrap64 (x : Int) : Int := (x + 2 ^ 63) % 2 ^ 64 - 2 ^ 63

/-- Modelled from the spec: method `ListRequest.SetRow`, which is not part of
the source at hand; it stores the row counter. -/
def ListRequest.SetRow {M N V : Type} (r : ListRequest M N V) (row : Int) : ListRequest M N V :=
  { r with Row64 := row }

/-- Modelled from the spec: method `ListRequest.IncrementRow`, which is not
part of the source at hand; "incrementing a row counter" (an `int64`). -/
def ListRequest.IncrementRow {M N V : Type} (r : ListRequest M N V) : ListRequest M N V :=
  { r with Row64 := wrap64 (r.Row64 + 1) }

/-! ## The log -/

/-- A Selection operation issued by the editor, with receiver and arguments. -/
inductive Op (M N V : Type) where
  | beginEdit (dest : Selection M N V) (r : NodeRequest M N V) (bubble : Bool)
  | endEdit (dest : Selection M N V) (r : NodeRequest M N V) (bubble : Bool)
  | GetValueHnd (sel : Selection M N V) (r : FieldRequest M N V) (useDefault : Bool)
  | SetValueHnd (sel : Selection M N V) (r : FieldRequest M N V) (hnd : V)
  | ClearField (sel : Selection M N V) (m : M)
  | Select (sel : Selection M N V) (r : ChildRequest M N V)
  | SelectListItem (sel : Selection M N V) (r : ListRequest M N V)
  | Find (sel : Selection M N V) (ident : String)
  | Delete (sel : Selection M N V)
  | Choose (sel : Selection M N V) (choice : M)
  deriving DecidableEq, Repr

/-- What a Selection operation answered. -/
inductive Resp (M N V : Type) where
  | error (err : Option Err)
  | value (err : Option Err) (hnd : Option V)
  | selection (s : Selection M N V)
  | item (s : Selection M N V) (key : List V)
  | chosen (c : Option M) (err : Option Err)
  deriving DecidableEq, Repr

/-- The failure reported by an answer: the returned error, or the `LastErr`
of the returned selection. -/
def Resp.failure {M N V : Type} : Resp M N V → Option Err
  | .error e => e
  | .value e _ => e
  | .selection s => s.LastErr
  | .item s _ => s.LastErr
  | .chosen _ e => e

/-- One entry of the log: an invocation of an editor function, or a Selection
operation together with its answer. -/
inductive Event (M N V : Type) where
  | enter (frm dest : Selection M N V) (new : Bool) (strategy : editStrategy) (root bubble : Bool)
  | leaf (frm dest : Selection M N V) (m : M) (new : Bool) (strategy : editStrategy)
  | node (frm dest : Selection M N V) (m : M) (new : Bool) (strategy : editStrategy)
  | list (frm dest : Selection M N V) (m : M) (new : Bool) (strategy : editStrategy)
  | op (o : Op M N V) (r : Resp M N V)
  deriving DecidableEq, Repr

/-- How an editor function ends: it returns a Go `error` (`none` is `nil`),
it dereferences a nil `*Path`, or the model ran out of fuel. -/
inductive Outcome where
  | ret (err : Option Err)
  | panic
  | outOfFuel
  deriving DecidableEq, Repr

/-! ## The external collaborators -/

/-- The schema reader, the iterators and the Selection operations the editor
relies on.  None of them is defined in `edit.go`; each operation acts on the
store `σ`. -/
structure Env (M N V σ : Type) where
  /-- Function `meta.IsList`. -/
  IsList : M → Bool
  /-- Function `meta.IsLeaf`. -/
  IsLeaf : M → Bool
  /-- Method `Ident()` of a schema node. -/
  Ident : M → String
  /-- The type assertion `want.Parent().(*meta.ChoiceCase)`. -/
  parentCase : M → Option M
  /-- The expression `wantCase.Parent().(*meta.Choice)`. -/
  caseChoice : M → M
  /-- Method `Selection.Meta`. -/
  Meta : Selection M N V → M
  /-- The schema nodes `NewContainerMetaList(sel)` yields, in order. -/
  ContainerMetaList : Selection M N V → σ → List M
  /-- The schema nodes `newChoiceCaseIterator(sel, c)` yields, in order. -/
  choiceCaseIterator : Selection M N V → M → σ → List M
  /-- Method `String()` of `*Path`. -/
  pathString : Path M V → String
  /-- Formatting of a key with `%v`. -/
  keyString : List V → String
  beginEdit : Selection M N V → NodeRequest M N V → Bool → σ → Option Err × σ
  endEdit : Selection M N V → NodeRequest M N V → Bool → σ → Option Err × σ
  GetValueHnd : Selection M N V → FieldRequest M N V → Bool → σ → (Option Err × Option V) × σ
  SetValueHnd : Selection M N V → FieldRequest M N V → V → σ → Option Err × σ
  ClearField : Selection M N V → M → σ → Option Err × σ
  Select : Selection M N V → ChildRequest M N V → σ → Selection M N V × σ
  SelectListItem : Selection M N V → ListRequest M N V → σ → (Selection M N V × List V) × σ
  Find : Selection M N V → String → σ → Selection M N V × σ
  Delete : Selection M N V → σ → Option Err × σ
  Choose : Selection M N V → M → σ → (Option M × Option Err) × σ


/-! ## Results and logged operations -/

section Ops

variable {M N V σ : Type}

/-- What a run of an editor function yields: how it ended, the store it left,
and the events it logged, in order. -/
abbrev Result (M N V σ : Type) := Outcome × σ × List (Event M N V)

/-- Put the events logged so far in front of those of the rest of the run. -/
def after (t : List (Event M N V)) (r : Result M N V σ) : Result M N V σ :=
  (r.1, r.2.1, t ++ r.2.2)

/-- The Go idiom `if err := step; err != nil { return err }` followed by the
rest of the function. -/
def andThen (r : Result M N V σ) (k : σ → Result M N V σ) : Result M N V σ :=
  match r with
  | (.ret none, st, t) => after t (k st)
  | (o, st, t) => (o, st, t)

/-- Call `dest.beginEdit(r, bubble)` and go on with its answer. -/
def doBeginEdit (env : Env M N V σ) (dest : Selection M N V) (r : NodeRequest M N V)
    (bubble : Bool) (st : σ) (k : Option Err → σ → Result M N V σ) : Result M N V σ :=
  after [.op (.beginEdit dest r bubble) (.error (env.beginEdit dest r bubble st).1)]
    (k (env.beginEdit dest r bubble st).1 (env.beginEdit dest r bubble st).2)

/-- Call `dest.endEdit(r, bubble)` and go on with its answer. -/
def doEndEdit (env : Env M N V σ) (dest : Selection M N V) (r : NodeRequest M N V)
    (bubble : Bool) (st : σ) (k : Option Err → σ → Result M N V σ) : Result M N V σ :=
  after [.op (.endEdit dest r bubble) (.error (env.endEdit dest r bubble st).1)]
    (k (env.endEdit dest r bubble st).1 (env.endEdit dest r bubble st).2)

/-- Call `sel.GetValueHnd(&r, &hnd, useDefault)` and go on with its answer. -/
def doGetValueHnd (env : Env M N V σ) (sel : Selection M N V) (r : FieldRequest M N V)
    (useDefault : Bool) (st : σ) (k : Option Err → Option V → σ → Result M N V σ) :
    Result M N V σ :=
  after [.op (.GetValueHnd sel r useDefault)
      (.value (env.GetValueHnd sel r useDefault st).1.1 (env.GetValueHnd sel r useDefault st).1.2)]
    (k (env.GetValueHnd sel r useDefault st).1.1 (env.GetValueHnd sel r useDefault st).1.2
      (env.GetValueHnd sel r useDefault st).2)

/-- Call `sel.SetValueHnd(&r, &hnd)` and go on with its answer. -/
def doSetValueHnd (env : Env M N V σ) (sel : Selection M N V) (r : FieldRequest M N V)
    (hnd : V) (st : σ) (k : Option Err → σ → Result M N V σ) : Result M N V σ :=
  after [.op (.SetValueHnd sel r hnd) (.error (env.SetValueHnd sel r hnd st).1)]
    (k (env.SetValueHnd sel r hnd st).1 (env.SetValueHnd sel r hnd st).2)

/-- Call `sel.ClearField(m)` and go on with its answer. -/
def doClearField (env : Env M N V σ) (sel : Selection M N V) (m : M) (st : σ)
    (k : Option Err → σ → Result M N V σ) : Result M N V σ :=
  after [.op (.ClearField sel m) (.error (env.ClearField sel m st).1)]
    (k (env.ClearField sel m st).1 (env.ClearField sel m st).2)

/-- Call `sel.Select(&r)` and go on with its answer. -/
def doSelect (env : Env M N V σ) (sel : Selection M N V) (r : ChildRequest M N V) (st : σ)
    (k : Selection M N V → σ → Result M N V σ) : Result M N V σ :=
  after [.op (.Select sel r) (.selection (env.Select sel r st).1)]
    (k (env.Select sel r st).1 (env.Select sel r st).2)

/-- Call `sel.SelectListItem(&r)` and go on with its answer. -/
def doSelectListItem (env : Env M N V σ) (sel : Selection M N V) (r : ListRequest M N V)
    (st : σ) (k : Selection M N V → List V → σ → Result M N V σ) : Result M N V σ :=
  after [.op (.SelectListItem sel r)
      (.item (env.SelectListItem sel r st).1.1 (env.SelectListItem sel r st).1.2)]
    (k (env.SelectListItem sel r st).1.1 (env.SelectListItem sel r st).1.2
      (env.SelectListItem sel r st).2)

/-- Call `sel.Find(ident)` and go on with its answer. -/
def doFind (env : Env M N V σ) (sel : Selection M N V) (ident : String) (st : σ)
    (k : Selection M N V → σ → Result M N V σ) : Result M N V σ :=
  after [.op (.Find sel ident) (.selection (env.Find sel ident st).1)]
    (k (env.Find sel ident st).1 (env.Find sel ident st).2)

/-- Call `sel.Delete()` and go on with its answer. -/
def doDelete (env : Env M N V σ) (sel : Selection M N V) (st : σ)
    (k : Option Err → σ → Result M N V σ) : Result M N V σ :=
  after [.op (.Delete sel) (.error (env.Delete sel st).1)]
    (k (env.Delete sel st).1 (env.Delete sel st).2)

/-- Call `sel.Node.Choose(sel, choice)` and go on with its answer. -/
def doChoose (env : Env M N V σ) (sel : Selection M N V) (choice : M) (st : σ)
    (k : Option M → Option Err → σ → Result M N V σ) : Result M N V σ :=
  after [.op (.Choose sel choice)
      (.chosen (env.Choose sel choice st).1.1 (env.Choose sel choice st).1.2)]
    (k (env.Choose sel choice st).1.1 (env.Choose sel choice st).1.2
      (env.Choose sel choice st).2)

end Ops

/-! ## The editor -/

section Editor

variable {M N V σ : Type} [DecidableEq M]

/-- The loop of `editor.clearChoiceCase` over the schema nodes the choice-case
iterator yields. -/
def clearChoiceCaseLoop (env : Env M N V σ) (sel : Selection M N V) :
    List M → σ → Result M N V σ
  | [], st => (.ret none, st, [])
  | m :: ms, st =>
    if env.IsLeaf m then
      doClearField env sel m st fun err st1 =>
        match err with
        | some e => (.ret (some e), st1, [])
        | none => clearChoiceCaseLoop env sel ms st1
    else
      doFind env sel (env.Ident m) st fun sub st1 =>
        if !sub.IsNil then
          doDelete env sub st1 fun err st2 =>
            match err with
            | some e => (.ret (some e), st2, [])
            | none => clearChoiceCaseLoop env sel ms st2
        else clearChoiceCaseLoop env sel ms st1

/-- Method `editor.clearChoiceCase`. -/
def clearChoiceCase (env : Env M N V σ) (_self : editor M V) (sel : Selection M N V) (c : M)
    (st : σ) : Result M N V σ :=
  clearChoiceCaseLoop env sel (env.choiceCaseIterator sel c st) st

/-- Method `editor.clearOnDifferentChoiceCase`. -/
def clearOnDifferentChoiceCase (env : Env M N V σ) (self : editor M V)
    (existing : Selection M N V) (want : M) (st : σ) : Result M N V σ :=
  match env.parentCase want with
  | none => (.ret none, st, [])
  | some wantCase =>
    doChoose env existing (env.caseChoice wantCase) st fun existingCase err st1 =>
      match err with
      | some e => (.ret (some e), st1, [])
      | none =>
        match existingCase with
        | none => (.ret none, st1, [])
        | some c =>
          if c = wantCase then (.ret none, st1, [])
          else clearChoiceCase env self existing c st1

/-- Method `editor.leaf`. -/
def leaf (env : Env M N V σ) (self : editor M V) (frm dest : Selection M N V) (m : M)
    (new : Bool) (strategy : editStrategy) (st : σ) : Result M N V σ :=
  after [.leaf frm dest m new strategy] <|
  let r : FieldRequest M N V :=
    { Selection := frm, Path := .mk frm.Path m [], Base := self.basePath, Meta := m }
  let useDefault := (strategy != editUpdate && new) || self.useDefault
  doGetValueHnd env frm r useDefault st fun err hnd st1 =>
    match err with
    | some e => (.ret (some e), st1, [])
    | none =>
      match hnd with
      | none => (.ret none, st1, [])
      | some val =>
        andThen (if strategy = editUpsert then clearOnDifferentChoiceCase env self dest m st1
                 else (.ret none, st1, [])) fun st2 =>
          doSetValueHnd env dest { r with Selection := dest } val st2 fun err st3 =>
            match err with
            | some e => (.ret (some e), st3, [])
            | none => (.ret none, st3, [])

/-- The 409 message of `editor.node`. -/
def nodeDuplicateMsg (env : Env M N V σ) (m : M) (p : Path M V) : String :=
  "Duplicate item \x27" ++ env.Ident m ++ "\x27 found in \x27" ++ env.pathString p ++ "\x27 "

/-- The 404 message of `editor.node`. -/
def nodeNotFoundMsg (env : Env M N V σ) (m : M) (p : Path M V) : String :=
  "cannot update \x27" ++ env.Ident m ++ "\x27 not found in \x27" ++ env.pathString p
    ++ "\x27 container destination node "

/-- The message of `editor.node` for a destination child that is still nil. -/
def nodeCreateMsg (env : Env M N V σ) (m : M) (p : Path M V) : String :=
  "\x27" ++ env.pathString p ++ "\x27 could not create \x27" ++ env.Ident m
    ++ "\x27 container node "

/-- The end of `editor.node`, after the `switch`: the check that the
destination child is there, and the recursion into `enter`. -/
def nodeDescend
    (enter : Selection M N V → Selection M N V → Bool → editStrategy → Bool → Bool →
      σ → Result M N V σ)
    (env : Env M N V σ) (m : M) (toPath : Path M V) (strategy : editStrategy)
    (fromChild toChild : Selection M N V) (newChild : Bool) (st : σ) : Result M N V σ :=
  if toChild.IsNil then (.ret (some (.NewErr (nodeCreateMsg env m toPath))), st, [])
  else enter fromChild toChild newChild strategy false false st

/-- Method `editor.node`; `enter` stands for the method `self.enter` it
recurses into. -/
def node
    (enter : Selection M N V → Selection M N V → Bool → editStrategy → Bool → Bool →
      σ → Result M N V σ)
    (env : Env M N V σ) (self : editor M V) (frm dest : Selection M N V) (m : M)
    (new : Bool) (strategy : editStrategy) (st : σ) : Result M N V σ :=
  after [.node frm dest m new strategy] <|
  let fromRequest : ChildRequest M N V :=
    { Selection := frm, Path := .mk frm.Path m [], Base := self.basePath,
      From := Selection.empty, New := false, Meta := m }
  doSelect env frm fromRequest st fun fromChild st1 =>
    if fromChild.LastErr ≠ none ∨ fromChild.IsNil then (.ret fromChild.LastErr, st1, [])
    else
      let toRequest : ChildRequest M N V :=
        { Selection := dest, Path := fromRequest.Path, Base := self.basePath,
          From := fromChild, New := false, Meta := m }
      doSelect env dest toRequest st1 fun toChild st2 =>
        if toChild.LastErr ≠ none then (.ret toChild.LastErr, st2, [])
        else
          if strategy = editInsert then
            if !toChild.IsNil then
              (.ret (some (.NewErrC (nodeDuplicateMsg env m fromRequest.Path) 409)), st2, [])
            else
              doSelect env dest { toRequest with New := true } st2 fun toChild1 st3 =>
                if toChild1.LastErr ≠ none then (.ret toChild1.LastErr, st3, [])
                else nodeDescend enter env m toRequest.Path strategy fromChild toChild1 true st3
          else if strategy = editUpsert then
            if toChild.IsNil then
              doSelect env dest { toRequest with New := true } st2 fun toChild1 st3 =>
                if toChild1.LastErr ≠ none then (.ret toChild1.LastErr, st3, [])
                else nodeDescend enter env m toRequest.Path strategy fromChild toChild1 true st3
            else nodeDescend enter env m toRequest.Path strategy fromChild toChild false st2
          else if strategy = editUpdate then
            if toChild.IsNil then
              (.ret (some (.NewErrC (nodeNotFoundMsg env m fromRequest.Path) 404)), st2, [])
            else nodeDescend enter env m toRequest.Path strategy fromChild toChild false st2
          else (.ret (some (.NewErrC "Stratgey not implemented" 501)), st2, [])

/-- The 404 message of `editor.list`. -/
def listNotFoundMsg (env : Env M N V σ) (key : List V) (dest : Selection M N V) : String :=
  "\x27" ++ env.keyString key ++ "\x27 not found in \x27" ++ env.pathString dest.Path
    ++ "\x27 list node "

/-- The 409 message of `editor.list`. -/
def listDuplicateMsg (env : Env M N V σ) (dest : Selection M N V) : String :=
  "Duplicate item found with same key in list " ++ env.pathString dest.Path

/-- The message of `editor.list` for a destination item that is still nil. -/
def listCreateMsg (env : Env M N V σ) (dest : Selection M N V) : String :=
  "Could not create destination list node " ++ env.pathString dest.Path

/-- The request `editor.list` sends to the destination for the current source
item: the assignments at the head of the loop body, up to `p.key = key`. -/
def listToRequest (dest fromChild : Selection M N V) (key : List V)
    (fromRequest toRequest : ListRequest M N V) : ListRequest M N V :=
  { ({ toRequest with First := true }).SetRow fromRequest.Row64 with
    Selection := dest, From := fromChild, Key := key, Path := toRequest.Path.setKey key }

/-- The request `editor.list` sends to the source for the next item: the
assignments at the foot of the loop body. -/
def listNextRequest (dest fromChild : Selection M N V) (key : List V)
    (fromRequest : ListRequest M N V) : ListRequest M N V :=
  ({ fromRequest with
      First := false, Selection := fromChild, New := false, From := dest,
      Path := fromRequest.Path.setKey key }).IncrementRow

/-- The foot of the loop body of `editor.list`, once `enter` has returned
`r`: an error is passed on, otherwise the next source item is requested and
the loop goes on. -/
def listAdvance
    (loop : Selection M N V → List V → ListRequest M N V → ListRequest M N V →
      σ → Result M N V σ)
    (env : Env M N V σ) (frm dest : Selection M N V) (fromChild : Selection M N V)
    (key : List V) (fromRequest toRequest : ListRequest M N V) (r : Result M N V σ) :
    Result M N V σ :=
  andThen r fun st4 =>
    doSelectListItem env frm (listNextRequest dest fromChild key fromRequest) st4
      fun fromChild1 key1 st5 =>
        if fromChild1.LastErr ≠ none then (.ret fromChild1.LastErr, st5, [])
        else loop fromChild1 key1 (listNextRequest dest fromChild key fromRequest) toRequest st5

/-- The checks of `editor.list` after the `switch`, and the recursion into
`enter` with `editUpsert`. -/
def listDescend
    (enter : Selection M N V → Selection M N V → Bool → editStrategy → Bool → Bool →
      σ → Result M N V σ)
    (loop : Selection M N V → List V → ListRequest M N V → ListRequest M N V →
      σ → Result M N V σ)
    (env : Env M N V σ) (frm dest : Selection M N V) (fromChild : Selection M N V)
    (key : List V) (fromRequest toRequest : ListRequest M N V)
    (toChild : Selection M N V) (newItem : Bool) (st : σ) : Result M N V σ :=
  if toChild.LastErr ≠ none then (.ret toChild.LastErr, st, [])
  else if toChild.IsNil then (.ret (some (.NewErr (listCreateMsg env dest))), st, [])
  else
    listAdvance loop env frm dest fromChild key fromRequest toRequest
      (enter fromChild toChild newItem editUpsert false false st)

/-- The `switch strategy` of `editor.list` and what follows it in the loop
body; `toChild` is the answer of the lookup by key, or `Selection{}`. -/
def listSwitch
    (enter : Selection M N V → Selection M N V → Bool → editStrategy → Bool → Bool →
      σ → Result M N V σ)
    (loop : Selection M N V → List V → ListRequest M N V → ListRequest M N V →
      σ → Result M N V σ)
    (env : Env M N V σ) (frm dest : Selection M N V) (strategy : editStrategy)
    (fromChild : Selection M N V) (key : List V) (fromRequest toRequest : ListRequest M N V)
    (toChild : Selection M N V) (st : σ) : Result M N V σ :=
  if strategy = editUpdate then
    if toChild.IsNil then (.ret (some (.NewErrC (listNotFoundMsg env key dest) 404)), st, [])
    else listDescend enter loop env frm dest fromChild key fromRequest toRequest toChild false st
  else if strategy = editUpsert then
    if toChild.IsNil then
      doSelectListItem env dest toRequest st fun toChild1 _ st1 =>
        listDescend enter loop env frm dest fromChild key fromRequest toRequest toChild1 true st1
    else listDescend enter loop env frm dest fromChild key fromRequest toRequest toChild false st
  else if strategy = editInsert then
    if !toChild.IsNil then (.ret (some (.NewErrC (listDuplicateMsg env dest) 409)), st, [])
    else
      doSelectListItem env dest toRequest st fun toChild1 _ st1 =>
        listDescend enter loop env frm dest fromChild key fromRequest toRequest toChild1 true st1
  else (.ret (some (.NewErrC "Stratgey not implmented" 501)), st, [])

/-- The body of the `for !fromChild.IsNil()` loop of `editor.list` for one
source item.  The local `p` is shared by `fromRequest.Path` and
`toRequest.Path`, so `p.key = key` updates both; `loop` stands for the next
iterations. -/
def listItem
    (enter : Selection M N V → Selection M N V → Bool → editStrategy → Bool → Bool →
      σ → Result M N V σ)
    (loop : Selection M N V → List V → ListRequest M N V → ListRequest M N V →
      σ → Result M N V σ)
    (env : Env M N V σ) (frm dest : Selection M N V) (strategy : editStrategy)
    (fromChild : Selection M N V) (key : List V) (fromRequest toRequest : ListRequest M N V)
    (st : σ) : Result M N V σ :=
  let toRequest1 := listToRequest dest fromChild key fromRequest toRequest
  let fromRequest1 : ListRequest M N V :=
    { fromRequest with Path := fromRequest.Path.setKey key }
  if key.length > 0 then
    doSelectListItem env dest { toRequest1 with New := false } st fun toChild _ st1 =>
      if toChild.LastErr ≠ none then (.ret toChild.LastErr, st1, [])
      else
        listSwitch enter loop env frm dest strategy fromChild key fromRequest1
          { toRequest1 with New := true } toChild st1
  else
    listSwitch enter loop env frm dest strategy fromChild key fromRequest1
      { toRequest1 with New := true } Selection.empty st

/-- The `for !fromChild.IsNil()` loop of `editor.list`; one unit of fuel per
iteration. -/
def listLoop
    (enter : Selection M N V → Selection M N V → Bool → editStrategy → Bool → Bool →
      σ → Result M N V σ)
    (env : Env M N V σ) (frm dest : Selection M N V) (strategy : editStrategy) :
    Nat → Selection M N V → List V → ListRequest M N V → ListRequest M N V →
      σ → Result M N V σ
  | 0 => fun fromChild _ _ _ st =>
    if fromChild.IsNil then (.ret none, st, []) else (.outOfFuel, st, [])
  | fuel + 1 => fun fromChild key fromRequest toRequest st =>
    if fromChild.IsNil then (.ret none, st, [])
    else
      listItem enter (listLoop enter env frm dest strategy fuel) env frm dest strategy
        fromChild key fromRequest toRequest st

/-- Method `editor.list`; `enter` stands for the method `self.enter` it
recurses into, `fuel` bounds the number of loop iterations. -/
def list
    (enter : Selection M N V → Selection M N V → Bool → editStrategy → Bool → Bool →
      σ → Result M N V σ)
    (fuel : Nat) (env : Env M N V σ) (self : editor M V) (frm dest : Selection M N V) (m : M)
    (new : Bool) (strategy : editStrategy) (st : σ) : Result M N V σ :=
  after [.list frm dest m new strategy] <|
  match frm.Path with
  | .nil => (.panic, st, [])
  | .mk parent meta pkey =>
    let fromRequest : ListRequest M N V :=
      { Selection := frm, Path := .mk parent meta pkey, Base := self.basePath,
        From := Selection.empty, New := false, First := true, Row64 := 0, Key := [],
        Meta := m }
    doSelectListItem env frm fromRequest st fun fromChild key st1 =>
      if fromChild.LastErr ≠ none then (.ret fromChild.LastErr, st1, [])
      else if fromChild.IsNil then (.ret none, st1, [])
      else
        let toRequest : ListRequest M N V :=
          { Selection := dest, Path := .mk parent meta key, Base := self.basePath,
            From := Selection.empty, New := false, First := true, Row64 := 0, Key := [],
            Meta := m }
        listLoop enter env frm dest strategy fuel fromChild key
          { fromRequest with Path := .mk parent meta key } toRequest st1

/-- The `for m != nil` loop of `editor.enter` over the schema nodes the
container meta list yields. -/
def enterChildren
    (enter : Selection M N V → Selection M N V → Bool → editStrategy → Bool → Bool →
      σ → Result M N V σ)
    (env : Env M N V σ) (self : editor M V) (frm dest : Selection M N V)
    (new : Bool) (strategy : editStrategy) : List M → σ → Result M N V σ
  | [], st => (.ret none, st, [])
  | m :: ms, st =>
    andThen (if env.IsLeaf m then leaf env self frm dest m new strategy st
             else node enter env self frm dest m new strategy st)
      (enterChildren enter env self frm dest new strategy ms)

/-- The steps of `editor.enter` between `beginEdit` and `endEdit`: the list
handler for a list that is not yet positioned on an item, the loop over the
schema children otherwise. -/
def enterSteps
    (enter : Selection M N V → Selection M N V → Bool → editStrategy → Bool → Bool →
      σ → Result M N V σ)
    (fuel : Nat) (env : Env M N V σ) (self : editor M V) (frm dest : Selection M N V)
    (new : Bool) (strategy : editStrategy) (st : σ) : Result M N V σ :=
  if env.IsList (env.Meta frm) && !frm.InsideList then
    list enter fuel env self frm dest (env.Meta frm) new strategy st
  else
    enterChildren enter env self frm dest new strategy (env.ContainerMetaList frm st) st

/-- The body of `editor.enter`; `enter` stands for the recursive calls made
from `node` and `list`. -/
def enterBody
    (enter : Selection M N V → Selection M N V → Bool → editStrategy → Bool → Bool →
      σ → Result M N V σ)
    (fuel : Nat) (env : Env M N V σ) (self : editor M V) (frm dest : Selection M N V)
    (new : Bool) (strategy : editStrategy) (root bubble : Bool) (st : σ) : Result M N V σ :=
  after [.enter frm dest new strategy root bubble] <|
  doBeginEdit env dest { New := new, Source := dest, EditRoot := root } bubble st
    fun err st1 =>
      match err with
      | some e => (.ret (some e), st1, [])
      | none =>
        andThen (enterSteps enter fuel env self frm dest new strategy st1) fun st2 =>
          doEndEdit env dest { New := new, Source := dest, EditRoot := root } bubble st2
            fun err st3 =>
              match err with
              | some e => (.ret (some e), st3, [])
              | none => (.ret none, st3, [])

/-- Method `editor.enter`, with `fuel` bounding the depth of the recursion
(and the number of iterations of each list loop). -/
def enter (env : Env M N V σ) (self : editor M V) :
    Nat → Selection M N V → Selection M N V → Bool → editStrategy → Bool → Bool →
      σ → Result M N V σ
  | 0 => fun _ _ _ _ _ _ st => (.outOfFuel, st, [])
  | fuel + 1 => enterBody (enter env self fuel) fuel env self

/-- Method `editor.edit`. -/
def edit (env : Env M N V σ) (self : editor M V) (fuel : Nat) (frm dest : Selection M N V)
    (s : editStrategy) (st : σ) : Result M N V σ :=
  enter env self fuel frm dest false s true true st

end Editor

/-! ## An in-memory backing store

The editor is exercised end to end against a small schema-driven store in
which every Selection operation succeeds. -/

/-- Modelled from the spec: the values of leaves (package `val` is external to
the editor). -/
inductive Val where
  | str (s : String)
  | int (i : Int)
  | bool (b : Bool)
  deriving DecidableEq, Repr

/-- Modelled from the spec: the kinds of schema node named in the glossary. -/
inductive Kind where
  | leaf
  | container
  | list
  | choice
  | case
  deriving DecidableEq, Repr

/-- Modelled from the spec: a schema node of the external meta model, known by
its identifier, its kind, its default value (leaves only) and the chain of its
schema ancestors, nearest first. -/
structure Meta where
  ident : String
  kind : Kind
  dflt : Option Val
  parent : List (String × Kind)
  deriving DecidableEq, Repr

/-- A schema: all its nodes, in declaration order. -/
abbrev Schema := List Meta

/-- The ancestor chain of the children of a schema node. -/
def Meta.chain (m : Meta) : List (String × Kind) := (m.ident, m.kind) :: m.parent

/-- Skip the case and choice levels at the front of an ancestor chain. -/
def stripCases : List (String × Kind) → List (String × Kind)
  | (_, .case) :: (_, .choice) :: rest => stripCases rest
  | l => l

/-- Whether the ancestor chain `l` reaches the chain `c` of a case through
case and choice levels only. -/
def underCase (c : List (String × Kind)) : List (String × Kind) → Bool
  | (i, .case) :: (j, .choice) :: rest =>
    decide ((i, Kind.case) :: (j, Kind.choice) :: rest = c) || underCase c rest
  | l => decide (l = c)

/-- Whether a schema node holds data, that is, is no choice and no case. -/
def Meta.isData (m : Meta) : Bool := m.kind ≠ Kind.choice && m.kind ≠ Kind.case

/-- Modelled from the spec: the container meta list, "the schema's direct
children (containers merged with any choice/case alternatives flattened into
the same iteration)". -/
def Schema.children (sch : Schema) (parent : Meta) : List Meta :=
  sch.filter (fun m => m.isData && decide (stripCases m.parent = parent.chain))

/-- Modelled from the spec: the choice-case iterator, "every schema member of
the previously active case"; the members of nested choices count as members. -/
def Schema.caseMembers (sch : Schema) (c : Meta) : List Meta :=
  sch.filter (fun m => m.isData && underCase c.chain m.parent)

/-- The cases of a choice. -/
def Schema.cases (sch : Schema) (choice : Meta) : List Meta :=
  sch.filter (fun m => decide (m.kind = Kind.case) && decide (m.parent = choice.chain))

/-- One step of a data path: a named child, or the list item with a key. -/
inductive Step where
  | field (ident : String)
  | item (key : List Val)
  deriving DecidableEq, Repr

/-- What the store holds at a data path: a leaf value, or the presence of a
container, list or list item. -/
inductive Cell where
  | leaf (v : Val)
  | present
  deriving DecidableEq, Repr

/-- Modelled from the spec: the backing data of both trees, as the list of the
data paths that hold something. -/
abbrev Store := List (List Step × Cell)

/-- What the store holds at a path. -/
def Store.get (st : Store) (p : List Step) : Option Cell :=
  (st.find? (fun e => decide (e.1 = p))).map (fun e => e.2)

/-- Write a cell, in place when the path is already held. -/
def Store.put (st : Store) (p : List Step) (c : Cell) : Store :=
  if st.any (fun e => decide (e.1 = p)) then
    st.map (fun e => if e.1 = p then (p, c) else e)
  else st ++ [(p, c)]

/-- Remove what is held at exactly this path. -/
def Store.erase (st : Store) (p : List Step) : Store :=
  st.filter (fun e => !decide (e.1 = p))

/-- Whether the path `q` lies at or below the path `p`. -/
def below (p q : List Step) : Bool := decide (q.take p.length = p)

/-- Remove everything held at or below this path. -/
def Store.deleteTree (st : Store) (p : List Step) : Store :=
  st.filter (fun e => !below p e.1)

/-- The keys of the items of the list at path `p`, in store order. -/
def Store.items (st : Store) (p : List Step) : List (List Val) :=
  st.filterMap (fun e =>
    if e.1.dropLast = p then
      match e.1.getLast? with
      | some (Step.item k) => some k
      | _ => none
    else none)

/-- The schema node a selection is bound to: the `meta` of its path. -/
def selMeta {N : Type} (s : Selection Meta N Val) : Meta :=
  match s.Path with
  | .mk _ m _ => m
  | .nil => { ident := "", kind := Kind.container, dflt := none, parent := [] }

/-- The selection of the data node at `p`. -/
def selAt (p : List Step) (path : Path Meta Val) (insideList : Bool) :
    Selection Meta (List Step) Val :=
  { Node := some p, Path := path, InsideList := insideList, LastErr := none }

/-- Modelled from the spec: `Select`, "navigate/create a container/list
presence node". -/
def memSelect (sel : Selection Meta (List Step) Val) (r : ChildRequest Meta (List Step) Val)
    (st : Store) : Selection Meta (List Step) Val × Store :=
  match sel.Node with
  | none => (Selection.empty, st)
  | some p =>
    let cp := p ++ [Step.field r.Meta.ident]
    if (st.get cp).isSome then (selAt cp r.Path false, st)
    else if r.New then (selAt cp r.Path false, st.put cp Cell.present)
    else (Selection.empty, st)

/-- Modelled from the spec: `SelectListItem`, "positional/keyed navigation of
list items; honors `First`, a row counter, and an optional key for direct
lookup". -/
def memSelectListItem (sel : Selection Meta (List Step) Val)
    (r : ListRequest Meta (List Step) Val) (st : Store) :
    (Selection Meta (List Step) Val × List Val) × Store :=
  match sel.Node with
  | none => ((Selection.empty, []), st)
  | some p =>
    if r.New then
      let ip := p ++ [Step.item r.Key]
      ((selAt ip (r.Path.setKey r.Key) true, r.Key), st.put ip Cell.present)
    else if r.Key.length > 0 then
      let ip := p ++ [Step.item r.Key]
      if (st.get ip).isSome then ((selAt ip (r.Path.setKey r.Key) true, r.Key), st)
      else ((Selection.empty, []), st)
    else
      if r.Row64 < 0 then ((Selection.empty, []), st)
      else
        match (st.items p).get? r.Row64.toNat with
        | some k => ((selAt (p ++ [Step.item k]) (r.Path.setKey k) true, k), st)
        | none => ((Selection.empty, []), st)

/-- Modelled from the spec: `GetValueHnd`, "read a leaf value, with default
fallback". -/
def memGetValueHnd (sel : Selection Meta (List Step) Val)
    (r : FieldRequest Meta (List Step) Val) (useDefault : Bool) (st : Store) :
    (Option Err × Option Val) × Store :=
  match sel.Node with
  | none => ((none, none), st)
  | some p =>
    match st.get (p ++ [Step.field r.Meta.ident]) with
    | some (Cell.leaf v) => ((none, some v), st)
    | _ => ((none, if useDefault then r.Meta.dflt else none), st)

/-- Modelled from the spec: `SetValueHnd`, "write a leaf value". -/
def memSetValueHnd (sel : Selection Meta (List Step) Val)
    (r : FieldRequest Meta (List Step) Val) (hnd : Val) (st : Store) : Option Err × Store :=
  match sel.Node with
  | none => (none, st)
  | some p => (none, st.put (p ++ [Step.field r.Meta.ident]) (Cell.leaf hnd))

/-- Modelled from the spec: `ClearField`, "erase a leaf to the absent state". -/
def memClearField (sel : Selection Meta (List Step) Val) (m : Meta) (st : Store) :
    Option Err × Store :=
  match sel.Node with
  | none => (none, st)
  | some p => (none, st.erase (p ++ [Step.field m.ident]))

/-- Modelled from the spec: `Find`, the "ad hoc lookup" of a child by its
identifier. -/
def memFind (sel : Selection Meta (List Step) Val) (ident : String) (st : Store) :
    Selection Meta (List Step) Val × Store :=
  match sel.Node with
  | none => (Selection.empty, st)
  | some p =>
    let cp := p ++ [Step.field ident]
    if (st.get cp).isSome then
      (selAt cp (.mk sel.Path { ident := ident, kind := Kind.container, dflt := none,
                                parent := (selMeta sel).chain } []) false, st)
    else (Selection.empty, st)

/-- Modelled from the spec: `Delete`, the "removal" of a node with all that
lies below it. -/
def memDelete (sel : Selection Meta (List Step) Val) (st : Store) : Option Err × Store :=
  match sel.Node with
  | none => (none, st)
  | some p => (none, st.deleteTree p)

/-- Whether a case holds live data in the data node at `p`: one of its
members is there. -/
def caseLive (sch : Schema) (st : Store) (p : List Step) (c : Meta) : Bool :=
  (sch.caseMembers c).any (fun m => (st.get (p ++ [Step.field m.ident])).isSome)

/-- Modelled from the spec: `Choose`, which "reports which case is currently
populated". -/
def memChoose (sch : Schema) (sel : Selection Meta (List Step) Val) (choice : Meta)
    (st : Store) : (Option Meta × Option Err) × Store :=
  match sel.Node with
  | none => ((none, none), st)
  | some p => (((sch.cases choice).find? (fun c => caseLive sch st p c), none), st)

/-- The in-memory backing store over a schema, as the editor's environment. -/
def memEnv (sch : Schema) : Env Meta (List Step) Val Store where
  IsList := fun m => decide (m.kind = Kind.list)
  IsLeaf := fun m => decide (m.kind = Kind.leaf)
  Ident := fun m => m.ident
  parentCase := fun m =>
    match m.parent with
    | (i, Kind.case) :: rest => some { ident := i, kind := Kind.case, dflt := none, parent := rest }
    | _ => none
  caseChoice := fun c =>
    match c.parent with
    | (i, k) :: rest => { ident := i, kind := k, dflt := none, parent := rest }
    | [] => c
  Meta := selMeta
  ContainerMetaList := fun sel _ => sch.children (selMeta sel)
  choiceCaseIterator := fun _ c _ => sch.caseMembers c
  pathString := fun _ => ""
  keyString := fun _ => ""
  beginEdit := fun _ _ _ st => (none, st)
  endEdit := fun _ _ _ st => (none, st)
  GetValueHnd := memGetValueHnd
  SetValueHnd := memSetValueHnd
  ClearField := memClearField
  Select := memSelect
  SelectListItem := memSelectListItem
  Find := memFind
  Delete := memDelete
  Choose := memChoose sch


/-! ## The steps of `node` and of the list loop, named

The requests `editor.node` and `editor.list` build, and the answers the
environment gives to them, in the order in which the source issues them. -/

section Steps

variable {M N V σ : Type}

/-- The request `fromRequest` of `editor.node`. -/
def nodeFromRequest (self : editor M V) (frm : Selection M N V) (m : M) : ChildRequest M N V :=
  { Selection := frm, Path := .mk frm.Path m [], Base := self.basePath,
    From := Selection.empty, New := false, Meta := m }

/-- The request `toRequest` of `editor.node`, with its field `New` as given. -/
def nodeToRequest (self : editor M V) (frm dest fromChild : Selection M N V) (m : M)
    (new : Bool) : ChildRequest M N V :=
  { Selection := dest, Path := .mk frm.Path m [], Base := self.basePath,
    From := fromChild, New := new, Meta := m }

/-- The answer to `from.Select(&fromRequest)` in `editor.node`. -/
def nodeSource (env : Env M N V σ) (self : editor M V) (frm : Selection M N V) (m : M)
    (st : σ) : Selection M N V × σ :=
  env.Select frm (nodeFromRequest self frm m) st

/-- The answer to the first `to.Select(&toRequest)` of `editor.node`, the one
with `New = false`. -/
def nodeProbe (env : Env M N V σ) (self : editor M V) (frm dest : Selection M N V) (m : M)
    (st : σ) : Selection M N V × σ :=
  env.Select dest (nodeToRequest self frm dest (nodeSource env self frm m st).1 m false)
    (nodeSource env self frm m st).2

/-- The answer to the second `to.Select(&toRequest)` of `editor.node`, the one
with `New = true`. -/
def nodeCreate (env : Env M N V σ) (self : editor M V) (frm dest : Selection M N V) (m : M)
    (st : σ) : Selection M N V × σ :=
  env.Select dest (nodeToRequest self frm dest (nodeSource env self frm m st).1 m true)
    (nodeProbe env self frm dest m st).2

/-- The log of `editor.node` up to and including the first destination
`Select`. -/
def nodeProbeLog (env : Env M N V σ) (self : editor M V) (frm dest : Selection M N V) (m : M)
    (new : Bool) (strategy : editStrategy) (st : σ) : List (Event M N V) :=
  [.node frm dest m new strategy,
   .op (.Select frm (nodeFromRequest self frm m)) (.selection (nodeSource env self frm m st).1),
   .op (.Select dest (nodeToRequest self frm dest (nodeSource env self frm m st).1 m false))
     (.selection (nodeProbe env self frm dest m st).1)]

/-- The log of `editor.node` up to and including the second destination
`Select`. -/
def nodeCreateLog (env : Env M N V σ) (self : editor M V) (frm dest : Selection M N V) (m : M)
    (new : Bool) (strategy : editStrategy) (st : σ) : List (Event M N V) :=
  nodeProbeLog env self frm dest m new strategy st ++
  [.op (.Select dest (nodeToRequest self frm dest (nodeSource env self frm m st).1 m true))
     (.selection (nodeCreate env self frm dest m st).1)]

/-- The request of the lookup by key in the loop body of `editor.list`. -/
def listProbeRequest (dest fromChild : Selection M N V) (key : List V)
    (fromRequest toRequest : ListRequest M N V) : ListRequest M N V :=
  { listToRequest dest fromChild key fromRequest toRequest with New := false }

/-- The request of the creating `SelectListItem` in the loop body of
`editor.list`; the destination request stays like this for the next
iteration. -/
def listCreateRequest (dest fromChild : Selection M N V) (key : List V)
    (fromRequest toRequest : ListRequest M N V) : ListRequest M N V :=
  { listToRequest dest fromChild key fromRequest toRequest with New := true }

/-- The source request after `p.key = key` in the loop body of `editor.list`. -/
def listKeyedRequest (key : List V) (fromRequest : ListRequest M N V) : ListRequest M N V :=
  { fromRequest with Path := fromRequest.Path.setKey key }

/-- The answer to the lookup by key in the loop body of `editor.list`. -/
def listProbe (env : Env M N V σ) (dest fromChild : Selection M N V) (key : List V)
    (fromRequest toRequest : ListRequest M N V) (st : σ) : (Selection M N V × List V) × σ :=
  env.SelectListItem dest (listProbeRequest dest fromChild key fromRequest toRequest) st

/-- The answer to the creating `SelectListItem` that follows the lookup by
key. -/
def listCreate (env : Env M N V σ) (dest fromChild : Selection M N V) (key : List V)
    (fromRequest toRequest : ListRequest M N V) (st : σ) : (Selection M N V × List V) × σ :=
  env.SelectListItem dest (listCreateRequest dest fromChild key fromRequest toRequest)
    (listProbe env dest fromChild key fromRequest toRequest st).2

/-- The logged lookup by key. -/
def listProbeEvent (env : Env M N V σ) (dest fromChild : Selection M N V) (key : List V)
    (fromRequest toRequest : ListRequest M N V) (st : σ) : Event M N V :=
  .op (.SelectListItem dest (listProbeRequest dest fromChild key fromRequest toRequest))
    (.item (listProbe env dest fromChild key fromRequest toRequest st).1.1
      (listProbe env dest fromChild key fromRequest toRequest st).1.2)

/-- The logged creating `SelectListItem` that follows the lookup by key. -/
def listCreateEvent (env : Env M N V σ) (dest fromChild : Selection M N V) (key : List V)
    (fromRequest toRequest : ListRequest M N V) (st : σ) : Event M N V :=
  .op (.SelectListItem dest (listCreateRequest dest fromChild key fromRequest toRequest))
    (.item (listCreate env dest fromChild key fromRequest toRequest st).1.1
      (listCreate env dest fromChild key fromRequest toRequest st).1.2)

/-- The operations by which the editor changes a destination: a creating
`Select` or `SelectListItem`, `beginEdit`, `endEdit`, `SetValueHnd`,
`ClearField` and `Delete`. -/
def Op.edits : Op M N V → Bool
  | .beginEdit _ _ _ => true
  | .endEdit _ _ _ => true
  | .GetValueHnd _ _ _ => false
  | .SetValueHnd _ _ _ => true
  | .ClearField _ _ => true
  | .Select _ r => r.New
  | .SelectListItem _ r => r.New
  | .Find _ _ => false
  | .Delete _ => true
  | .Choose _ _ => false

/-- Whether a log entry is an operation that changes a destination. -/
def Event.edits : Event M N V → Bool
  | .op o _ => o.edits
  | _ => false

end Steps

section Classes

variable {M N V σ : Type}

/-- The flag the spec gives for reading a leaf: "the strategy is not Update
and the destination node is newly created, or the caller has globally
requested default-filling". -/
def specUseDefault (self : editor M V) (new : Bool) (strategy : editStrategy) : Bool :=
  decide ((strategy ≠ editUpdate ∧ new = true) ∨ self.useDefault = true)

/-- Whether a log entry is a `GetValueHnd` operation. -/
def Event.isGetValueHnd : Event M N V → Bool
  | .op (.GetValueHnd _ _ _) _ => true
  | _ => false

/-- Whether a log entry is one of the operations of `clearChoiceCase`:
`ClearField`, `Find` or `Delete`. -/
def Event.isClearing : Event M N V → Bool
  | .op (.ClearField _ _) _ => true
  | .op (.Find _ _) _ => true
  | .op (.Delete _) _ => true
  | _ => false

/-- Every entry of the log of a run satisfies `P`. -/
def LogAll (P : Event M N V → Prop) (r : Result M N V σ) : Prop := ∀ e ∈ r.2.2, P e

/-- Whether a log entry is a `SetValueHnd` operation. -/
def Event.isSetValueHnd : Event M N V → Bool
  | .op (.SetValueHnd _ _ _) _ => true
  | _ => false

/-- The request `r` of `editor.leaf`, bound to the selection `sel`. -/
def leafRequest (self : editor M V) (sel frm : Selection M N V) (m : M) : FieldRequest M N V :=
  { Selection := sel, Path := .mk frm.Path m [], Base := self.basePath, Meta := m }

/-- The logged `SetValueHnd` of `editor.leaf`, issued on the store `st`. -/
def leafSetEvent (env : Env M N V σ) (self : editor M V) (frm dest : Selection M N V) (m : M)
    (val : V) (st : σ) : Event M N V :=
  .op (.SetValueHnd dest (leafRequest self dest frm m) val)
    (.error (env.SetValueHnd dest (leafRequest self dest frm m) val st).1)

end Classes

/-! ## Small schemas and stores to run the editor on -/

section Fixtures

/-- An editor with no base path and the global default flag off. -/
def plainEditor : editor Meta Val := { basePath := .nil, useDefault := false }

/-- The root container `app`. -/
def appMeta : Meta := { ident := "app", kind := .container, dflt := none, parent := [] }

/-- The container `web` below `app`. -/
def webMeta : Meta := { ident := "web", kind := .container, dflt := none, parent := appMeta.chain }

/-- The leaf `addr` of `web`. -/
def addrMeta : Meta := { ident := "addr", kind := .leaf, dflt := none, parent := webMeta.chain }

/-- A schema with one container child: `app { web { addr } }`. -/
def webSchema : Schema := [appMeta, webMeta, addrMeta]

/-- The selection of the source root `src`, bound to `app`. -/
def srcRoot : Selection Meta (List Step) Val := selAt [.field "src"] (.mk .nil appMeta []) false

/-- The selection of the destination root `dst`, bound to `app`. -/
def dstRoot : Selection Meta (List Step) Val := selAt [.field "dst"] (.mk .nil appMeta []) false

/-- A store in which source and destination both hold `web`. -/
def webStore : Store :=
  [([.field "src"], .present), ([.field "src", .field "web"], .present),
   ([.field "src", .field "web", .field "addr"], .leaf (.str "a")),
   ([.field "dst"], .present), ([.field "dst", .field "web"], .present)]

/-- The root list `item`. -/
def itemMeta : Meta := { ident := "item", kind := .list, dflt := none, parent := [] }

/-- The key leaf `id` of `item`. -/
def idMeta : Meta := { ident := "id", kind := .leaf, dflt := none, parent := itemMeta.chain }

/-- The leaf `val` of `item`. -/
def valMeta : Meta := { ident := "val", kind := .leaf, dflt := none, parent := itemMeta.chain }

/-- A schema that is one list: `item { id, val }`. -/
def itemSchema : Schema := [itemMeta, idMeta, valMeta]

/-- The selection of the source list `src`, bound to `item`. -/
def srcList : Selection Meta (List Step) Val := selAt [.field "src"] (.mk .nil itemMeta []) false

/-- The selection of the destination list `dst`, bound to `item`. -/
def dstList : Selection Meta (List Step) Val := selAt [.field "dst"] (.mk .nil itemMeta []) false

/-- The selection of the source item with key `a`. -/
def srcItemA : Selection Meta (List Step) Val :=
  selAt [.field "src", .item [.str "a"]] (.mk .nil itemMeta [.str "a"]) true

/-- A store in which source and destination lists both hold the item `a`. -/
def itemStore : Store :=
  [([.field "src"], .present), ([.field "src", .item [.str "a"]], .present),
   ([.field "src", .item [.str "a"], .field "id"], .leaf (.str "a")),
   ([.field "src", .item [.str "a"], .field "val"], .leaf (.int 1)),
   ([.field "dst"], .present), ([.field "dst", .item [.str "a"]], .present)]

/-- The source request of `editor.list` on `srcList` once the first item,
with key `a`, has been delivered. -/
def itemFromRequest : ListRequest Meta (List Step) Val :=
  { Selection := srcList, Path := .mk .nil itemMeta [.str "a"], Base := .nil,
    From := Selection.empty, New := false, First := true, Row64 := 0, Key := [],
    Meta := itemMeta }

/-- The destination request of `editor.list` before the first iteration. -/
def itemToRequest : ListRequest Meta (List Step) Val :=
  { Selection := dstList, Path := .mk .nil itemMeta [.str "a"], Base := .nil,
    From := Selection.empty, New := false, First := true, Row64 := 0, Key := [],
    Meta := itemMeta }

/-- The choice `transport` below `app`. -/
def transportMeta : Meta :=
  { ident := "transport", kind := .choice, dflt := none, parent := appMeta.chain }

/-- The case `tcp` of `transport`. -/
def tcpMeta : Meta :=
  { ident := "tcp", kind := .case, dflt := none, parent := transportMeta.chain }

/-- The leaf `tcpPort` of the case `tcp`. -/
def tcpPortMeta : Meta :=
  { ident := "tcpPort", kind := .leaf, dflt := none, parent := tcpMeta.chain }

/-- The case `tls` of `transport`. -/
def tlsMeta : Meta :=
  { ident := "tls", kind := .case, dflt := none, parent := transportMeta.chain }

/-- The leaf `tlsPort` of the case `tls`. -/
def tlsPortMeta : Meta :=
  { ident := "tlsPort", kind := .leaf, dflt := none, parent := tlsMeta.chain }

/-- The container `cert` of the case `tls`. -/
def certMeta : Meta :=
  { ident := "cert", kind := .container, dflt := none, parent := tlsMeta.chain }

/-- The leaf `file` of `cert`. -/
def fileMeta : Meta :=
  { ident := "file", kind := .leaf, dflt := none, parent := certMeta.chain }

/-- A schema with a choice:
`app { choice transport { case tcp { tcpPort } case tls { tlsPort, cert { file } } } }`. -/
def choiceSchema : Schema :=
  [appMeta, transportMeta, tcpMeta, tcpPortMeta, tlsMeta, tlsPortMeta, certMeta, fileMeta]

/-- A store in which the destination holds the case `tcp` and the source the
leaf `tlsPort` of the case `tls`. -/
def tcpStore : Store :=
  [([.field "src"], .present), ([.field "src", .field "tlsPort"], .leaf (.int 443)),
   ([.field "dst"], .present), ([.field "dst", .field "tcpPort"], .leaf (.int 80))]

/-- Whether at most one case of the choice holds live data in the data node
at `p`. -/
def atMostOneCase (sch : Schema) (st : Store) (p : List Step) (choice : Meta) : Bool :=
  decide (((sch.cases choice).filter (fun c => caseLive sch st p c)).length ≤ 1)

/-- A store in which the destination holds the case `tcp` and the source the
container `cert`, a member of the case `tls`, with its leaf `file`. -/
def certStore : Store :=
  [([.field "src"], .present), ([.field "src", .field "cert"], .present),
   ([.field "src", .field "cert", .field "file"], .leaf (.str "pem")),
   ([.field "dst"], .present), ([.field "dst", .field "tcpPort"], .leaf (.int 80))]

/-- The leaf `name` of `app`, with default `unnamed`. -/
def nameMeta : Meta :=
  { ident := "name", kind := .leaf, dflt := some (.str "unnamed"), parent := appMeta.chain }

/-- The leaf `port` of `app`, without default. -/
def portMeta : Meta := { ident := "port", kind := .leaf, dflt := none, parent := appMeta.chain }

/-- The leaf `debug` of `app`, with default `false`. -/
def debugMeta : Meta :=
  { ident := "debug", kind := .leaf, dflt := some (.bool false), parent := appMeta.chain }

/-- The schema of the end-to-end scenario:
`app { name (default "unnamed"), port, debug (default false) }`. -/
def appSchema : Schema := [appMeta, nameMeta, portMeta, debugMeta]

/-- The store of the end-to-end scenario: the source container holds
`name = "c1"` and `port = 8090`, the destination container is empty. -/
def appStore : Store :=
  [([.field "src"], .present), ([.field "src", .field "name"], .leaf (.str "c1")),
   ([.field "src", .field "port"], .leaf (.int 8090)), ([.field "dst"], .present)]

/-- Whether the container at `p` is `{name: "c1", port: 8090, debug: false}`. -/
def isMergedApp (st : Store) (p : List Step) : Bool :=
  decide (st.get (p ++ [.field "name"]) = some (.leaf (.str "c1"))) &&
  decide (st.get (p ++ [.field "port"]) = some (.leaf (.int 8090))) &&
  decide (st.get (p ++ [.field "debug"]) = some (.leaf (.bool false)))

/-- The root container `top`, which holds `app` as a child. -/
def topMeta : Meta := { ident := "top", kind := .container, dflt := none, parent := [] }

/-- The container `app` as a child of `top`. -/
def subAppMeta : Meta :=
  { ident := "app", kind := .container, dflt := none, parent := topMeta.chain }

/-- The schema `top { app { name (default "unnamed"), port, debug (default false) } }`. -/
def topSchema : Schema :=
  [topMeta, subAppMeta,
   { ident := "name", kind := .leaf, dflt := some (.str "unnamed"), parent := subAppMeta.chain },
   { ident := "port", kind := .leaf, dflt := none, parent := subAppMeta.chain },
   { ident := "debug", kind := .leaf, dflt := some (.bool false), parent := subAppMeta.chain }]

/-- A store in which the source holds `app` with `name = "c1"` and
`port = 8090` below `top`, and the destination holds `top` only. -/
def topStore : Store :=
  [([.field "src"], .present), ([.field "src", .field "app"], .present),
   ([.field "src", .field "app", .field "name"], .leaf (.str "c1")),
   ([.field "src", .field "app", .field "port"], .leaf (.int 8090)),
   ([.field "dst"], .present)]

/-- The selection of the source root `src`, bound to `top`. -/
def srcTop : Selection Meta (List Step) Val := selAt [.field "src"] (.mk .nil topMeta []) false

/-- The selection of the destination root `dst`, bound to `top`. -/
def dstTop : Selection Meta (List Step) Val := selAt [.field "dst"] (.mk .nil topMeta []) false

end Fixtures

/-! ## The three-item list scenario -/

section ThreeItems

/-- The outcome and the store of a run, without its log. -/
def Result.quiet {M N V σ : Type} (r : Result M N V σ) : Outcome × σ := (r.1, r.2.1)

/-- What an Upsert of the source item with key `k`, `id = a` and `val = b`
does to the store: the destination item is created unless it is there, then
its two leaves are written. -/
def mergeItem (st : Store) (k : List Val) (a b : Val) : Store :=
  ((if (st.get [.field "dst", .item k]).isSome then st
    else st.put [.field "dst", .item k] .present).put
      [.field "dst", .item k, .field "id"] (.leaf a)).put
      [.field "dst", .item k, .field "val"] (.leaf b)

/-- A store whose source list holds three items, with keys `k1`, `k2`, `k3`
and leaves `id` and `val`, and whose destination list is empty. -/
def threeStore (k1 k2 k3 : List Val) (a1 a2 a3 b1 b2 b3 : Val) : Store :=
  [([.field "src"], .present),
   ([.field "src", .item k1], .present),
   ([.field "src", .item k1, .field "id"], .leaf a1),
   ([.field "src", .item k1, .field "val"], .leaf b1),
   ([.field "src", .item k2], .present),
   ([.field "src", .item k2, .field "id"], .leaf a2),
   ([.field "src", .item k2, .field "val"], .leaf b2),
   ([.field "src", .item k3], .present),
   ([.field "src", .item k3, .field "id"], .leaf a3),
   ([.field "src", .item k3, .field "val"], .leaf b3),
   ([.field "dst"], .present)]

/-- The destination items of the three-item scenario after the merge. -/
def mergedItems (k1 k2 k3 : List Val) (a1 a2 a3 b1 b2 b3 : Val) : Store :=
  [([.field "dst", .item k1], .present),
   ([.field "dst", .item k1, .field "id"], .leaf a1),
   ([.field "dst", .item k1, .field "val"], .leaf b1),
   ([.field "dst", .item k2], .present),
   ([.field "dst", .item k2, .field "id"], .leaf a2),
   ([.field "dst", .item k2, .field "val"], .leaf b2),
   ([.field "dst", .item k3], .present),
   ([.field "dst", .item k3, .field "id"], .leaf a3),
   ([.field "dst", .item k3, .field "val"], .leaf b3)]

end ThreeItems

/-! ## Lifecycle brackets -/

section Brackets

variable {M N V σ : Type}

/-- A lifecycle hook as it shows in the log: `start` is a `beginEdit` that
was issued, `stop` an `endEdit` that returned nil.  Both carry the
destination, the `NodeRequest` (with `New` and `EditRoot`) and `bubble`. -/
inductive Bracket (M N V : Type) where
  | start (dest : Selection M N V) (r : NodeRequest M N V) (bubble : Bool)
  | stop (dest : Selection M N V) (r : NodeRequest M N V) (bubble : Bool)

/-- The lifecycle hook a log entry stands for, if any.  An `endEdit` that
fails is the point of failure and closes nothing. -/
def Event.bracket : Event M N V → Option (Bracket M N V)
  | .op (.beginEdit d r b) _ => some (.start d r b)
  | .op (.endEdit d r b) (.error none) => some (.stop d r b)
  | _ => none

/-- The lifecycle hooks of a log, in order. -/
def brackets (t : List (Event M N V)) : List (Bracket M N V) := t.filterMap Event.bracket

/-- Properly nested, balanced sequences of lifecycle hooks: every `start` is
closed by the `stop` with the same destination, request and `bubble`. -/
inductive Balanced : List (Bracket M N V) → Prop where
  | nil : Balanced []
  | wrap (d : Selection M N V) (r : NodeRequest M N V) (b : Bool) (a : List (Bracket M N V)) :
      Balanced a → Balanced (.start d r b :: (a ++ [.stop d r b]))
  | append (a c : List (Bracket M N V)) : Balanced a → Balanced c → Balanced (a ++ c)

/-- The lifecycle hooks of a walk that was aborted inside an `enter`: the
`start` of that `enter` and of every `enter` on the way to the failure is
left without its `stop`; what was completed before the failure is balanced. -/
inductive Pending : List (Bracket M N V) → Prop where
  | last (d : Selection M N V) (r : NodeRequest M N V) (b : Bool) (a : List (Bracket M N V)) :
      Balanced a → Pending (.start d r b :: a)
  | nest (d : Selection M N V) (r : NodeRequest M N V) (b : Bool)
      (a p : List (Bracket M N V)) :
      Balanced a → Pending p → Pending (.start d r b :: (a ++ p))

/-- The lifecycle hooks of a sequence of steps that was aborted: balanced so
far, or balanced up to an `enter` that was aborted. -/
def Aborted (t : List (Bracket M N V)) : Prop :=
  Balanced t ∨ ∃ a p, t = a ++ p ∧ Balanced a ∧ Pending p

/-- The brackets of a run of `node`, `leaf`, `list` or of a loop over them:
balanced on success, aborted on error. -/
def Bracketed (r : Result M N V σ) : Prop :=
  (r.1 = .ret none → Balanced (brackets r.2.2)) ∧
  (∀ e, r.1 = .ret (some e) → Aborted (brackets r.2.2))

/-- The brackets of a run of `enter`: balanced on success, pending on
error. -/
def EnterBracketed (r : Result M N V σ) : Prop :=
  (r.1 = .ret none → Balanced (brackets r.2.2)) ∧
  (∀ e, r.1 = .ret (some e) → Pending (brackets r.2.2))

/-- Whether a log entry belongs to a run of `leaf`: its invocation,
`GetValueHnd`, `Choose`, `ClearField`, `Find`, `Delete` or `SetValueHnd`. -/
def Event.isLeafStep : Event M N V → Bool
  | .leaf _ _ _ _ _ => true
  | .op (.GetValueHnd _ _ _) _ => true
  | .op (.SetValueHnd _ _ _) _ => true
  | .op (.ClearField _ _) _ => true
  | .op (.Find _ _) _ => true
  | .op (.Delete _) _ => true
  | .op (.Choose _ _) _ => true
  | _ => false

end Brackets

/-! ## Errors in the log -/

section ErrorLog

variable {M N V σ : Type}

/-- The failure a log entry reports: that of the answer of an operation. -/
def Event.failure : Event M N V → Option Err
  | .op _ r => r.failure
  | _ => none

end ErrorLog

/-! ## A backing store whose `Find` fails -/

section FailingFind

/-- The selection a failed `Find` answers with: no node, and the error in
`LastErr`. -/
def failedFind : Selection Meta (List Step) Val :=
  { Node := none, Path := .nil, InsideList := false,
    LastErr := some (.NewErr "backing store unavailable") }

/-- The in-memory backing store over a schema, with a `Find` that fails on
every lookup. -/
def findFailEnv (sch : Schema) : Env Meta (List Step) Val Store :=
  { memEnv sch with Find := fun _ _ st => (failedFind, st) }

/-- A store in which the destination holds the case `tls`, with its leaf
`tlsPort` and its container `cert`, and the source the leaf `tcpPort` of the
case `tcp`. -/
def tlsStore : Store :=
  [([.field "src"], .present), ([.field "src", .field "tcpPort"], .leaf (.int 80)),
   ([.field "dst"], .present), ([.field "dst", .field "tlsPort"], .leaf (.int 443)),
   ([.field "dst", .field "cert"], .present),
   ([.field "dst", .field "cert", .field "file"], .leaf (.str "pem"))]

end FailingFind

/-! ## Classes of log entries -/

section MoreClasses

variable {M N V σ : Type}

/-- Whether a log entry is a `Choose` operation. -/
def Event.isChoose : Event M N V → Bool
  | .op (.Choose _ _) _ => true
  | _ => false

/-- The flag `useDefault` that `editor.leaf` computes. -/
def leafUseDefault (self : editor M V) (new : Bool) (strategy : editStrategy) : Bool :=
  (strategy != editUpdate && new) || self.useDefault

/-- The answer to `from.GetValueHnd(&r, &hnd, useDefault)` in `editor.leaf`. -/
def leafRead (env : Env M N V σ) (self : editor M V) (frm : Selection M N V) (m : M)
    (new : Bool) (strategy : editStrategy) (st : σ) : (Option Err × Option V) × σ :=
  env.GetValueHnd frm (leafRequest self frm frm m) (leafUseDefault self new strategy) st

/-- The logged `GetValueHnd` of `editor.leaf`. -/
def leafReadEvent (env : Env M N V σ) (self : editor M V) (frm : Selection M N V) (m : M)
    (new : Bool) (strategy : editStrategy) (st : σ) : Event M N V :=
  .op (.GetValueHnd frm (leafRequest self frm frm m) (leafUseDefault self new strategy))
    (.value (leafRead env self frm m new strategy st).1.1
      (leafRead env self frm m new strategy st).1.2)

end MoreClasses

/-! ## What the invocations of a walk carry -/

section Invocations

variable {M N V σ : Type}

/-- Whether an operation is one of the hooks `beginEdit` and `endEdit`. -/
def Op.isHook : Op M N V → Bool
  | .beginEdit _ _ _ => true
  | .endEdit _ _ _ => true
  | _ => false

/-- The strategy an invocation of `enter`, `leaf`, `node` or `list` is made
with. -/
def Event.strategy : Event M N V → Option editStrategy
  | .enter _ _ _ s _ _ => some s
  | .leaf _ _ _ _ s => some s
  | .node _ _ _ _ s => some s
  | .list _ _ _ _ s => some s
  | .op _ _ => none

/-- Whether a log entry marks the root of an edit: an invocation of `enter`
with `root` or `bubble` set, or a hook with `EditRoot` or `bubble` set. -/
def Event.isRootMark : Event M N V → Bool
  | .enter _ _ _ _ root bubble => root || bubble
  | .op (.beginEdit _ r bubble) _ => r.EditRoot || bubble
  | .op (.endEdit _ r bubble) _ => r.EditRoot || bubble
  | _ => false

/-- Whether a log entry is an invocation of `enter` with a nil source or a
nil destination. -/
def Event.entersNil : Event M N V → Bool
  | .enter frm dest _ _ _ _ => frm.IsNil || dest.IsNil
  | _ => false

end Invocations

/-! ## Where a returned error comes from -/

section ErrorOrigin

variable {M N V σ : Type}

/-- The error is one of the two "could not create" errors of the editor: that
of `node` or that of `list`. -/
def Err.couldNotCreate (env : Env M N V σ) (e : Err) : Prop :=
  (∃ (m : M) (p : Path M V), e = .NewErr (nodeCreateMsg env m p)) ∨
  (∃ dest : Selection M N V, e = .NewErr (listCreateMsg env dest))

/-- An operation of the log `t` answered with the failure `f`, if `f` is a
failure at all. -/
def Answered (t : List (Event M N V)) (f : Option Err) : Prop :=
  f = none ∨ ∃ o resp, Event.op o resp ∈ t ∧ resp.failure = f

/-- An error that a run following the log `p` returns is the failure some
logged operation answered with, or a "could not create" error. -/
def Traced (env : Env M N V σ) (p : List (Event M N V)) (r : Result M N V σ) : Prop :=
  ∀ e, r.1 = .ret (some e) →
    (∃ o resp, Event.op o resp ∈ p ++ r.2.2 ∧ resp.failure = some e) ∨
    Err.couldNotCreate env e

end ErrorOrigin

/-! ## The creating request without a lookup -/

section EmptyKey

variable {M N V σ : Type}

/-- The answer to the creating `SelectListItem` of the loop body of
`editor.list` when no lookup by key came before it. -/
def listCreateFirst (env : Env M N V σ) (dest fromChild : Selection M N V) (key : List V)
    (fromRequest toRequest : ListRequest M N V) (st : σ) : (Selection M N V × List V) × σ :=
  env.SelectListItem dest (listCreateRequest dest fromChild key fromRequest toRequest) st

/-- The logged creating `SelectListItem` when no lookup by key came before
it. -/
def listCreateFirstEvent (env : Env M N V σ) (dest fromChild : Selection M N V) (key : List V)
    (fromRequest toRequest : ListRequest M N V) (st : σ) : Event M N V :=
  .op (.SelectListItem dest (listCreateRequest dest fromChild key fromRequest toRequest))
    (.item (listCreateFirst env dest fromChild key fromRequest toRequest st).1.1
      (listCreateFirst env dest fromChild key fromRequest toRequest st).1.2)

end EmptyKey

/-! ## The row protocol of `list`, in the spec's words

"Call select list item on `from` with `First=true`"; "for the current source
item/key, resolve (or create) the matching destination item per the strategy
table, using the key for identity lookup when non-empty"; "recurse into that
item pair via `enter` with strategy forced to Upsert"; "request the next
source item by incrementing a row counter and reissuing select list item with
`First=false`, carrying the previous key in the path; stop when the source
returns nil with no error". -/

section RowProtocol

variable {M N V σ : Type}

/-- The first source request: `First = true`, row 0, on the path of the list
itself. -/
def firstSourceRequest (self : editor M V) (frm : Selection M N V) (m : M)
    (parent : Path M V) (meta : M) (pkey : List V) : ListRequest M N V :=
  { Selection := frm, Path := .mk parent meta pkey, Base := self.basePath,
    From := Selection.empty, New := false, First := true, Row64 := 0, Key := [], Meta := m }

/-- The source request with row number `i`, issued after the item `prev` with
key `prevKey`: `First = false`, row `i`, the previous key in the path. -/
def nextSourceRequest (self : editor M V) (dest : Selection M N V) (m : M)
    (parent : Path M V) (meta : M) (i : Nat) (prev : Selection M N V) (prevKey : List V) :
    ListRequest M N V :=
  { Selection := prev, Path := .mk parent meta prevKey, Base := self.basePath,
    From := dest, New := false, First := false, Row64 := i, Key := [], Meta := m }

/-- A destination request for the source item `item` with key `key` that was
delivered for row `i`: the same row number, the item's key, and `New` as
given. -/
def destRequestAt (self : editor M V) (dest : Selection M N V) (m : M)
    (parent : Path M V) (meta : M) (i : Nat) (item : Selection M N V) (key : List V)
    (new : Bool) : ListRequest M N V :=
  { Selection := dest, Path := .mk parent meta key, Base := self.basePath,
    From := item, New := new, First := true, Row64 := i, Key := key, Meta := m }

/-- The destination item for one source item is resolved per the strategy
table, no operation failing: found by its key (Update, Upsert), created after
a lookup that found nothing (Upsert, Insert), or created without a lookup
when the key is empty (Upsert, Insert).  The indices are the store before,
the destination item, whether it is new, the store after, and the log. -/
inductive ItemResolved (env : Env M N V σ) (dest : Selection M N V) (strategy : editStrategy)
    (probeRequest createRequest : ListRequest M N V) (key : List V) :
    σ → Selection M N V → Bool → σ → List (Event M N V) → Prop where
  | found (st : σ) :
      key.length > 0 →
      (env.SelectListItem dest probeRequest st).1.1.LastErr = none →
      (env.SelectListItem dest probeRequest st).1.1.IsNil = false →
      strategy = editUpdate ∨ strategy = editUpsert →
      ItemResolved env dest strategy probeRequest createRequest key st
        (env.SelectListItem dest probeRequest st).1.1 false
        (env.SelectListItem dest probeRequest st).2
        [.op (.SelectListItem dest probeRequest)
          (.item (env.SelectListItem dest probeRequest st).1.1
            (env.SelectListItem dest probeRequest st).1.2)]
  | created (st : σ) :
      key.length > 0 →
      (env.SelectListItem dest probeRequest st).1.1.LastErr = none →
      (env.SelectListItem dest probeRequest st).1.1.IsNil = true →
      strategy = editUpsert ∨ strategy = editInsert →
      (env.SelectListItem dest createRequest
        (env.SelectListItem dest probeRequest st).2).1.1.LastErr = none →
      (env.SelectListItem dest createRequest
        (env.SelectListItem dest probeRequest st).2).1.1.IsNil = false →
      ItemResolved env dest strategy probeRequest createRequest key st
        (env.SelectListItem dest createRequest (env.SelectListItem dest probeRequest st).2).1.1
        true
        (env.SelectListItem dest createRequest (env.SelectListItem dest probeRequest st).2).2
        [.op (.SelectListItem dest probeRequest)
          (.item (env.SelectListItem dest probeRequest st).1.1
            (env.SelectListItem dest probeRequest st).1.2),
         .op (.SelectListItem dest createRequest)
          (.item
            (env.SelectListItem dest createRequest
              (env.SelectListItem dest probeRequest st).2).1.1
            (env.SelectListItem dest createRequest
              (env.SelectListItem dest probeRequest st).2).1.2)]
  | createdUnkeyed (st : σ) :
      key.length = 0 →
      strategy = editUpsert ∨ strategy = editInsert →
      (env.SelectListItem dest createRequest st).1.1.LastErr = none →
      (env.SelectListItem dest createRequest st).1.1.IsNil = false →
      ItemResolved env dest strategy probeRequest createRequest key st
        (env.SelectListItem dest createRequest st).1.1 true
        (env.SelectListItem dest createRequest st).2
        [.op (.SelectListItem dest createRequest)
          (.item (env.SelectListItem dest createRequest st).1.1
            (env.SelectListItem dest createRequest st).1.2)]

/-- The run of the row protocol from row `i` on, where the source has
answered the request of row `i` with `item` and `key`: `n` more items are
merged, one after the other, until the source answers with a nil selection.
For each item the destination item is resolved with requests that carry the
row number `i`, `enter` is called once on the pair, with Upsert, and returns
success, and the source is asked for row `i + 1` with the key of the item in
the path.  The indices are the row, the current answer of the source, the
store before, the number of items, the store after, and the log. -/
inductive RowProtocol
    (enterRec : Selection M N V → Selection M N V → Bool → editStrategy → Bool → Bool →
      σ → Result M N V σ)
    (env : Env M N V σ) (self : editor M V) (frm dest : Selection M N V) (m : M)
    (strategy : editStrategy) (parent : Path M V) (meta : M) :
    Nat → Selection M N V → List V → σ → Nat → σ → List (Event M N V) → Prop where
  | stop (i : Nat) (item : Selection M N V) (key : List V) (st : σ) :
      item.IsNil = true →
      RowProtocol enterRec env self frm dest m strategy parent meta i item key st 0 st []
  | step (i : Nat) (item : Selection M N V) (key : List V) (st : σ)
      (toChild : Selection M N V) (newItem : Bool) (st1 : σ) (dlog : List (Event M N V))
      (n : Nat) (st4 : σ) (rest : List (Event M N V)) :
      item.IsNil = false →
      ItemResolved env dest strategy
        (destRequestAt self dest m parent meta i item key false)
        (destRequestAt self dest m parent meta i item key true) key st toChild newItem st1
        dlog →
      (enterRec item toChild newItem editUpsert false false st1).1 = .ret none →
      (env.SelectListItem frm (nextSourceRequest self dest m parent meta (i + 1) item key)
        (enterRec item toChild newItem editUpsert false false st1).2.1).1.1.LastErr = none →
      RowProtocol enterRec env self frm dest m strategy parent meta (i + 1)
        (env.SelectListItem frm (nextSourceRequest self dest m parent meta (i + 1) item key)
          (enterRec item toChild newItem editUpsert false false st1).2.1).1.1
        (env.SelectListItem frm (nextSourceRequest self dest m parent meta (i + 1) item key)
          (enterRec item toChild newItem editUpsert false false st1).2.1).1.2
        (env.SelectListItem frm (nextSourceRequest self dest m parent meta (i + 1) item key)
          (enterRec item toChild newItem editUpsert false false st1).2.1).2
        n st4 rest →
      RowProtocol enterRec env self frm dest m strategy parent meta i item key st (n + 1) st4
        (dlog ++ (enterRec item toChild newItem editUpsert false false st1).2.2 ++
          [.op (.SelectListItem frm (nextSourceRequest self dest m parent meta (i + 1) item key))
            (.item
              (env.SelectListItem frm
                (nextSourceRequest self dest m parent meta (i + 1) item key)
                (enterRec item toChild newItem editUpsert false false st1).2.1).1.1
              (env.SelectListItem frm
                (nextSourceRequest self dest m parent meta (i + 1) item key)
                (enterRec item toChild newItem editUpsert false false st1).2.1).1.2)] ++
          rest)

/-- The requests the loop of `editor.list` holds at the head of the iteration
for row `i`: the row counter of the source request is `i`, and both requests
still have the base path, the schema node and the parent path they were
built with. -/
def RowState (self : editor M V) (m : M) (parent : Path M V) (meta : M) (i : Nat)
    (fromRequest toRequest : ListRequest M N V) : Prop :=
  fromRequest.Row64 = i ∧ fromRequest.Base = self.basePath ∧ fromRequest.Meta = m ∧
  fromRequest.Key = [] ∧ (∃ k, fromRequest.Path = .mk parent meta k) ∧
  toRequest.Base = self.basePath ∧ toRequest.Meta = m ∧
  (∃ k, toRequest.Path = .mk parent meta k)

end RowProtocol

/-! ## More backing stores that fail -/

section MoreFailures

/-- The backing store whose `Find` fails on every lookup, and whose
`SetValueHnd` fails too, with another error. -/
def diskFullEnv (sch : Schema) : Env Meta (List Step) Val Store :=
  { findFailEnv sch with SetValueHnd := fun _ _ _ st => (some (.NewErr "disk full"), st) }

/-- The in-memory backing store over a schema that creates nothing: a
`Select` or `SelectListItem` with `New` set answers with a nil selection and
no error. -/
def refusingEnv (sch : Schema) : Env Meta (List Step) Val Store :=
  { memEnv sch with
    Select := fun sel r st => if r.New then (Selection.empty, st) else memSelect sel r st
    SelectListItem := fun sel r st =>
      if r.New then ((Selection.empty, []), st) else memSelectListItem sel r st }

/-- A store in which the source holds `web` and the destination does not. -/
def webSourceStore : Store :=
  [([.field "src"], .present), ([.field "src", .field "web"], .present),
   ([.field "src", .field "web", .field "addr"], .leaf (.str "a")),
   ([.field "dst"], .present)]

end MoreFailures

/-! ## The strategy in force

Every invocation of `enter` that has not ended yet is a frame.  The strategy
in force inside a frame is the one `enter` was called with; for the call of
`enter` that `list` makes for an item it is Upsert. -/

section Frames

variable {M N V : Type}

/-- An invocation of `enter` that has not ended yet: the strategy it was
called with, and whether it has handed over to `list`. -/
structure Frame where
  strategy : editStrategy
  inList : Bool
  deriving DecidableEq, Repr

/-- The strategy in force for a call of `enter` made from within the frame:
Upsert below `list`, the strategy of the frame otherwise. -/
def Frame.handsDown (f : Frame) : editStrategy :=
  if f.inList then editUpsert else f.strategy

/-- Read a log from the open frames `k` (innermost first) and check that
every invocation carries the strategy in force where it is made.  An
invocation of `enter` must carry what the innermost frame hands down, and
opens a frame; `endEdit` closes the innermost frame; an invocation of `leaf`,
`node` or `list` must carry the strategy of the innermost frame, which has
not handed over to `list` yet; `list` marks the frame.  The result is the
frames left open, or `none` when an invocation carries another strategy. -/
def inForce : List Frame → List (Event M N V) → Option (List Frame)
  | k, [] => some k
  | k, .op (.endEdit _ _ _) _ :: t =>
    match k with
    | [] => none
    | _ :: k1 => inForce k1 t
  | k, .op (.beginEdit _ _ _) _ :: t => inForce k t
  | k, .op (.GetValueHnd _ _ _) _ :: t => inForce k t
  | k, .op (.SetValueHnd _ _ _) _ :: t => inForce k t
  | k, .op (.ClearField _ _) _ :: t => inForce k t
  | k, .op (.Select _ _) _ :: t => inForce k t
  | k, .op (.SelectListItem _ _) _ :: t => inForce k t
  | k, .op (.Find _ _) _ :: t => inForce k t
  | k, .op (.Delete _) _ :: t => inForce k t
  | k, .op (.Choose _ _) _ :: t => inForce k t
  | k, .enter _ _ _ d _ _ :: t =>
    match k with
    | [] => none
    | f :: k1 => if d = f.handsDown then inForce ({ strategy := d, inList := false } :: f :: k1) t
                 else none
  | k, .leaf _ _ _ _ d :: t =>
    match k with
    | [] => none
    | f :: k1 => if d = f.strategy ∧ f.inList = false then inForce (f :: k1) t else none
  | k, .node _ _ _ _ d :: t =>
    match k with
    | [] => none
    | f :: k1 => if d = f.strategy ∧ f.inList = false then inForce (f :: k1) t else none
  | k, .list _ _ _ _ d :: t =>
    match k with
    | [] => none
    | f :: k1 =>
      if d = f.strategy ∧ f.inList = false then
        inForce ({ strategy := f.strategy, inList := true } :: k1) t
      else none

/-- A run whose log, read from the open frames `k0`, has every invocation
carry the strategy in force, and which on success leaves the frames `k1`
open. -/
def Keeps {σ : Type} (k0 k1 : List Frame) (r : Result M N V σ) : Prop :=
  ∃ k2, inForce k0 r.2.2 = some k2 ∧ (r.1 = .ret none → k2 = k1)

end Frames

section FrameSteps

variable {M N V : Type}

/-- Whether a log entry leaves the frames as they are inside a frame with
strategy `d` that has not handed over to `list`: an operation that is not a
hook, or an invocation of `leaf` with `d`. -/
def Event.restsIn (d : editStrategy) : Event M N V → Bool
  | .op o _ => !o.isHook
  | .leaf _ _ _ _ s => decide (s = d)
  | _ => false

end FrameSteps

/-! ## Theorems -/

section StrategyTable

variable {M N V σ : Type}

theorem editUpsert_ne_editInsert : (editUpsert = editInsert) = False := by decide

theorem editUpdate_ne_editInsert : (editUpdate = editInsert) = False := by decide

theorem editUpdate_ne_editUpsert : (editUpdate = editUpsert) = False := by decide

/-- C1: the strategy table of `editor.node`.  When the source child exists and
the first destination `Select` (with `New = false`) reports no error, `node`
logs its two navigation steps and then: under Upsert or Update with the child
present it hands over to `enter` on the existing child with `new = false`,
having issued no further `Select`; under Upsert or Insert with the child
absent it issues one more `Select` with `New = true` and, that one yielding a
child, hands over to `enter` with `new = true`; under Insert with the child
present it returns a 409 error, under Update with the child absent a 404
error. -/
theorem node_strategy_table
    (enterRec : Selection M N V → Selection M N V → Bool → editStrategy → Bool → Bool →
      σ → Result M N V σ)
    (env : Env M N V σ) (self : editor M V) (frm dest : Selection M N V) (m : M)
    (new : Bool) (strategy : editStrategy) (st : σ)
    (hsrc : (nodeSource env self frm m st).1.LastErr = none ∧
      (nodeSource env self frm m st).1.IsNil = false)
    (hprobe : (nodeProbe env self frm dest m st).1.LastErr = none) :
    (strategy = editUpsert → (nodeProbe env self frm dest m st).1.IsNil = false →
      node enterRec env self frm dest m new strategy st
        = after (nodeProbeLog env self frm dest m new strategy st)
            (enterRec (nodeSource env self frm m st).1 (nodeProbe env self frm dest m st).1
              false strategy false false (nodeProbe env self frm dest m st).2)) ∧
    (strategy = editUpsert → (nodeProbe env self frm dest m st).1.IsNil = true →
      (nodeCreate env self frm dest m st).1.LastErr = none →
      (nodeCreate env self frm dest m st).1.IsNil = false →
      node enterRec env self frm dest m new strategy st
        = after (nodeCreateLog env self frm dest m new strategy st)
            (enterRec (nodeSource env self frm m st).1 (nodeCreate env self frm dest m st).1
              true strategy false false (nodeCreate env self frm dest m st).2)) ∧
    (strategy = editInsert → (nodeProbe env self frm dest m st).1.IsNil = true →
      (nodeCreate env self frm dest m st).1.LastErr = none →
      (nodeCreate env self frm dest m st).1.IsNil = false →
      node enterRec env self frm dest m new strategy st
        = after (nodeCreateLog env self frm dest m new strategy st)
            (enterRec (nodeSource env self frm m st).1 (nodeCreate env self frm dest m st).1
              true strategy false false (nodeCreate env self frm dest m st).2)) ∧
    (strategy = editInsert → (nodeProbe env self frm dest m st).1.IsNil = false →
      node enterRec env self frm dest m new strategy st
        = (.ret (some (.NewErrC (nodeDuplicateMsg env m (.mk frm.Path m [])) 409)),
           (nodeProbe env self frm dest m st).2,
           nodeProbeLog env self frm dest m new strategy st)) ∧
    (strategy = editUpdate → (nodeProbe env self frm dest m st).1.IsNil = false →
      node enterRec env self frm dest m new strategy st
        = after (nodeProbeLog env self frm dest m new strategy st)
            (enterRec (nodeSource env self frm m st).1 (nodeProbe env self frm dest m st).1
              false strategy false false (nodeProbe env self frm dest m st).2)) ∧
    (strategy = editUpdate → (nodeProbe env self frm dest m st).1.IsNil = true →
      node enterRec env self frm dest m new strategy st
        = (.ret (some (.NewErrC (nodeNotFoundMsg env m (.mk frm.Path m [])) 404)),
           (nodeProbe env self frm dest m st).2,
           nodeProbeLog env self frm dest m new strategy st)) := by
  obtain ⟨h1, h2⟩ := hsrc
  have e1 := editUpsert_ne_editInsert
  have e2 := editUpdate_ne_editInsert
  have e3 := editUpdate_ne_editUpsert
  simp only [nodeProbeLog, nodeCreateLog, nodeProbe, nodeCreate, nodeSource, nodeFromRequest,
    nodeToRequest] at *
  refine ⟨?_, ?_, ?_, ?_, ?_, ?_⟩
  all_goals
    intro hs
    subst hs
    intros
    simp_all [node, doSelect, after, nodeDescend]

/-- C2: the strategy table of the loop body of `editor.list` for a source item
with a non-empty key.  The destination item is first looked up with
`SelectListItem`, `New = false` and `Key = key`; when that lookup reports no
error: under Upsert or Update with the item found the body hands over to
`enter` on the found item with `new = false`; under Upsert or Insert with the
key absent it issues the creating `SelectListItem` (`New = true`) and, that
one yielding an item, hands over to `enter` with `new = true`; under Insert
with the key present it returns a 409 error, under Update with the key absent
a 404 error.  Every hand-over to `enter` is made with `editUpsert`, whatever
`strategy` is. -/
theorem list_item_strategy_table
    (enterRec : Selection M N V → Selection M N V → Bool → editStrategy → Bool → Bool →
      σ → Result M N V σ)
    (loop : Selection M N V → List V → ListRequest M N V → ListRequest M N V →
      σ → Result M N V σ)
    (env : Env M N V σ) (frm dest : Selection M N V) (strategy : editStrategy)
    (fromChild : Selection M N V) (key : List V) (fromRequest toRequest : ListRequest M N V)
    (st : σ)
    (hkey : key.length > 0)
    (hprobe : (listProbe env dest fromChild key fromRequest toRequest st).1.1.LastErr = none) :
    ((listProbeRequest dest fromChild key fromRequest toRequest).New = false ∧
      (listProbeRequest dest fromChild key fromRequest toRequest).Key = key ∧
      (listCreateRequest dest fromChild key fromRequest toRequest).New = true ∧
      (listCreateRequest dest fromChild key fromRequest toRequest).Key = key) ∧
    ((strategy = editUpsert ∨ strategy = editUpdate) →
      (listProbe env dest fromChild key fromRequest toRequest st).1.1.IsNil = false →
      listItem enterRec loop env frm dest strategy fromChild key fromRequest toRequest st
        = after [listProbeEvent env dest fromChild key fromRequest toRequest st]
            (listAdvance loop env frm dest fromChild key (listKeyedRequest key fromRequest)
              (listCreateRequest dest fromChild key fromRequest toRequest)
              (enterRec fromChild
                (listProbe env dest fromChild key fromRequest toRequest st).1.1
                false editUpsert false false
                (listProbe env dest fromChild key fromRequest toRequest st).2))) ∧
    ((strategy = editUpsert ∨ strategy = editInsert) →
      (listProbe env dest fromChild key fromRequest toRequest st).1.1.IsNil = true →
      (listCreate env dest fromChild key fromRequest toRequest st).1.1.LastErr = none →
      (listCreate env dest fromChild key fromRequest toRequest st).1.1.IsNil = false →
      listItem enterRec loop env frm dest strategy fromChild key fromRequest toRequest st
        = after [listProbeEvent env dest fromChild key fromRequest toRequest st,
                 listCreateEvent env dest fromChild key fromRequest toRequest st]
            (listAdvance loop env frm dest fromChild key (listKeyedRequest key fromRequest)
              (listCreateRequest dest fromChild key fromRequest toRequest)
              (enterRec fromChild
                (listCreate env dest fromChild key fromRequest toRequest st).1.1
                true editUpsert false false
                (listCreate env dest fromChild key fromRequest toRequest st).2))) ∧
    (strategy = editInsert →
      (listProbe env dest fromChild key fromRequest toRequest st).1.1.IsNil = false →
      listItem enterRec loop env frm dest strategy fromChild key fromRequest toRequest st
        = (.ret (some (.NewErrC (listDuplicateMsg env dest) 409)),
           (listProbe env dest fromChild key fromRequest toRequest st).2,
           [listProbeEvent env dest fromChild key fromRequest toRequest st])) ∧
    (strategy = editUpdate →
      (listProbe env dest fromChild key fromRequest toRequest st).1.1.IsNil = true →
      listItem enterRec loop env frm dest strategy fromChild key fromRequest toRequest st
        = (.ret (some (.NewErrC (listNotFoundMsg env key dest) 404)),
           (listProbe env dest fromChild key fromRequest toRequest st).2,
           [listProbeEvent env dest fromChild key fromRequest toRequest st])) := by
  have e1 := editUpsert_ne_editInsert
  have e2 := editUpdate_ne_editInsert
  have e3 := editUpdate_ne_editUpsert
  have e4 : (editUpsert = editUpdate) = False := by decide
  have e5 : (editInsert = editUpdate) = False := by decide
  have e6 : (editInsert = editUpsert) = False := by decide
  refine ⟨⟨rfl, rfl, rfl, rfl⟩, ?_⟩
  simp only [listProbeEvent, listCreateEvent, listProbe, listCreate, listProbeRequest,
    listCreateRequest, listKeyedRequest] at *
  refine ⟨?_, ?_, ?_, ?_⟩
  · rintro (hs | hs) hn <;> subst hs <;>
      simp_all [listItem, listSwitch, listDescend, doSelectListItem, after]
  · rintro (hs | hs) hn hc1 hc2 <;> subst hs <;>
      simp_all [listItem, listSwitch, listDescend, doSelectListItem, after]
  · intro hs hn
    subst hs
    simp_all [listItem, listSwitch, listDescend, doSelectListItem, after]
  · intro hs hn
    subst hs
    simp_all [listItem, listSwitch, listDescend, doSelectListItem, after]

end StrategyTable

section NoMutation

variable {M N V σ : Type}

/-- C3: when `node` or the loop body of `list` fails with Conflict (Insert,
destination child or item present) or with Not-Found (Update, destination
child or item absent), the store is the one the navigation left and the log
holds nothing but the invocation, the source `Select` (for `node`) and the
lookup with `New = false`: no creating select, `beginEdit`, `endEdit`,
`SetValueHnd`, `ClearField` or `Delete` is logged, and `enter` is not
reached.  For a source item with an empty key, Update fails with Not-Found
without any operation. -/
theorem conflict_and_not_found_leave_no_trace
    (enterRec : Selection M N V → Selection M N V → Bool → editStrategy → Bool → Bool →
      σ → Result M N V σ)
    (loop : Selection M N V → List V → ListRequest M N V → ListRequest M N V →
      σ → Result M N V σ)
    (env : Env M N V σ) (self : editor M V) (frm dest : Selection M N V) (m : M)
    (new : Bool) (strategy : editStrategy) (st : σ)
    (fromChild : Selection M N V) (key : List V) (fromRequest toRequest : ListRequest M N V)
    (hcase : strategy = editInsert ∨ strategy = editUpdate) :
    ((nodeSource env self frm m st).1.LastErr = none →
      (nodeSource env self frm m st).1.IsNil = false →
      (nodeProbe env self frm dest m st).1.LastErr = none →
      (nodeProbe env self frm dest m st).1.IsNil = decide (strategy = editUpdate) →
      (node enterRec env self frm dest m new strategy st).1
          = .ret (some (if strategy = editInsert
              then .NewErrC (nodeDuplicateMsg env m (.mk frm.Path m [])) 409
              else .NewErrC (nodeNotFoundMsg env m (.mk frm.Path m [])) 404)) ∧
        (node enterRec env self frm dest m new strategy st).2.1
          = (nodeProbe env self frm dest m st).2 ∧
        (node enterRec env self frm dest m new strategy st).2.2
          = nodeProbeLog env self frm dest m new strategy st ∧
        (node enterRec env self frm dest m new strategy st).2.2.all (fun e => !e.edits)
          = true) ∧
    (key.length > 0 →
      (listProbe env dest fromChild key fromRequest toRequest st).1.1.LastErr = none →
      (listProbe env dest fromChild key fromRequest toRequest st).1.1.IsNil
        = decide (strategy = editUpdate) →
      (listItem enterRec loop env frm dest strategy fromChild key fromRequest toRequest st).1
          = .ret (some (if strategy = editInsert
              then .NewErrC (listDuplicateMsg env dest) 409
              else .NewErrC (listNotFoundMsg env key dest) 404)) ∧
        (listItem enterRec loop env frm dest strategy fromChild key fromRequest toRequest st).2.1
          = (listProbe env dest fromChild key fromRequest toRequest st).2 ∧
        (listItem enterRec loop env frm dest strategy fromChild key fromRequest toRequest st).2.2
          = [listProbeEvent env dest fromChild key fromRequest toRequest st] ∧
        (listItem enterRec loop env frm dest strategy fromChild key fromRequest
          toRequest st).2.2.all (fun e => !e.edits) = true) ∧
    (key.length = 0 → strategy = editUpdate →
      listItem enterRec loop env frm dest strategy fromChild key fromRequest toRequest st
        = (.ret (some (.NewErrC (listNotFoundMsg env key dest) 404)), st, [])) := by
  have e1 := editUpsert_ne_editInsert
  have e2 := editUpdate_ne_editInsert
  have e3 := editUpdate_ne_editUpsert
  have e5 : (editInsert = editUpdate) = False := by decide
  have e6 : (editInsert = editUpsert) = False := by decide
  simp only [nodeProbeLog, nodeProbe, nodeSource, nodeFromRequest, nodeToRequest,
    listProbeEvent, listProbe, listProbeRequest] at *
  refine ⟨?_, ?_, ?_⟩
  · intro h1 h2 h3 h4
    rcases hcase with hs | hs <;> subst hs <;>
      simp_all [node, doSelect, after, nodeDescend, Event.edits, Op.edits]
  · intro hk h3 h4
    rcases hcase with hs | hs <;> subst hs <;>
      simp_all [listItem, listSwitch, listDescend, doSelectListItem, after, Event.edits,
        Op.edits, listToRequest, ListRequest.SetRow]
  · intro hk hs
    subst hs
    have hk0 : ¬ (key.length > 0) := by omega
    simp_all [listItem, listSwitch, Selection.empty, Selection.IsNil]

end NoMutation

section LeafRead

variable {M N V σ : Type}

theorem after_fst (t : List (Event M N V)) (r : Result M N V σ) : (after t r).1 = r.1 := rfl

theorem after_store (t : List (Event M N V)) (r : Result M N V σ) :
    (after t r).2.1 = r.2.1 := rfl

theorem after_log (t : List (Event M N V)) (r : Result M N V σ) :
    (after t r).2.2 = t ++ r.2.2 := rfl

theorem andThen_log (r : Result M N V σ) (k : σ → Result M N V σ) :
    (andThen r k).2.2 = if r.1 = .ret none then r.2.2 ++ (k r.2.1).2.2 else r.2.2 := by
  obtain ⟨o, st, t⟩ := r
  cases o with
  | ret e => cases e <;> simp [andThen, after]
  | panic => simp [andThen]
  | outOfFuel => simp [andThen]

theorem andThen_fst (r : Result M N V σ) (k : σ → Result M N V σ) :
    (andThen r k).1 = if r.1 = .ret none then (k r.2.1).1 else r.1 := by
  obtain ⟨o, st, t⟩ := r
  cases o with
  | ret e => cases e <;> simp [andThen, after]
  | panic => simp [andThen]
  | outOfFuel => simp [andThen]

theorem andThen_store (r : Result M N V σ) (k : σ → Result M N V σ) :
    (andThen r k).2.1 = if r.1 = .ret none then (k r.2.1).2.1 else r.2.1 := by
  obtain ⟨o, st, t⟩ := r
  cases o with
  | ret e => cases e <;> simp [andThen, after]
  | panic => simp [andThen]
  | outOfFuel => simp [andThen]

theorem logAll_done (P : Event M N V → Prop) (o : Outcome) (st : σ) :
    LogAll P ((o, st, []) : Result M N V σ) := by
  intro e he
  simp at he

theorem logAll_after (P : Event M N V → Prop) (t : List (Event M N V)) (r : Result M N V σ)
    (ht : ∀ e ∈ t, P e) (hr : LogAll P r) : LogAll P (after t r) := by
  intro e he
  rw [after_log, List.mem_append] at he
  rcases he with he | he
  · exact ht e he
  · exact hr e he

theorem logAll_andThen (P : Event M N V → Prop) (r : Result M N V σ) (k : σ → Result M N V σ)
    (hr : LogAll P r) (hk : ∀ st, LogAll P (k st)) : LogAll P (andThen r k) := by
  intro e he
  rw [andThen_log] at he
  split at he
  · rw [List.mem_append] at he
    rcases he with he | he
    · exact hr e he
    · exact hk _ e he
  · exact hr e he

/-- The loop of `clearChoiceCase` logs `ClearField`, `Find` and `Delete`
operations only. -/
theorem clearChoiceCaseLoop_log_isClearing (env : Env M N V σ) (sel : Selection M N V)
    (ms : List M) (st : σ) :
    LogAll (fun e => e.isClearing = true) (clearChoiceCaseLoop env sel ms st) := by
  induction ms generalizing st with
  | nil => exact logAll_done _ _ _
  | cons m ms ih =>
    unfold clearChoiceCaseLoop
    split
    · apply logAll_after
      · simp [Event.isClearing]
      · beta_reduce
        split
        · exact logAll_done _ _ _
        · exact ih _
    · apply logAll_after
      · simp [Event.isClearing]
      · beta_reduce
        split
        · apply logAll_after
          · simp [Event.isClearing]
          · beta_reduce
            split
            · exact logAll_done _ _ _
            · exact ih _
        · exact ih _

theorem isClearing_not_get (e : Event M N V) (h : e.isClearing = true) :
    e.isGetValueHnd = false := by
  cases e with
  | op o r => cases o <;> simp_all [Event.isClearing, Event.isGetValueHnd]
  | _ => simp_all [Event.isClearing]

/-- Method `clearOnDifferentChoiceCase` logs `Choose`, `ClearField`, `Find`
and `Delete` operations only; none of them reads a leaf. -/
theorem clearOnDifferentChoiceCase_log_not_get [DecidableEq M] (env : Env M N V σ) (self : editor M V)
    (existing : Selection M N V) (want : M) (st : σ) :
    LogAll (fun e => e.isGetValueHnd = false)
      (clearOnDifferentChoiceCase env self existing want st) := by
  unfold clearOnDifferentChoiceCase
  split
  · exact logAll_done _ _ _
  · apply logAll_after
    · simp [Event.isGetValueHnd]
    · beta_reduce
      split
      · exact logAll_done _ _ _
      · split
        · exact logAll_done _ _ _
        · split
          · exact logAll_done _ _ _
          · intro e he
            exact isClearing_not_get e (clearChoiceCaseLoop_log_isClearing env existing _ _ e he)

/-- C6: every run of `leaf` logs, right after its invocation, one
`GetValueHnd` on the source whose `useDefault` flag is "(strategy is not
Update and new) or the editor's global flag", and no other `GetValueHnd`.
With the global flag off the flag is therefore off under Update and for an
existing node (`new = false`), and on for a new node under Upsert or Insert. -/
theorem leaf_reads_with_useDefault [DecidableEq M] (env : Env M N V σ) (self : editor M V)
    (frm dest : Selection M N V) (m : M) (new : Bool) (strategy : editStrategy) (st : σ) :
    (∃ resp rest, (leaf env self frm dest m new strategy st).2.2
        = .leaf frm dest m new strategy ::
          .op (.GetValueHnd frm
                { Selection := frm, Path := .mk frm.Path m [], Base := self.basePath, Meta := m }
                (specUseDefault self new strategy)) resp :: rest ∧
        ∀ e ∈ rest, e.isGetValueHnd = false) ∧
    (self.useDefault = false → (strategy = editUpdate ∨ new = false) →
      specUseDefault self new strategy = false) ∧
    (self.useDefault = false → (strategy = editUpsert ∨ strategy = editInsert) → new = true →
      specUseDefault self new strategy = true) := by
  refine ⟨?_, ?_, ?_⟩
  · have hflag : ((strategy != editUpdate && new) || self.useDefault)
        = specUseDefault self new strategy := by
      unfold specUseDefault
      cases new <;> cases hu : self.useDefault <;> by_cases hs : strategy = editUpdate <;>
        simp [hs]
    unfold leaf
    simp only [doGetValueHnd, after_log, hflag]
    refine ⟨_, _, rfl, ?_⟩
    show LogAll (fun e => e.isGetValueHnd = false) _
    beta_reduce
    split
    · exact logAll_done _ _ _
    · split
      · exact logAll_done _ _ _
      · apply logAll_andThen
        · split
          · exact clearOnDifferentChoiceCase_log_not_get env self dest m _
          · exact logAll_done _ _ _
        · intro st2
          apply logAll_after
          · simp [Event.isGetValueHnd]
          · beta_reduce
            split <;> exact logAll_done _ _ _
  · intro hu h
    rcases h with h | h <;> simp [specUseDefault, hu, h]
  · intro hu h hn
    rcases h with h | h <;> subst h <;> simp [specUseDefault, hu, hn] <;> decide

end LeafRead

section ChoiceClearing

variable {M N V σ : Type}

/-- The loop of `clearChoiceCase` never ends otherwise than by returning, and
logs no `SetValueHnd`. -/
theorem clearChoiceCaseLoop_returns (env : Env M N V σ) (sel : Selection M N V)
    (ms : List M) (st : σ) :
    ∃ err, (clearChoiceCaseLoop env sel ms st).1 = .ret err := by
  induction ms generalizing st with
  | nil => exact ⟨none, rfl⟩
  | cons m ms ih =>
    unfold clearChoiceCaseLoop
    split
    · simp only [doClearField, after_fst]
      split
      · exact ⟨_, rfl⟩
      · exact ih _
    · simp only [doFind, after_fst]
      split
      · simp only [doDelete, after_fst]
        split
        · exact ⟨_, rfl⟩
        · exact ih _
      · exact ih _

theorem isClearing_not_set (e : Event M N V) (h : e.isClearing = true) :
    e.isSetValueHnd = false := by
  cases e with
  | op o r => cases o <;> simp_all [Event.isClearing, Event.isSetValueHnd]
  | _ => simp_all [Event.isClearing]

/-- The tail of `editor.leaf`: `SetValueHnd` and the return of its error. -/
theorem doSetValueHnd_ret (env : Env M N V σ) (self : editor M V) (frm dest : Selection M N V)
    (m : M) (val : V) (st : σ) :
    (doSetValueHnd env dest (leafRequest self dest frm m) val st fun err st3 =>
        match err with
        | some e => ((.ret (some e), st3, []) : Result M N V σ)
        | none => (.ret none, st3, []))
      = (.ret (env.SetValueHnd dest (leafRequest self dest frm m) val st).1,
         (env.SetValueHnd dest (leafRequest self dest frm m) val st).2,
         [leafSetEvent env self frm dest m val st]) := by
  unfold doSetValueHnd leafSetEvent
  cases (env.SetValueHnd dest (leafRequest self dest frm m) val st).1 <;> rfl

end ChoiceClearing

section StoreLemmas

theorem Store.get_eq_none_iff (st : Store) (p : List Step) :
    st.get p = none ↔ ∀ e ∈ st, e.1 ≠ p := by
  unfold Store.get
  simp [List.find?_eq_none]

theorem Store.get_erase_self (st : Store) (p : List Step) : (st.erase p).get p = none := by
  rw [Store.get_eq_none_iff]
  intro e he
  simp [Store.erase] at he
  exact he.2

theorem Store.get_erase_none (st : Store) (p q : List Step) (h : st.get q = none) :
    (st.erase p).get q = none := by
  rw [Store.get_eq_none_iff] at h ⊢
  intro e he
  simp [Store.erase] at he
  exact h e he.1

theorem Store.get_deleteTree_self (st : Store) (p : List Step) :
    (st.deleteTree p).get p = none := by
  rw [Store.get_eq_none_iff]
  intro e he heq
  simp [Store.deleteTree, below] at he
  exact he.2 (by rw [heq]; simp)

theorem Store.get_deleteTree_none (st : Store) (p q : List Step) (h : st.get q = none) :
    (st.deleteTree p).get q = none := by
  rw [Store.get_eq_none_iff] at h ⊢
  intro e he
  simp [Store.deleteTree] at he
  exact h e he.1

theorem Store.find_replace_self (st : Store) (p : List Step) (c : Cell) :
    ((st.map (fun e => if e.1 = p then (p, c) else e)).find?
        (fun e => decide (e.1 = p))).map (fun e => e.2)
      = if st.any (fun e => decide (e.1 = p)) then some c else none := by
  induction st with
  | nil => rfl
  | cons e st ih =>
    by_cases he : e.1 = p
    · simp only [List.map_cons, he, if_true, List.find?_cons, decide_True, Option.map_some',
        List.any_cons, Bool.true_or]
    · simp only [List.map_cons, he, if_false, List.find?_cons, decide_False, List.any_cons,
        Bool.false_or]
      exact ih

theorem Store.find_replace_ne (st : Store) (p q : List Step) (c : Cell) (h : q ≠ p) :
    ((st.map (fun e => if e.1 = p then (p, c) else e)).find?
        (fun e => decide (e.1 = q))).map (fun e => e.2)
      = (st.find? (fun e => decide (e.1 = q))).map (fun e => e.2) := by
  have hpq : ¬ p = q := fun h2 => h h2.symm
  induction st with
  | nil => rfl
  | cons e st ih =>
    by_cases he : e.1 = p
    · have hq : ¬ e.1 = q := by rw [he]; exact hpq
      simp only [List.map_cons, he, if_true, List.find?_cons, hpq, hq, decide_False]
      exact ih
    · by_cases hq : e.1 = q
      · have h2 : ¬ q = p := h
        simp only [List.map_cons, he, if_false, List.find?_cons, hq, decide_True, h2]
      · simp only [List.map_cons, he, if_false, List.find?_cons, hq, decide_False]
        exact ih

theorem Store.get_put_self (st : Store) (p : List Step) (c : Cell) :
    (st.put p c).get p = some c := by
  unfold Store.put Store.get
  split
  · rename_i h
    rw [Store.find_replace_self, if_pos h]
  · rename_i h
    have hn : List.find? (fun e => decide (e.1 = p)) st = none := by
      rw [List.find?_eq_none]
      intro e he hp
      exact h (List.any_eq_true.mpr ⟨e, he, hp⟩)
    simp [List.find?_append, hn]

theorem Store.get_put_ne (st : Store) (p q : List Step) (c : Cell) (h : q ≠ p) :
    (st.put p c).get q = st.get q := by
  unfold Store.put Store.get
  split
  · exact Store.find_replace_ne st p q c h
  · have hq2 : ¬ p = q := fun h2 => h h2.symm
    simp [List.find?_append, hq2]

end StoreLemmas

section MemChoice

/-- On the in-memory store the loop of `clearChoiceCase` always succeeds,
leaves none of the members it went through, and brings nothing back. -/
theorem mem_clearChoiceCaseLoop (sch : Schema) (dest : Selection Meta (List Step) Val)
    (p : List Step) (hdest : dest.Node = some p) (ms : List Meta) (st : Store) :
    (clearChoiceCaseLoop (memEnv sch) dest ms st).1 = .ret none ∧
    (∀ a ∈ ms, (clearChoiceCaseLoop (memEnv sch) dest ms st).2.1.get
        (p ++ [Step.field a.ident]) = none) ∧
    (∀ q, st.get q = none → (clearChoiceCaseLoop (memEnv sch) dest ms st).2.1.get q = none) := by
  induction ms generalizing st with
  | nil => simp [clearChoiceCaseLoop]
  | cons m ms ih =>
    unfold clearChoiceCaseLoop
    by_cases hl : (memEnv sch).IsLeaf m = true
    · have hop : (memEnv sch).ClearField dest m st
          = (none, st.erase (p ++ [Step.field m.ident])) := by
        simp [memEnv, memClearField, hdest]
      simp only [hl, if_true, doClearField, hop, after_fst, after_store]
      obtain ⟨h1, h2, h3⟩ := ih (st.erase (p ++ [Step.field m.ident]))
      refine ⟨h1, ?_, ?_⟩
      · intro a ha
        rcases List.mem_cons.mp ha with ha | ha
        · subst ha
          exact h3 _ (Store.get_erase_self st _)
        · exact h2 a ha
      · intro q hq
        exact h3 q (Store.get_erase_none st _ q hq)
    · simp only [hl, if_false, doFind, after_fst, after_store]
      cases hg : st.get (p ++ [Step.field m.ident]) with
      | none =>
        have hop : (memEnv sch).Find dest ((memEnv sch).Ident m) st = (Selection.empty, st) := by
          simp [memEnv, memFind, hdest, hg]
        simp only [hop, Selection.empty, Selection.IsNil, Option.isNone_none, Bool.not_true,
          Bool.false_eq_true, if_false]
        obtain ⟨h1, h2, h3⟩ := ih st
        refine ⟨h1, ?_, h3⟩
        intro a ha
        rcases List.mem_cons.mp ha with ha | ha
        · subst ha
          exact h3 _ hg
        · exact h2 a ha
      | some cell =>
        have hop : ((memEnv sch).Find dest ((memEnv sch).Ident m) st).2 = st ∧
            ((memEnv sch).Find dest ((memEnv sch).Ident m) st).1.Node
              = some (p ++ [Step.field m.ident]) := by
          simp [memEnv, memFind, hdest, hg, selAt]
        obtain ⟨hs, hn⟩ := hop
        have hnil : ((memEnv sch).Find dest ((memEnv sch).Ident m) st).1.IsNil = false := by
          simp [Selection.IsNil, hn]
        have hdel : (memEnv sch).Delete ((memEnv sch).Find dest ((memEnv sch).Ident m) st).1
            ((memEnv sch).Find dest ((memEnv sch).Ident m) st).2
            = (none, st.deleteTree (p ++ [Step.field m.ident])) := by
          rw [hs]
          simp only [memEnv, memDelete]
          simp only [memEnv] at hn
          rw [hn]
        simp only [hnil, Bool.not_false, if_true, doDelete, hdel, after_fst, after_store]
        obtain ⟨h1, h2, h3⟩ := ih (st.deleteTree (p ++ [Step.field m.ident]))
        refine ⟨h1, ?_, ?_⟩
        · intro a ha
          rcases List.mem_cons.mp ha with ha | ha
          · subst ha
            exact h3 _ (Store.get_deleteTree_self st _)
          · exact h2 a ha
        · intro q hq
          exact h3 q (Store.get_deleteTree_none st _ q hq)

end MemChoice

section Witnesses

/-- Witness of C1: Upsert of `web`, which the destination already holds. -/
theorem node_strategy_table_witness :
    ((nodeSource (memEnv webSchema) plainEditor srcRoot webMeta webStore).1.LastErr = none ∧
      (nodeSource (memEnv webSchema) plainEditor srcRoot webMeta webStore).1.IsNil = false) ∧
    (nodeProbe (memEnv webSchema) plainEditor srcRoot dstRoot webMeta webStore).1.LastErr
      = none ∧
    node (enter (memEnv webSchema) plainEditor 2) (memEnv webSchema) plainEditor srcRoot
        dstRoot webMeta false editUpsert webStore
      = after (nodeProbeLog (memEnv webSchema) plainEditor srcRoot dstRoot webMeta false
          editUpsert webStore)
          (enter (memEnv webSchema) plainEditor 2
            (nodeSource (memEnv webSchema) plainEditor srcRoot webMeta webStore).1
            (nodeProbe (memEnv webSchema) plainEditor srcRoot dstRoot webMeta webStore).1
            false editUpsert false false
            (nodeProbe (memEnv webSchema) plainEditor srcRoot dstRoot webMeta webStore).2) :=
  ⟨by decide, by decide,
   (node_strategy_table (enter (memEnv webSchema) plainEditor 2) (memEnv webSchema)
      plainEditor srcRoot dstRoot webMeta false editUpsert webStore (by decide)
      (by decide)).1 rfl (by decide)⟩

/-- Witness of C2: Insert of the item `a`, which the destination already
holds, fails with 409. -/
theorem list_item_strategy_table_witness :
    ([Val.str "a"].length > 0) ∧
    (listProbe (memEnv itemSchema) dstList srcItemA [.str "a"] itemFromRequest itemToRequest
      itemStore).1.1.LastErr = none ∧
    listItem (enter (memEnv itemSchema) plainEditor 2)
        (listLoop (enter (memEnv itemSchema) plainEditor 2) (memEnv itemSchema) srcList dstList
          editInsert 2)
        (memEnv itemSchema) srcList dstList editInsert srcItemA [.str "a"] itemFromRequest
        itemToRequest itemStore
      = (.ret (some (.NewErrC (listDuplicateMsg (memEnv itemSchema) dstList) 409)),
         (listProbe (memEnv itemSchema) dstList srcItemA [.str "a"] itemFromRequest
           itemToRequest itemStore).2,
         [listProbeEvent (memEnv itemSchema) dstList srcItemA [.str "a"] itemFromRequest
           itemToRequest itemStore]) :=
  ⟨by decide, by decide,
   (list_item_strategy_table (enter (memEnv itemSchema) plainEditor 2)
      (listLoop (enter (memEnv itemSchema) plainEditor 2) (memEnv itemSchema) srcList dstList
        editInsert 2)
      (memEnv itemSchema) srcList dstList editInsert srcItemA [.str "a"] itemFromRequest
      itemToRequest itemStore (by decide) (by decide)).2.2.2.1 rfl (by decide)⟩

/-- Witness of C3: Insert of `web`, which the destination already holds. -/
theorem conflict_and_not_found_leave_no_trace_witness :
    (editInsert = editInsert ∨ editInsert = editUpdate) ∧
    (node (enter (memEnv webSchema) plainEditor 2) (memEnv webSchema) plainEditor srcRoot
        dstRoot webMeta false editInsert webStore).2.1 = webStore ∧
    (node (enter (memEnv webSchema) plainEditor 2) (memEnv webSchema) plainEditor srcRoot
        dstRoot webMeta false editInsert webStore).2.2.all (fun e => !e.edits) = true :=
  ⟨Or.inl rfl,
   ((conflict_and_not_found_leave_no_trace (enter (memEnv webSchema) plainEditor 2)
      (listLoop (enter (memEnv webSchema) plainEditor 2) (memEnv webSchema) srcRoot dstRoot
        editInsert 2)
      (memEnv webSchema) plainEditor srcRoot dstRoot webMeta false editInsert webStore
      srcItemA [] itemFromRequest itemToRequest (Or.inl rfl)).1 (by decide) (by decide)
      (by decide) (by decide)).2.1,
   ((conflict_and_not_found_leave_no_trace (enter (memEnv webSchema) plainEditor 2)
      (listLoop (enter (memEnv webSchema) plainEditor 2) (memEnv webSchema) srcRoot dstRoot
        editInsert 2)
      (memEnv webSchema) plainEditor srcRoot dstRoot webMeta false editInsert webStore
      srcItemA [] itemFromRequest itemToRequest (Or.inl rfl)).1 (by decide) (by decide)
      (by decide) (by decide)).2.2.2⟩

end Witnesses

section EndToEnd

/-- C4, at the failing input: the destination holds the case `tcp` alone, the
source holds the container `cert`, a member of the case `tls`.  The Upsert
succeeds, `node` creates `cert` and `leaf` writes `file` below it without any
`Choose`, `ClearField` or `Delete`, and afterwards both cases hold live
data. -/
theorem upsert_of_container_member_keeps_other_case :
    atMostOneCase choiceSchema certStore [.field "dst"] transportMeta = true ∧
    (edit (memEnv choiceSchema) plainEditor 3 srcRoot dstRoot editUpsert certStore).1
      = .ret none ∧
    (edit (memEnv choiceSchema) plainEditor 3 srcRoot dstRoot editUpsert certStore).2.2.all
      (fun e => !e.isClearing) = true ∧
    caseLive choiceSchema
      (edit (memEnv choiceSchema) plainEditor 3 srcRoot dstRoot editUpsert certStore).2.1
      [.field "dst"] tcpMeta = true ∧
    caseLive choiceSchema
      (edit (memEnv choiceSchema) plainEditor 3 srcRoot dstRoot editUpsert certStore).2.1
      [.field "dst"] tlsMeta = true ∧
    atMostOneCase choiceSchema
      (edit (memEnv choiceSchema) plainEditor 3 srcRoot dstRoot editUpsert certStore).2.1
      [.field "dst"] transportMeta = false := by
  decide

/-- C7 as stated fails: with the global default flag off, the Upsert into the
empty destination container succeeds and leaves `debug` absent, since `edit`
enters the root with `new = false`. -/
theorem upsert_into_existing_container_skips_default :
    (edit (memEnv appSchema) plainEditor 3 srcRoot dstRoot editUpsert appStore).1 = .ret none ∧
    (edit (memEnv appSchema) plainEditor 3 srcRoot dstRoot editUpsert appStore).2.1.get
      [.field "dst", .field "debug"] = none ∧
    isMergedApp (edit (memEnv appSchema) plainEditor 3 srcRoot dstRoot editUpsert appStore).2.1
      [.field "dst"] = false := by
  decide

/-- C7 as amended: the Upsert yields `{name: "c1", port: 8090}` with `debug`
absent when the destination container exists and the global default flag is
off; it yields `{name: "c1", port: 8090, debug: false}` when the global
default flag is on, and when the container is a child that the destination
does not hold yet, so that the edit creates it. -/
theorem upsert_fills_defaults_of_new_container :
    ((edit (memEnv appSchema) plainEditor 3 srcRoot dstRoot editUpsert appStore).2.1
      = appStore ++ [([.field "dst", .field "name"], .leaf (.str "c1")),
                     ([.field "dst", .field "port"], .leaf (.int 8090))]) ∧
    ((edit (memEnv appSchema) { basePath := .nil, useDefault := true } 3 srcRoot dstRoot
        editUpsert appStore).1 = .ret none ∧
      (edit (memEnv appSchema) { basePath := .nil, useDefault := true } 3 srcRoot dstRoot
        editUpsert appStore).2.1
      = appStore ++ [([.field "dst", .field "name"], .leaf (.str "c1")),
                     ([.field "dst", .field "port"], .leaf (.int 8090)),
                     ([.field "dst", .field "debug"], .leaf (.bool false))]) ∧
    ((edit (memEnv topSchema) plainEditor 3 srcTop dstTop editUpsert topStore).1 = .ret none ∧
      (edit (memEnv topSchema) plainEditor 3 srcTop dstTop editUpsert topStore).2.1
      = topStore ++ [([.field "dst", .field "app"], .present),
                     ([.field "dst", .field "app", .field "name"], .leaf (.str "c1")),
                     ([.field "dst", .field "app", .field "port"], .leaf (.int 8090)),
                     ([.field "dst", .field "app", .field "debug"], .leaf (.bool false))] ∧
      isMergedApp (edit (memEnv topSchema) plainEditor 3 srcTop dstTop editUpsert topStore).2.1
        [.field "dst", .field "app"] = true) := by
  decide

end EndToEnd

section ThreeItemsProof

section
variable (sch : Schema)
theorem memEnv_IsList (m : Meta) : (memEnv sch).IsList m = decide (m.kind = Kind.list) := rfl
theorem memEnv_IsLeaf (m : Meta) : (memEnv sch).IsLeaf m = decide (m.kind = Kind.leaf) := rfl
theorem memEnv_Meta : (memEnv sch).Meta = selMeta := rfl
theorem memEnv_ContainerMetaList (sel : Selection Meta (List Step) Val) (st : Store) : (memEnv sch).ContainerMetaList sel st = sch.children (selMeta sel) := rfl
theorem memEnv_beginEdit (a b c) (st : Store) : (memEnv sch).beginEdit a b c st = (none, st) := rfl
theorem memEnv_endEdit (a b c) (st : Store) : (memEnv sch).endEdit a b c st = (none, st) := rfl
theorem memEnv_GetValueHnd : (memEnv sch).GetValueHnd = memGetValueHnd := rfl
theorem memEnv_SetValueHnd : (memEnv sch).SetValueHnd = memSetValueHnd := rfl
theorem memEnv_SelectListItem : (memEnv sch).SelectListItem = memSelectListItem := rfl
theorem memEnv_parentCase (m : Meta) : (memEnv sch).parentCase m = 
    match m.parent with
    | (i, Kind.case) :: rest => some { ident := i, kind := Kind.case, dflt := none, parent := rest }
    | _ => none := rfl
end

section
variable {M N V σ : Type}
theorem quiet_after (t : List (Event M N V)) (r : Result M N V σ) : (after t r).quiet = r.quiet := rfl
theorem quiet_andThen (r : Result M N V σ) (k : σ → Result M N V σ) (st : σ)
    (h : r.quiet = (.ret none, st)) : (andThen r k).quiet = (k st).quiet := by
  obtain ⟨o, s, t⟩ := r
  simp only [Result.quiet, Prod.mk.injEq] at h
  obtain ⟨h1, h2⟩ := h
  subst h1 h2
  rfl
theorem quiet_doSelectListItem (env : Env M N V σ) (sel : Selection M N V) (r : ListRequest M N V)
    (st : σ) (k : Selection M N V → List V → σ → Result M N V σ) :
    (doSelectListItem env sel r st k).quiet
      = (k (env.SelectListItem sel r st).1.1 (env.SelectListItem sel r st).1.2
          (env.SelectListItem sel r st).2).quiet := rfl
theorem quiet_doBeginEdit (env : Env M N V σ) (sel : Selection M N V) (r : NodeRequest M N V)
    (b : Bool) (st : σ) (k : Option Err → σ → Result M N V σ) :
    (doBeginEdit env sel r b st k).quiet
      = (k (env.beginEdit sel r b st).1 (env.beginEdit sel r b st).2).quiet := rfl
theorem quiet_doEndEdit (env : Env M N V σ) (sel : Selection M N V) (r : NodeRequest M N V)
    (b : Bool) (st : σ) (k : Option Err → σ → Result M N V σ) :
    (doEndEdit env sel r b st k).quiet
      = (k (env.endEdit sel r b st).1 (env.endEdit sel r b st).2).quiet := rfl
end

theorem listLoop_pos {M N V σ : Type} 
    (enterRec : Selection M N V → Selection M N V → Bool → editStrategy → Bool → Bool →
      σ → Result M N V σ) (env : Env M N V σ) (frm dest : Selection M N V) (strategy : editStrategy) (n : Nat)
    (hn : 0 < n)
    (fromChild : Selection M N V) (key : List V) (fromRequest toRequest : ListRequest M N V) (st : σ)
    (hnil : fromChild.IsNil = false) :
    listLoop enterRec env frm dest strategy n fromChild key fromRequest toRequest st =
      listItem enterRec (listLoop enterRec env frm dest strategy (n - 1)) env frm dest strategy
        fromChild key fromRequest toRequest st := by
  cases n with
  | zero => omega
  | succ n => simp [listLoop, hnil]

theorem listLoop_nil {M N V σ : Type} 
    (enterRec : Selection M N V → Selection M N V → Bool → editStrategy → Bool → Bool →
      σ → Result M N V σ) (env : Env M N V σ) (frm dest : Selection M N V) (strategy : editStrategy) (n : Nat)
    (fromChild : Selection M N V) (key : List V) (fromRequest toRequest : ListRequest M N V) (st : σ)
    (h : fromChild.IsNil = true) :
    listLoop enterRec env frm dest strategy n fromChild key fromRequest toRequest st =
      (.ret none, st, []) := by
  cases n <;> simp [listLoop, h]

theorem enter_succ {M N V σ : Type} [DecidableEq M] (env : Env M N V σ) (self : editor M V) (n : Nat) :
    enter env self (n + 1) = enterBody (enter env self n) n env self := rfl

set_option maxHeartbeats 4000000 in
theorem item_enter (k : List Val) (a b : Val) (st : Store) (n : Nat) (new : Bool) (hn : 0 < n)
    (sp dp : Path Meta Val) (kk : List Val)
    (hi : st.get [.field "src", .item k, .field "id"] = some (.leaf a))
    (hs : st.get [.field "src", .item k, .field "val"] = some (.leaf b)) :
    (enter (memEnv itemSchema) plainEditor n
      { Node := some [.field "src", .item k], Path := .mk sp itemMeta kk, InsideList := true, LastErr := none }
      { Node := some [.field "dst", .item k], Path := dp, InsideList := true, LastErr := none }
       new editUpsert false false st).quiet
     = (.ret none, (st.put [.field "dst", .item k, .field "id"] (.leaf a)).put
          [.field "dst", .item k, .field "val"] (.leaf b)) := by
  cases n with
  | zero => omega
  | succ n =>
    have hs2 : (st.put [.field "dst", .item k, .field "id"] (.leaf a)).get [.field "src", .item k, .field "val"] = some (.leaf b) := by
      rw [Store.get_put_ne _ _ _ _ (by simp), hs]
    simp [Result.quiet, enter_succ, enterBody, enterSteps, doBeginEdit, doEndEdit, after, andThen, selMeta, itemMeta, itemSchema, idMeta, valMeta,
      Schema.children, Meta.isData, stripCases, Meta.chain, enterChildren, leaf, doGetValueHnd, memGetValueHnd, hs, hi, hs2,
      clearOnDifferentChoiceCase, doSetValueHnd, memSetValueHnd, plainEditor,
      memEnv_IsList, memEnv_IsLeaf, memEnv_Meta, memEnv_ContainerMetaList, memEnv_beginEdit, memEnv_endEdit,
      memEnv_GetValueHnd, memEnv_SetValueHnd, memEnv_parentCase]

theorem mem_lookup (p : List Step) (sel : Selection Meta (List Step) Val)
    (r : ListRequest Meta (List Step) Val) (st : Store)
    (hsel : sel.Node = some p) (hnew : r.New = false) (hkey : 0 < r.Key.length) :
    memSelectListItem sel r st
      = if (st.get (p ++ [Step.item r.Key])).isSome then
          (({ Node := some (p ++ [Step.item r.Key]), Path := r.Path.setKey r.Key, InsideList := true, LastErr := none }, r.Key), st)
        else ((Selection.empty, []), st) := by
  simp [memSelectListItem, hsel, hnew, hkey, selAt]

theorem mem_create (p : List Step) (sel : Selection Meta (List Step) Val)
    (r : ListRequest Meta (List Step) Val) (st : Store)
    (hsel : sel.Node = some p) (hnew : r.New = true) :
    memSelectListItem sel r st
      = (({ Node := some (p ++ [Step.item r.Key]), Path := r.Path.setKey r.Key, InsideList := true, LastErr := none }, r.Key),
          st.put (p ++ [Step.item r.Key]) .present) := by
  simp [memSelectListItem, hsel, hnew, selAt]


section
variable {M N V σ : Type}

theorem listItem_found
    (enterRec : Selection M N V → Selection M N V → Bool → editStrategy → Bool → Bool →
      σ → Result M N V σ)
    (loop : Selection M N V → List V → ListRequest M N V → ListRequest M N V →
      σ → Result M N V σ)
    (env : Env M N V σ) (frm dest : Selection M N V)
    (fromChild : Selection M N V) (key : List V) (fromRequest toRequest : ListRequest M N V)
    (st : σ) (hkey : key.length > 0)
    (hprobe : (listProbe env dest fromChild key fromRequest toRequest st).1.1.LastErr = none)
    (hn : (listProbe env dest fromChild key fromRequest toRequest st).1.1.IsNil = false) :
    listItem enterRec loop env frm dest editUpsert fromChild key fromRequest toRequest st
      = after [listProbeEvent env dest fromChild key fromRequest toRequest st]
          (listAdvance loop env frm dest fromChild key (listKeyedRequest key fromRequest)
            (listCreateRequest dest fromChild key fromRequest toRequest)
            (enterRec fromChild
              (listProbe env dest fromChild key fromRequest toRequest st).1.1
              false editUpsert false false
              (listProbe env dest fromChild key fromRequest toRequest st).2)) := by
  have e4 : (editUpsert = editUpdate) = False := by decide
  simp only [listProbeEvent, listProbe, listProbeRequest, listCreateRequest,
    listKeyedRequest] at *
  simp_all [listItem, listSwitch, listDescend, doSelectListItem, after]

theorem listItem_created
    (enterRec : Selection M N V → Selection M N V → Bool → editStrategy → Bool → Bool →
      σ → Result M N V σ)
    (loop : Selection M N V → List V → ListRequest M N V → ListRequest M N V →
      σ → Result M N V σ)
    (env : Env M N V σ) (frm dest : Selection M N V)
    (fromChild : Selection M N V) (key : List V) (fromRequest toRequest : ListRequest M N V)
    (st : σ) (hkey : key.length > 0)
    (hprobe : (listProbe env dest fromChild key fromRequest toRequest st).1.1.LastErr = none)
    (hn : (listProbe env dest fromChild key fromRequest toRequest st).1.1.IsNil = true)
    (hc1 : (listCreate env dest fromChild key fromRequest toRequest st).1.1.LastErr = none)
    (hc2 : (listCreate env dest fromChild key fromRequest toRequest st).1.1.IsNil = false) :
    listItem enterRec loop env frm dest editUpsert fromChild key fromRequest toRequest st
      = after [listProbeEvent env dest fromChild key fromRequest toRequest st,
               listCreateEvent env dest fromChild key fromRequest toRequest st]
          (listAdvance loop env frm dest fromChild key (listKeyedRequest key fromRequest)
            (listCreateRequest dest fromChild key fromRequest toRequest)
            (enterRec fromChild
              (listCreate env dest fromChild key fromRequest toRequest st).1.1
              true editUpsert false false
              (listCreate env dest fromChild key fromRequest toRequest st).2)) := by
  have e4 : (editUpsert = editUpdate) = False := by decide
  simp only [listProbeEvent, listCreateEvent, listProbe, listCreate, listProbeRequest,
    listCreateRequest, listKeyedRequest] at *
  simp_all [listItem, listSwitch, listDescend, doSelectListItem, after]

theorem quiet_listAdvance
    (loop : Selection M N V → List V → ListRequest M N V → ListRequest M N V →
      σ → Result M N V σ)
    (env : Env M N V σ) (frm dest : Selection M N V) (fromChild : Selection M N V)
    (key : List V) (fromRequest toRequest : ListRequest M N V) (r : Result M N V σ) (st : σ)
    (h : r.quiet = (.ret none, st)) :
    (listAdvance loop env frm dest fromChild key fromRequest toRequest r).quiet
      = (doSelectListItem env frm (listNextRequest dest fromChild key fromRequest) st
          fun fromChild1 key1 st5 =>
            if fromChild1.LastErr ≠ none then (.ret fromChild1.LastErr, st5, [])
            else loop fromChild1 key1 (listNextRequest dest fromChild key fromRequest)
              toRequest st5).quiet := by
  unfold listAdvance
  exact quiet_andThen _ _ _ h

end

set_option maxHeartbeats 4000000 in
theorem mem_item_step (n : Nat) (hn : 0 < n)
    (loop : Selection Meta (List Step) Val → List Val → ListRequest Meta (List Step) Val →
      ListRequest Meta (List Step) Val → Store → Result Meta (List Step) Val Store)
    (k : List Val) (a b : Val) (st : Store) (sp : Path Meta Val) (kk : List Val)
    (fromRequest toRequest : ListRequest Meta (List Step) Val)
    (hk : 0 < k.length)
    (hi : st.get [.field "src", .item k, .field "id"] = some (.leaf a))
    (hs : st.get [.field "src", .item k, .field "val"] = some (.leaf b)) :
    (listItem (enter (memEnv itemSchema) plainEditor n) loop (memEnv itemSchema) srcList dstList
      editUpsert { Node := some [.field "src", .item k], Path := .mk sp itemMeta kk, InsideList := true, LastErr := none }
       k fromRequest toRequest st).quiet
    = (doSelectListItem (memEnv itemSchema) srcList
        (listNextRequest dstList { Node := some [.field "src", .item k], Path := .mk sp itemMeta kk, InsideList := true, LastErr := none } k
          (listKeyedRequest k fromRequest))
        (((if (st.get [.field "dst", .item k]).isSome then st
            else st.put [.field "dst", .item k] .present).put
          [.field "dst", .item k, .field "id"] (.leaf a)).put
          [.field "dst", .item k, .field "val"] (.leaf b))
        fun fromChild1 key1 st5 =>
          if fromChild1.LastErr ≠ none then (.ret fromChild1.LastErr, st5, [])
          else loop fromChild1 key1
            (listNextRequest dstList { Node := some [.field "src", .item k], Path := .mk sp itemMeta kk, InsideList := true, LastErr := none } k
              (listKeyedRequest k fromRequest))
            (listCreateRequest dstList { Node := some [.field "src", .item k], Path := .mk sp itemMeta kk, InsideList := true, LastErr := none } k
              fromRequest toRequest) st5).quiet := by
  have hput : ∀ c, (st.put [.field "dst", .item k] c).get [.field "src", .item k, .field "id"] = some (.leaf a) ∧
      (st.put [.field "dst", .item k] c).get [.field "src", .item k, .field "val"] = some (.leaf b) := by
    intro c
    rw [Store.get_put_ne _ _ _ _ (by simp), Store.get_put_ne _ _ _ _ (by simp)]
    exact ⟨hi, hs⟩
  have hd : dstList.Node = some [.field "dst"] := rfl
  generalize hfc : ({ Node := some [.field "src", .item k], Path := .mk sp itemMeta kk, InsideList := true, LastErr := none } : Selection Meta (List Step) Val) = fc
  have hlook := mem_lookup [.field "dst"] dstList (listProbeRequest dstList fc k fromRequest toRequest) st hd rfl hk
  have hcre := fun s => mem_create [.field "dst"] dstList (listCreateRequest dstList fc k fromRequest toRequest) s hd rfl
  have hkey1 : (listProbeRequest dstList fc k fromRequest toRequest).Key = k := rfl
  have hkey2 : (listCreateRequest dstList fc k fromRequest toRequest).Key = k := rfl
  rw [hkey1] at hlook
  simp only [hkey2] at hcre
  cases hg : st.get [.field "dst", .item k] with
  | none =>
    have hp : listProbe (memEnv itemSchema) dstList fc k fromRequest toRequest st
        = ((Selection.empty, []), st) := by
      unfold listProbe
      rw [memEnv_SelectListItem, hlook]
      simp [hg]
    have hc : listCreate (memEnv itemSchema) dstList fc k fromRequest toRequest st
        = (({ Node := some [.field "dst", .item k],
              Path := (listCreateRequest dstList fc k fromRequest toRequest).Path.setKey k,
              InsideList := true, LastErr := none }, k),
            st.put [.field "dst", .item k] .present) := by
      unfold listCreate
      rw [hp, memEnv_SelectListItem, hcre]
      rfl
    rw [listItem_created _ _ _ _ _ _ _ _ _ _ hk (by rw [hp]; rfl) (by rw [hp]; rfl)
      (by rw [hc]) (by rw [hc]; rfl), quiet_after, hc]
    subst hfc
    rw [quiet_listAdvance _ _ _ _ _ _ _ _ _ _ (item_enter k a b _ n true hn sp _ kk (hput _).1 (hput _).2)]
    simp
  | some c =>
    have hp : listProbe (memEnv itemSchema) dstList fc k fromRequest toRequest st
        = (({ Node := some [.field "dst", .item k],
              Path := (listProbeRequest dstList fc k fromRequest toRequest).Path.setKey k,
              InsideList := true, LastErr := none }, k), st) := by
      unfold listProbe
      rw [memEnv_SelectListItem, hlook]
      simp [hg]
    rw [listItem_found _ _ _ _ _ _ _ _ _ _ hk (by rw [hp]) (by rw [hp]; rfl), quiet_after, hp]
    subst hfc
    rw [quiet_listAdvance _ _ _ _ _ _ _ _ _ _ (item_enter k a b _ n false hn sp _ kk hi hs)]
    simp

theorem Store.items_eq (st : Store) (q : List Step) :
    st.items q = (st.map (fun e => e.1)).filterMap (fun p =>
      if p.dropLast = q then
        match p.getLast? with
        | some (Step.item k) => some k
        | _ => none
      else none) := by
  unfold Store.items
  rw [List.filterMap_map]
  rfl

theorem Store.items_put (st : Store) (p q : List Step) (c : Cell) (h : p.dropLast ≠ q) :
    (st.put p c).items q = st.items q := by
  rw [Store.items_eq, Store.items_eq]
  unfold Store.put
  split
  · congr 1
    rw [List.map_map]
    apply List.map_congr_left
    intro e _
    by_cases he : e.1 = p <;> simp [he]
  · simp [List.filterMap_append, h]

theorem mergeItem_items (st : Store) (k : List Val) (a b : Val) :
    (mergeItem st k a b).items [.field "src"] = st.items [.field "src"] := by
  unfold mergeItem
  rw [Store.items_put _ _ _ _ (by simp), Store.items_put _ _ _ _ (by simp)]
  split
  · rfl
  · rw [Store.items_put _ _ _ _ (by simp)]

theorem mergeItem_get (st : Store) (k : List Val) (a b : Val) (q : List Step) :
    (mergeItem st k a b).get (Step.field "src" :: q) = st.get (Step.field "src" :: q) := by
  unfold mergeItem
  rw [Store.get_put_ne _ _ _ _ (by simp), Store.get_put_ne _ _ _ _ (by simp)]
  split
  · rfl
  · rw [Store.get_put_ne _ _ _ _ (by simp)]

theorem mem_row (p : List Step) (sel : Selection Meta (List Step) Val)
    (r : ListRequest Meta (List Step) Val) (st : Store)
    (hsel : sel.Node = some p) (hnew : r.New = false) (hkey : r.Key = []) (hrow : 0 ≤ r.Row64) :
    memSelectListItem sel r st
      = match (st.items p).get? r.Row64.toNat with
        | some k => (({ Node := some (p ++ [Step.item k]), Path := r.Path.setKey k, InsideList := true, LastErr := none }, k), st)
        | none => ((Selection.empty, []), st) := by
  have : ¬ r.Row64 < 0 := by omega
  simp [memSelectListItem, hsel, hnew, hkey, this, selAt]

theorem list_of_path {M N V σ : Type}
    (enterRec : Selection M N V → Selection M N V → Bool → editStrategy → Bool → Bool →
      σ → Result M N V σ)
    (fuel : Nat) (env : Env M N V σ) (self : editor M V) (frm dest : Selection M N V) (m : M)
    (new : Bool) (strategy : editStrategy) (st : σ) (parent : Path M V) (meta : M)
    (pkey : List V) (h : frm.Path = .mk parent meta pkey) :
    list enterRec fuel env self frm dest m new strategy st
      = after [.list frm dest m new strategy]
          (doSelectListItem env frm
            { Selection := frm, Path := .mk parent meta pkey, Base := self.basePath,
              From := Selection.empty, New := false, First := true, Row64 := 0, Key := [],
              Meta := m } st fun fromChild key st1 =>
            if fromChild.LastErr ≠ none then (.ret fromChild.LastErr, st1, [])
            else if fromChild.IsNil then (.ret none, st1, [])
            else
              listLoop enterRec env frm dest strategy fuel fromChild key
                { Selection := frm, Path := .mk parent meta key, Base := self.basePath,
                  From := Selection.empty, New := false, First := true, Row64 := 0, Key := [],
                  Meta := m }
                { Selection := dest, Path := .mk parent meta key, Base := self.basePath,
                  From := Selection.empty, New := false, First := true, Row64 := 0, Key := [],
                  Meta := m } st1) := by
  unfold list
  rw [h]

set_option maxHeartbeats 4000000 in
theorem mem_list_three (k1 k2 k3 : List Val) (a1 a2 a3 b1 b2 b3 : Val) (st : Store)
    (l1 : 0 < k1.length) (l2 : 0 < k2.length) (l3 : 0 < k3.length)
    (hitems : st.items [.field "src"] = [k1, k2, k3])
    (hi1 : st.get [.field "src", .item k1, .field "id"] = some (.leaf a1))
    (hv1 : st.get [.field "src", .item k1, .field "val"] = some (.leaf b1))
    (hi2 : st.get [.field "src", .item k2, .field "id"] = some (.leaf a2))
    (hv2 : st.get [.field "src", .item k2, .field "val"] = some (.leaf b2))
    (hi3 : st.get [.field "src", .item k3, .field "id"] = some (.leaf a3))
    (hv3 : st.get [.field "src", .item k3, .field "val"] = some (.leaf b3)) :
    (list (enter (memEnv itemSchema) plainEditor 3) 3 (memEnv itemSchema) plainEditor srcList
      dstList itemMeta false editUpsert st).quiet
      = (.ret none, mergeItem (mergeItem (mergeItem st k1 a1 b1) k2 a2 b2) k3 a3 b3) := by
  have w1 : wrap64 1 = 1 := by decide
  have w2 : wrap64 2 = 2 := by decide
  have w3 : wrap64 3 = 3 := by decide
  have g1 := mergeItem_get st k1 a1 b1
  have g2 := mergeItem_get (mergeItem st k1 a1 b1) k2 a2 b2
  have t1 := mergeItem_items st k1 a1 b1
  have t2 := mergeItem_items (mergeItem st k1 a1 b1) k2 a2 b2
  have t3 := mergeItem_items (mergeItem (mergeItem st k1 a1 b1) k2 a2 b2) k3 a3 b3
  rw [t2, t1, hitems] at t3
  rw [t1, hitems] at t2
  rw [hitems] at t1
  have g2 := fun q => (g2 q).trans (g1 q)
  rw [list_of_path _ _ _ _ _ _ _ _ _ _ .nil itemMeta [] rfl, quiet_after,
    quiet_doSelectListItem, memEnv_SelectListItem,
    mem_row [.field "src"] srcList _ st rfl rfl rfl (by simp)]
  simp only [hitems, Int.toNat_zero, List.get?_cons_zero, ne_eq, not_true_eq_false, if_false,
    Selection.IsNil, Option.isNone_some, Bool.false_eq_true, Path.setKey, List.cons_append,
    List.nil_append]
  rw [listLoop_pos _ _ _ _ _ 3 (by decide) _ _ _ _ _ (by rfl),
    mem_item_step 3 (by decide) _ k1 a1 b1 st _ _ _ _ l1 hi1 hv1]
  change (doSelectListItem _ _ _ (mergeItem st k1 a1 b1) _).quiet = _
  rw [quiet_doSelectListItem, memEnv_SelectListItem,
    mem_row [.field "src"] srcList _ _ rfl rfl rfl (by simp [listNextRequest,
      ListRequest.IncrementRow, listKeyedRequest, w1])]
  simp [t1, listNextRequest, ListRequest.IncrementRow, listKeyedRequest, w1, Path.setKey]
  rw [listLoop_pos _ _ _ _ _ 2 (by decide) _ _ _ _ _ (by rfl),
    mem_item_step 3 (by decide) _ k2 a2 b2 _ _ _ _ _ l2 (by rw [g1]; exact hi2)
      (by rw [g1]; exact hv2)]
  change (doSelectListItem _ _ _ (mergeItem (mergeItem st k1 a1 b1) k2 a2 b2) _).quiet = _
  rw [quiet_doSelectListItem, memEnv_SelectListItem,
    mem_row [.field "src"] srcList _ _ rfl rfl rfl (by simp [listNextRequest,
      ListRequest.IncrementRow, listKeyedRequest, w2])]
  simp [t2, listNextRequest, ListRequest.IncrementRow, listKeyedRequest, w2, Path.setKey]
  rw [listLoop_pos _ _ _ _ _ 1 (by decide) _ _ _ _ _ (by rfl),
    mem_item_step 3 (by decide) _ k3 a3 b3 _ _ _ _ _ l3 (by rw [g2]; exact hi3)
      (by rw [g2]; exact hv3)]
  change (doSelectListItem _ _ _ (mergeItem (mergeItem (mergeItem st k1 a1 b1) k2 a2 b2)
    k3 a3 b3) _).quiet = _
  rw [quiet_doSelectListItem, memEnv_SelectListItem,
    mem_row [.field "src"] srcList _ _ rfl rfl rfl (by simp [listNextRequest,
      ListRequest.IncrementRow, listKeyedRequest, w3])]
  simp [t3, listNextRequest, ListRequest.IncrementRow, listKeyedRequest, w3, Path.setKey,
    Selection.empty]
  rw [listLoop_nil _ _ _ _ _ _ _ _ _ _ _ (by rfl)]
  rfl

theorem mem_edit_three (k1 k2 k3 : List Val) (a1 a2 a3 b1 b2 b3 : Val) (st : Store)
    (l1 : 0 < k1.length) (l2 : 0 < k2.length) (l3 : 0 < k3.length)
    (hitems : st.items [.field "src"] = [k1, k2, k3])
    (hi1 : st.get [.field "src", .item k1, .field "id"] = some (.leaf a1))
    (hv1 : st.get [.field "src", .item k1, .field "val"] = some (.leaf b1))
    (hi2 : st.get [.field "src", .item k2, .field "id"] = some (.leaf a2))
    (hv2 : st.get [.field "src", .item k2, .field "val"] = some (.leaf b2))
    (hi3 : st.get [.field "src", .item k3, .field "id"] = some (.leaf a3))
    (hv3 : st.get [.field "src", .item k3, .field "val"] = some (.leaf b3)) :
    (edit (memEnv itemSchema) plainEditor 4 srcList dstList editUpsert st).quiet
      = (.ret none, mergeItem (mergeItem (mergeItem st k1 a1 b1) k2 a2 b2) k3 a3 b3) := by
  have he : edit (memEnv itemSchema) plainEditor 4 srcList dstList editUpsert st
      = enterBody (enter (memEnv itemSchema) plainEditor 3) 3 (memEnv itemSchema) plainEditor
          srcList dstList false editUpsert true true st := rfl
  have hcond : ((memEnv itemSchema).IsList ((memEnv itemSchema).Meta srcList)
      && !srcList.InsideList) = true := by decide
  have hm : (memEnv itemSchema).Meta srcList = itemMeta := rfl
  rw [he]
  unfold enterBody enterSteps
  rw [quiet_after, quiet_doBeginEdit, memEnv_beginEdit]
  simp only [hcond, if_true]
  rw [hm, quiet_andThen _ _ _ (mem_list_three k1 k2 k3 a1 a2 a3 b1 b2 b3 st l1 l2 l3 hitems
    hi1 hv1 hi2 hv2 hi3 hv3), quiet_doEndEdit, memEnv_endEdit]
  rfl

set_option maxHeartbeats 4000000 in
theorem merge_three (k1 k2 k3 : List Val) (a1 a2 a3 b1 b2 b3 : Val)
    (h12 : k1 ≠ k2) (h13 : k1 ≠ k3) (h23 : k2 ≠ k3) :
    mergeItem (mergeItem (mergeItem (threeStore k1 k2 k3 a1 a2 a3 b1 b2 b3) k1 a1 b1) k2 a2 b2)
        k3 a3 b3
      = threeStore k1 k2 k3 a1 a2 a3 b1 b2 b3 ++ mergedItems k1 k2 k3 a1 a2 a3 b1 b2 b3 := by
  have h21 : k2 ≠ k1 := fun h => h12 h.symm
  have h31 : k3 ≠ k1 := fun h => h13 h.symm
  have h32 : k3 ≠ k2 := fun h => h23 h.symm
  simp [mergeItem, Store.get, Store.put, threeStore, mergedItems, h12, h13, h23, h21, h31, h32]

set_option maxHeartbeats 4000000 in
theorem merge_three_again (k1 k2 k3 : List Val) (a1 a2 a3 b1 b2 b3 : Val)
    (h12 : k1 ≠ k2) (h13 : k1 ≠ k3) (h23 : k2 ≠ k3) :
    mergeItem (mergeItem (mergeItem
        (threeStore k1 k2 k3 a1 a2 a3 b1 b2 b3 ++ mergedItems k1 k2 k3 a1 a2 a3 b1 b2 b3)
        k1 a1 b1) k2 a2 b2) k3 a3 b3
      = threeStore k1 k2 k3 a1 a2 a3 b1 b2 b3 ++ mergedItems k1 k2 k3 a1 a2 a3 b1 b2 b3 := by
  have h21 : k2 ≠ k1 := fun h => h12 h.symm
  have h31 : k3 ≠ k1 := fun h => h13 h.symm
  have h32 : k3 ≠ k2 := fun h => h23 h.symm
  simp [mergeItem, Store.get, Store.put, threeStore, mergedItems, h12, h13, h23, h21, h31, h32]

set_option maxHeartbeats 4000000 in
theorem three_facts (k1 k2 k3 : List Val) (a1 a2 a3 b1 b2 b3 : Val) (more : Store)
    (h12 : k1 ≠ k2) (h13 : k1 ≠ k3) (h23 : k2 ≠ k3)
    (hmore : ∀ e ∈ more, ∃ q, e.1 = Step.field "dst" :: q) :
    (threeStore k1 k2 k3 a1 a2 a3 b1 b2 b3 ++ more).items [.field "src"] = [k1, k2, k3] ∧
    (threeStore k1 k2 k3 a1 a2 a3 b1 b2 b3 ++ more).get [.field "src", .item k1, .field "id"] = some (.leaf a1) ∧
    (threeStore k1 k2 k3 a1 a2 a3 b1 b2 b3 ++ more).get [.field "src", .item k1, .field "val"] = some (.leaf b1) ∧
    (threeStore k1 k2 k3 a1 a2 a3 b1 b2 b3 ++ more).get [.field "src", .item k2, .field "id"] = some (.leaf a2) ∧
    (threeStore k1 k2 k3 a1 a2 a3 b1 b2 b3 ++ more).get [.field "src", .item k2, .field "val"] = some (.leaf b2) ∧
    (threeStore k1 k2 k3 a1 a2 a3 b1 b2 b3 ++ more).get [.field "src", .item k3, .field "id"] = some (.leaf a3) ∧
    (threeStore k1 k2 k3 a1 a2 a3 b1 b2 b3 ++ more).get [.field "src", .item k3, .field "val"] = some (.leaf b3) := by
  have h21 : k2 ≠ k1 := fun h => h12 h.symm
  have h31 : k3 ≠ k1 := fun h => h13 h.symm
  have h32 : k3 ≠ k2 := fun h => h23 h.symm
  have hit : more.items [.field "src"] = [] := by
    unfold Store.items
    rw [List.filterMap_eq_nil_iff]
    intro e he
    obtain ⟨q, hq⟩ := hmore e he
    rw [hq]
    cases q with
    | nil => simp
    | cons x q => simp [List.dropLast]
  refine ⟨?_, ?_, ?_, ?_, ?_, ?_, ?_⟩
  · have : (threeStore k1 k2 k3 a1 a2 a3 b1 b2 b3 ++ more).items [.field "src"]
        = (threeStore k1 k2 k3 a1 a2 a3 b1 b2 b3).items [.field "src"] ++ more.items [.field "src"] := by
      simp [Store.items, List.filterMap_append]
    rw [this, hit]
    simp [Store.items, threeStore]
  all_goals simp [Store.get, threeStore, List.find?_append, h12, h13, h23, h21, h31, h32]

/-- C8: Upsert of a source list with three items of distinct non-empty keys
`k1`, `k2`, `k3` into an empty destination list, on the in-memory store.  The
edit succeeds, the destination then holds exactly the items `k1`, `k2`, `k3`,
each with the `id` and `val` of its source item; the same edit applied again
succeeds and leaves the store as it is. -/
theorem upsert_three_keys_idempotent (k1 k2 k3 : List Val) (a1 a2 a3 b1 b2 b3 : Val)
    (h1 : k1 ≠ []) (h2 : k2 ≠ []) (h3 : k3 ≠ [])
    (h12 : k1 ≠ k2) (h13 : k1 ≠ k3) (h23 : k2 ≠ k3) :
    (threeStore k1 k2 k3 a1 a2 a3 b1 b2 b3).items [.field "dst"] = [] ∧
    (edit (memEnv itemSchema) plainEditor 4 srcList dstList editUpsert
      (threeStore k1 k2 k3 a1 a2 a3 b1 b2 b3)).1 = .ret none ∧
    (edit (memEnv itemSchema) plainEditor 4 srcList dstList editUpsert
      (threeStore k1 k2 k3 a1 a2 a3 b1 b2 b3)).2.1
      = threeStore k1 k2 k3 a1 a2 a3 b1 b2 b3 ++ mergedItems k1 k2 k3 a1 a2 a3 b1 b2 b3 ∧
    (threeStore k1 k2 k3 a1 a2 a3 b1 b2 b3 ++ mergedItems k1 k2 k3 a1 a2 a3 b1 b2 b3).items
      [.field "dst"] = [k1, k2, k3] ∧
    (∀ k ∈ [k1, k2, k3], ∀ f ∈ ["id", "val"],
      (threeStore k1 k2 k3 a1 a2 a3 b1 b2 b3 ++ mergedItems k1 k2 k3 a1 a2 a3 b1 b2 b3).get
          [.field "dst", .item k, .field f]
        = (threeStore k1 k2 k3 a1 a2 a3 b1 b2 b3).get [.field "src", .item k, .field f]) ∧
    (edit (memEnv itemSchema) plainEditor 4 srcList dstList editUpsert
      (threeStore k1 k2 k3 a1 a2 a3 b1 b2 b3 ++ mergedItems k1 k2 k3 a1 a2 a3 b1 b2 b3)).1
      = .ret none ∧
    (edit (memEnv itemSchema) plainEditor 4 srcList dstList editUpsert
      (threeStore k1 k2 k3 a1 a2 a3 b1 b2 b3 ++ mergedItems k1 k2 k3 a1 a2 a3 b1 b2 b3)).2.1
      = threeStore k1 k2 k3 a1 a2 a3 b1 b2 b3 ++ mergedItems k1 k2 k3 a1 a2 a3 b1 b2 b3 := by
  have l1 : 0 < k1.length := List.length_pos.mpr h1
  have l2 : 0 < k2.length := List.length_pos.mpr h2
  have l3 : 0 < k3.length := List.length_pos.mpr h3
  have h21 : k2 ≠ k1 := fun h => h12 h.symm
  have h31 : k3 ≠ k1 := fun h => h13 h.symm
  have h32 : k3 ≠ k2 := fun h => h23 h.symm
  obtain ⟨f0, f1, f2, f3, f4, f5, f6⟩ :=
    three_facts k1 k2 k3 a1 a2 a3 b1 b2 b3 [] h12 h13 h23 (by simp)
  rw [List.append_nil] at f0 f1 f2 f3 f4 f5 f6
  obtain ⟨g0, g1, g2, g3, g4, g5, g6⟩ :=
    three_facts k1 k2 k3 a1 a2 a3 b1 b2 b3 (mergedItems k1 k2 k3 a1 a2 a3 b1 b2 b3) h12 h13 h23
      (by simp [mergedItems])
  have r1 := mem_edit_three k1 k2 k3 a1 a2 a3 b1 b2 b3 _ l1 l2 l3 f0 f1 f2 f3 f4 f5 f6
  have r2 := mem_edit_three k1 k2 k3 a1 a2 a3 b1 b2 b3 _ l1 l2 l3 g0 g1 g2 g3 g4 g5 g6
  rw [merge_three k1 k2 k3 a1 a2 a3 b1 b2 b3 h12 h13 h23] at r1
  rw [merge_three_again k1 k2 k3 a1 a2 a3 b1 b2 b3 h12 h13 h23] at r2
  simp only [Result.quiet, Prod.mk.injEq] at r1 r2
  refine ⟨?_, r1.1, r1.2, ?_, ?_, r2.1, r2.2⟩
  · simp [Store.items, threeStore]
  · simp [Store.items, threeStore, mergedItems]
  · intro k hk f hf
    simp only [List.mem_cons, List.mem_singleton, List.not_mem_nil, or_false] at hk hf
    rcases hk with hk | hk | hk <;> rcases hf with hf | hf <;> subst hk <;> subst hf <;>
      simp [Store.get, threeStore, mergedItems, List.find?_append, h12, h13, h23, h21, h31, h32]

/-- Witness of C8: the keys `a`, `b`, `c`. -/
theorem upsert_three_keys_idempotent_witness :
    (edit (memEnv itemSchema) plainEditor 4 srcList dstList editUpsert
      (threeStore [.str "a"] [.str "b"] [.str "c"] (.str "a") (.str "b") (.str "c")
        (.int 1) (.int 2) (.int 3))).1 = .ret none ∧
    (edit (memEnv itemSchema) plainEditor 4 srcList dstList editUpsert
      (threeStore [.str "a"] [.str "b"] [.str "c"] (.str "a") (.str "b") (.str "c")
        (.int 1) (.int 2) (.int 3) ++
       mergedItems [.str "a"] [.str "b"] [.str "c"] (.str "a") (.str "b") (.str "c")
        (.int 1) (.int 2) (.int 3))).2.1
      = threeStore [.str "a"] [.str "b"] [.str "c"] (.str "a") (.str "b") (.str "c")
          (.int 1) (.int 2) (.int 3) ++
        mergedItems [.str "a"] [.str "b"] [.str "c"] (.str "a") (.str "b") (.str "c")
          (.int 1) (.int 2) (.int 3) :=
  ⟨(upsert_three_keys_idempotent [.str "a"] [.str "b"] [.str "c"] (.str "a") (.str "b")
      (.str "c") (.int 1) (.int 2) (.int 3) (by decide) (by decide) (by decide) (by decide)
      (by decide) (by decide)).2.1,
   (upsert_three_keys_idempotent [.str "a"] [.str "b"] [.str "c"] (.str "a") (.str "b")
      (.str "c") (.int 1) (.int 2) (.int 3) (by decide) (by decide) (by decide) (by decide)
      (by decide) (by decide)).2.2.2.2.2.2⟩

end ThreeItemsProof

section BracketProofs

variable {M N V σ : Type}

theorem brackets_append (t1 t2 : List (Event M N V)) :
    brackets (t1 ++ t2) = brackets t1 ++ brackets t2 := by
  simp [brackets, List.filterMap_append]

theorem brackets_silent (t : List (Event M N V)) (h : ∀ e ∈ t, e.bracket = none) :
    brackets t = [] := by
  unfold brackets
  rw [List.filterMap_eq_nil_iff]
  exact h

theorem aborted_append (a t : List (Bracket M N V)) (ha : Balanced a) (ht : Aborted t) :
    Aborted (a ++ t) := by
  rcases ht with ht | ⟨c, p, hcp, hc, hp⟩
  · exact Or.inl (Balanced.append a t ha ht)
  · refine Or.inr ⟨a ++ c, p, ?_, Balanced.append a c ha hc, hp⟩
    rw [hcp, List.append_assoc]

theorem pending_of_aborted (d : Selection M N V) (r : NodeRequest M N V) (b : Bool)
    (t : List (Bracket M N V)) (ht : Aborted t) : Pending (.start d r b :: t) := by
  rcases ht with ht | ⟨c, p, hcp, hc, hp⟩
  · exact Pending.last d r b t ht
  · rw [hcp]
    exact Pending.nest d r b c p hc hp

theorem bracketed_done (o : Outcome) (st : σ) :
    Bracketed ((o, st, []) : Result M N V σ) :=
  ⟨fun _ => Balanced.nil, fun _ _ => Or.inl Balanced.nil⟩

theorem bracketed_of_enter (r : Result M N V σ) (h : EnterBracketed r) : Bracketed r :=
  ⟨h.1, fun e he => Or.inr ⟨[], _, rfl, Balanced.nil, h.2 e he⟩⟩

theorem bracketed_after (t : List (Event M N V)) (r : Result M N V σ)
    (ht : ∀ e ∈ t, e.bracket = none) (hr : Bracketed r) : Bracketed (after t r) := by
  unfold Bracketed
  rw [after_fst, after_log, brackets_append, brackets_silent t ht]
  exact hr

theorem bracketed_andThen (r : Result M N V σ) (k : σ → Result M N V σ)
    (hr : Bracketed r) (hk : ∀ st, Bracketed (k st)) : Bracketed (andThen r k) := by
  unfold Bracketed
  rw [andThen_fst, andThen_log]
  by_cases h : r.1 = .ret none
  · simp only [h, if_true, brackets_append]
    exact ⟨fun h2 => Balanced.append _ _ (hr.1 h) ((hk _).1 h2),
      fun e h2 => aborted_append _ _ (hr.1 h) ((hk _).2 e h2)⟩
  · simp only [h, if_false]
    exact ⟨fun h2 => h2.elim, hr.2⟩

theorem bracketed_of_leafSteps (r : Result M N V σ)
    (h : LogAll (fun e => e.isLeafStep = true) r) : Bracketed r := by
  have hs : brackets r.2.2 = [] := by
    apply brackets_silent
    intro e he
    have := h e he
    cases e with
    | op o resp => cases o <;> simp_all [Event.isLeafStep, Event.bracket]
    | _ => simp_all [Event.isLeafStep, Event.bracket]
  unfold Bracketed
  rw [hs]
  exact ⟨fun _ => Balanced.nil, fun _ _ => Or.inl Balanced.nil⟩

theorem isClearing_isLeafStep (e : Event M N V) (h : e.isClearing = true) :
    e.isLeafStep = true := by
  cases e with
  | op o r => cases o <;> simp_all [Event.isClearing, Event.isLeafStep]
  | _ => simp_all [Event.isClearing]

/-- A run of `leaf` logs nothing but its own steps. -/
theorem leaf_log_isLeafStep [DecidableEq M] (env : Env M N V σ) (self : editor M V)
    (frm dest : Selection M N V) (m : M) (new : Bool) (strategy : editStrategy) (st : σ) :
    LogAll (fun e => e.isLeafStep = true) (leaf env self frm dest m new strategy st) := by
  unfold leaf
  apply logAll_after
  · simp [Event.isLeafStep]
  · apply logAll_after
    · simp [Event.isLeafStep]
    · beta_reduce
      split
      · exact logAll_done _ _ _
      · split
        · exact logAll_done _ _ _
        · apply logAll_andThen
          · split
            · unfold clearOnDifferentChoiceCase
              split
              · exact logAll_done _ _ _
              · apply logAll_after
                · simp [Event.isLeafStep]
                · beta_reduce
                  split
                  · exact logAll_done _ _ _
                  · split
                    · exact logAll_done _ _ _
                    · split
                      · exact logAll_done _ _ _
                      · intro e he
                        exact isClearing_isLeafStep e
                          (clearChoiceCaseLoop_log_isClearing env dest _ _ e he)
            · exact logAll_done _ _ _
          · intro st2
            apply logAll_after
            · simp [Event.isLeafStep]
            · beta_reduce
              split <;> exact logAll_done _ _ _

theorem bracketed_doSelect (env : Env M N V σ) (sel : Selection M N V)
    (r : ChildRequest M N V) (st : σ) (k : Selection M N V → σ → Result M N V σ)
    (hk : ∀ c st1, Bracketed (k c st1)) : Bracketed (doSelect env sel r st k) :=
  bracketed_after _ _ (by simp [Event.bracket]) (hk _ _)

theorem bracketed_doSelectListItem (env : Env M N V σ) (sel : Selection M N V)
    (r : ListRequest M N V) (st : σ) (k : Selection M N V → List V → σ → Result M N V σ)
    (hk : ∀ c key st1, Bracketed (k c key st1)) : Bracketed (doSelectListItem env sel r st k) :=
  bracketed_after _ _ (by simp [Event.bracket]) (hk _ _ _)

theorem node_bracketed
    (enterRec : Selection M N V → Selection M N V → Bool → editStrategy → Bool → Bool →
      σ → Result M N V σ)
    (hrec : ∀ a b c d e f st, EnterBracketed (enterRec a b c d e f st))
    (env : Env M N V σ) (self : editor M V) (frm dest : Selection M N V) (m : M)
    (new : Bool) (strategy : editStrategy) (st : σ) :
    Bracketed (node enterRec env self frm dest m new strategy st) := by
  unfold node nodeDescend
  apply bracketed_after _ _ (by simp [Event.bracket])
  repeat' first
    | exact bracketed_done _ _
    | exact bracketed_of_enter _ (hrec _ _ _ _ _ _ _)
    | (apply bracketed_doSelect; intro _ _; beta_reduce)
    | split

theorem listAdvance_bracketed
    (loop : Selection M N V → List V → ListRequest M N V → ListRequest M N V →
      σ → Result M N V σ)
    (hloop : ∀ a b c d st, Bracketed (loop a b c d st))
    (env : Env M N V σ) (frm dest : Selection M N V)
    (fromChild : Selection M N V) (key : List V) (fromRequest toRequest : ListRequest M N V)
    (r : Result M N V σ) (hr : Bracketed r) :
    Bracketed (listAdvance loop env frm dest fromChild key fromRequest toRequest r) := by
  unfold listAdvance
  apply bracketed_andThen _ _ hr
  intro st4
  apply bracketed_doSelectListItem
  intro c k st5
  beta_reduce
  split
  · exact bracketed_done _ _
  · exact hloop _ _ _ _ _

theorem listDescend_bracketed
    (enterRec : Selection M N V → Selection M N V → Bool → editStrategy → Bool → Bool →
      σ → Result M N V σ)
    (loop : Selection M N V → List V → ListRequest M N V → ListRequest M N V →
      σ → Result M N V σ)
    (hrec : ∀ a b c d e f st, EnterBracketed (enterRec a b c d e f st))
    (hloop : ∀ a b c d st, Bracketed (loop a b c d st))
    (env : Env M N V σ) (frm dest : Selection M N V)
    (fromChild : Selection M N V) (key : List V) (fromRequest toRequest : ListRequest M N V)
    (toChild : Selection M N V) (newItem : Bool) (st : σ) :
    Bracketed (listDescend enterRec loop env frm dest fromChild key fromRequest toRequest
      toChild newItem st) := by
  unfold listDescend
  split
  · exact bracketed_done _ _
  · split
    · exact bracketed_done _ _
    · exact listAdvance_bracketed loop hloop env frm dest fromChild key fromRequest toRequest _
        (bracketed_of_enter _ (hrec _ _ _ _ _ _ _))

theorem listSwitch_bracketed
    (enterRec : Selection M N V → Selection M N V → Bool → editStrategy → Bool → Bool →
      σ → Result M N V σ)
    (loop : Selection M N V → List V → ListRequest M N V → ListRequest M N V →
      σ → Result M N V σ)
    (hrec : ∀ a b c d e f st, EnterBracketed (enterRec a b c d e f st))
    (hloop : ∀ a b c d st, Bracketed (loop a b c d st))
    (env : Env M N V σ) (frm dest : Selection M N V) (strategy : editStrategy)
    (fromChild : Selection M N V) (key : List V) (fromRequest toRequest : ListRequest M N V)
    (toChild : Selection M N V) (st : σ) :
    Bracketed (listSwitch enterRec loop env frm dest strategy fromChild key fromRequest
      toRequest toChild st) := by
  unfold listSwitch
  repeat' first
    | exact bracketed_done _ _
    | exact listDescend_bracketed enterRec loop hrec hloop env frm dest _ _ _ _ _ _ _
    | split

theorem listItem_bracketed
    (enterRec : Selection M N V → Selection M N V → Bool → editStrategy → Bool → Bool →
      σ → Result M N V σ)
    (loop : Selection M N V → List V → ListRequest M N V → ListRequest M N V →
      σ → Result M N V σ)
    (hrec : ∀ a b c d e f st, EnterBracketed (enterRec a b c d e f st))
    (hloop : ∀ a b c d st, Bracketed (loop a b c d st))
    (env : Env M N V σ) (frm dest : Selection M N V) (strategy : editStrategy)
    (fromChild : Selection M N V) (key : List V) (fromRequest toRequest : ListRequest M N V)
    (st : σ) :
    Bracketed (listItem enterRec loop env frm dest strategy fromChild key fromRequest
      toRequest st) := by
  unfold listItem
  dsimp only
  repeat' first
    | exact bracketed_done _ _
    | exact listSwitch_bracketed enterRec loop hrec hloop env frm dest _ _ _ _ _ _ _
    | (apply bracketed_doSelectListItem; intro _ _ _; beta_reduce)
    | split

theorem listLoop_bracketed
    (enterRec : Selection M N V → Selection M N V → Bool → editStrategy → Bool → Bool →
      σ → Result M N V σ)
    (hrec : ∀ a b c d e f st, EnterBracketed (enterRec a b c d e f st))
    (env : Env M N V σ) (frm dest : Selection M N V) (strategy : editStrategy) (fuel : Nat) :
    ∀ fromChild key fromRequest toRequest st,
      Bracketed (listLoop enterRec env frm dest strategy fuel fromChild key fromRequest
        toRequest st) := by
  induction fuel with
  | zero =>
    intro fromChild key fromRequest toRequest st
    unfold listLoop
    split <;> exact bracketed_done _ _
  | succ n ih =>
    intro fromChild key fromRequest toRequest st
    unfold listLoop
    split
    · exact bracketed_done _ _
    · exact listItem_bracketed enterRec _ hrec ih env frm dest strategy _ _ _ _ _

theorem list_bracketed
    (enterRec : Selection M N V → Selection M N V → Bool → editStrategy → Bool → Bool →
      σ → Result M N V σ)
    (hrec : ∀ a b c d e f st, EnterBracketed (enterRec a b c d e f st))
    (fuel : Nat) (env : Env M N V σ) (self : editor M V) (frm dest : Selection M N V) (m : M)
    (new : Bool) (strategy : editStrategy) (st : σ) :
    Bracketed (list enterRec fuel env self frm dest m new strategy st) := by
  unfold list
  apply bracketed_after _ _ (by simp [Event.bracket])
  repeat' first
    | exact bracketed_done _ _
    | exact listLoop_bracketed enterRec hrec env frm dest strategy fuel _ _ _ _ _
    | (apply bracketed_doSelectListItem; intro _ _ _; beta_reduce)
    | split

theorem enterChildren_bracketed [DecidableEq M]
    (enterRec : Selection M N V → Selection M N V → Bool → editStrategy → Bool → Bool →
      σ → Result M N V σ)
    (hrec : ∀ a b c d e f st, EnterBracketed (enterRec a b c d e f st))
    (env : Env M N V σ) (self : editor M V) (frm dest : Selection M N V)
    (new : Bool) (strategy : editStrategy) (ms : List M) :
    ∀ st, Bracketed (enterChildren enterRec env self frm dest new strategy ms st) := by
  induction ms with
  | nil => intro st; exact bracketed_done _ _
  | cons m ms ih =>
    intro st
    unfold enterChildren
    apply bracketed_andThen _ _ _ ih
    split
    · exact bracketed_of_leafSteps _ (leaf_log_isLeafStep env self frm dest m new strategy st)
    · exact node_bracketed enterRec hrec env self frm dest m new strategy st

theorem enterBody_bracketed [DecidableEq M]
    (enterRec : Selection M N V → Selection M N V → Bool → editStrategy → Bool → Bool →
      σ → Result M N V σ)
    (hrec : ∀ a b c d e f st, EnterBracketed (enterRec a b c d e f st))
    (fuel : Nat) (env : Env M N V σ) (self : editor M V) (frm dest : Selection M N V)
    (new : Bool) (strategy : editStrategy) (root bubble : Bool) (st : σ) :
    EnterBracketed (enterBody enterRec fuel env self frm dest new strategy root bubble st) := by
  have hc : ∀ st1, Bracketed (enterSteps enterRec fuel env self frm dest new strategy st1) := by
    intro st1
    unfold enterSteps
    split
    · exact list_bracketed enterRec hrec fuel env self frm dest _ new strategy st1
    · exact enterChildren_bracketed enterRec hrec env self frm dest new strategy _ st1
  unfold enterBody
  simp only [doBeginEdit, doEndEdit]
  cases hb : (env.beginEdit dest { New := new, Source := dest, EditRoot := root } bubble st).1 with
  | some e =>
    refine ⟨fun h => ?_, fun e2 _ => ?_⟩
    · simp [after] at h
    · simp only [after, brackets, List.filterMap_cons, Event.bracket, List.cons_append,
        List.nil_append, List.filterMap_nil]
      exact Pending.last _ _ _ [] Balanced.nil
  | none =>
    simp only []
    generalize (env.beginEdit dest { New := new, Source := dest, EditRoot := root } bubble st).2
      = st1
    have hcs := hc st1
    generalize enterSteps enterRec fuel env self frm dest new strategy st1 = c at hcs ⊢
    obtain ⟨o, s, t⟩ := c
    cases o with
    | ret err =>
      cases err with
      | none =>
        have hbal := hcs.1 rfl
        simp only at hbal
        cases he : (env.endEdit dest { New := new, Source := dest, EditRoot := root } bubble s).1 with
        | none =>
          refine ⟨fun _ => ?_, fun e2 h => ?_⟩
          · simp only [andThen, after, he, brackets, List.filterMap_cons, Event.bracket,
              List.cons_append, List.nil_append, List.filterMap_append, List.filterMap_nil,
              List.append_nil]
            exact Balanced.wrap _ _ _ _ hbal
          · simp [andThen, after, he] at h
        | some e3 =>
          refine ⟨fun h => ?_, fun e2 _ => ?_⟩
          · simp [andThen, after, he] at h
          · simp only [andThen, after, he, brackets, List.filterMap_cons, Event.bracket,
              List.cons_append, List.nil_append, List.filterMap_append, List.filterMap_nil,
              List.append_nil]
            exact Pending.last _ _ _ _ hbal
      | some e1 =>
        have hab := hcs.2 e1 rfl
        simp only at hab
        refine ⟨fun h => ?_, fun e2 _ => ?_⟩
        · simp [andThen, after] at h
        · simp only [andThen, after, brackets, List.filterMap_cons, Event.bracket,
            List.cons_append, List.nil_append]
          exact pending_of_aborted _ _ _ _ hab
    | panic =>
      refine ⟨fun h => ?_, fun e2 h => ?_⟩ <;> simp [andThen, after] at h
    | outOfFuel =>
      refine ⟨fun h => ?_, fun e2 h => ?_⟩ <;> simp [andThen, after] at h

/-- The brackets of every run of `enter` are balanced on success and pending
on error. -/
theorem enter_bracketed [DecidableEq M] (env : Env M N V σ) (self : editor M V) (fuel : Nat) :
    ∀ frm dest new strategy root bubble st,
      EnterBracketed (enter env self fuel frm dest new strategy root bubble st) := by
  induction fuel with
  | zero =>
    intro frm dest new strategy root bubble st
    refine ⟨fun h => ?_, fun e h => ?_⟩ <;> simp [enter] at h
  | succ n ih =>
    intro frm dest new strategy root bubble st
    exact enterBody_bracketed (enter env self n) ih n env self frm dest new strategy root
      bubble st

/-- C9: the lifecycle bracket of `enter`.  In every run of `enter` (with fuel
to start) `beginEdit` on the destination is logged right after the
invocation; when it fails nothing else is logged and its error is returned;
when the steps between the hooks do not all succeed the run ends where they
end, without `endEdit`; when they all succeed `endEdit` is logged last, on
the same destination with the same `New`, `EditRoot` and `bubble`.  Hence,
for every fuel, the hooks of a successful run are properly nested and
balanced, and in a failed run the `beginEdit` of every `enter` on the way to
the failure is left without its `endEdit`. -/
theorem enter_lifecycle_bracket [DecidableEq M] (env : Env M N V σ) (self : editor M V)
    (fuel : Nat) (frm dest : Selection M N V) (new : Bool) (strategy : editStrategy)
    (root bubble : Bool) (st : σ) :
    (∀ e, (env.beginEdit dest { New := new, Source := dest, EditRoot := root } bubble st).1
        = some e →
      enter env self (fuel + 1) frm dest new strategy root bubble st
        = (.ret (some e),
           (env.beginEdit dest { New := new, Source := dest, EditRoot := root } bubble st).2,
           [.enter frm dest new strategy root bubble,
            .op (.beginEdit dest { New := new, Source := dest, EditRoot := root } bubble)
              (.error (some e))])) ∧
    ((env.beginEdit dest { New := new, Source := dest, EditRoot := root } bubble st).1 = none →
      (enterSteps (enter env self fuel) fuel env self frm dest new strategy
        (env.beginEdit dest { New := new, Source := dest, EditRoot := root } bubble st).2).1
        ≠ .ret none →
      enter env self (fuel + 1) frm dest new strategy root bubble st
        = after [.enter frm dest new strategy root bubble,
            .op (.beginEdit dest { New := new, Source := dest, EditRoot := root } bubble)
              (.error none)]
            (enterSteps (enter env self fuel) fuel env self frm dest new strategy
              (env.beginEdit dest { New := new, Source := dest, EditRoot := root } bubble
                st).2)) ∧
    ((env.beginEdit dest { New := new, Source := dest, EditRoot := root } bubble st).1 = none →
      (enterSteps (enter env self fuel) fuel env self frm dest new strategy
        (env.beginEdit dest { New := new, Source := dest, EditRoot := root } bubble st).2).1
        = .ret none →
      ∃ err st3,
        env.endEdit dest { New := new, Source := dest, EditRoot := root } bubble
          (enterSteps (enter env self fuel) fuel env self frm dest new strategy
            (env.beginEdit dest { New := new, Source := dest, EditRoot := root } bubble
              st).2).2.1 = (err, st3) ∧
        enter env self (fuel + 1) frm dest new strategy root bubble st
          = (.ret err, st3,
             [.enter frm dest new strategy root bubble,
              .op (.beginEdit dest { New := new, Source := dest, EditRoot := root } bubble)
                (.error none)] ++
             (enterSteps (enter env self fuel) fuel env self frm dest new strategy
               (env.beginEdit dest { New := new, Source := dest, EditRoot := root } bubble
                 st).2).2.2 ++
             [.op (.endEdit dest { New := new, Source := dest, EditRoot := root } bubble)
               (.error err)])) ∧
    ((enter env self fuel frm dest new strategy root bubble st).1 = .ret none →
      Balanced (brackets (enter env self fuel frm dest new strategy root bubble st).2.2)) ∧
    (∀ e, (enter env self fuel frm dest new strategy root bubble st).1 = .ret (some e) →
      Pending (brackets (enter env self fuel frm dest new strategy root bubble st).2.2)) := by
  refine ⟨?_, ?_, ?_, (enter_bracketed env self fuel frm dest new strategy root bubble st).1,
    (enter_bracketed env self fuel frm dest new strategy root bubble st).2⟩
  · intro e hb
    show enterBody (enter env self fuel) fuel env self frm dest new strategy root bubble st = _
    unfold enterBody
    simp [doBeginEdit, hb, after]
  · intro hb hs
    show enterBody (enter env self fuel) fuel env self frm dest new strategy root bubble st = _
    unfold enterBody
    simp only [doBeginEdit, hb]
    generalize enterSteps (enter env self fuel) fuel env self frm dest new strategy
      (env.beginEdit dest { New := new, Source := dest, EditRoot := root } bubble st).2 = c
      at hs ⊢
    obtain ⟨o, s, t⟩ := c
    cases o with
    | ret err =>
      cases err with
      | none => exact absurd rfl hs
      | some e => simp [andThen, after]
    | panic => simp [andThen, after]
    | outOfFuel => simp [andThen, after]
  · intro hb hs
    show ∃ err st3, _ ∧
      enterBody (enter env self fuel) fuel env self frm dest new strategy root bubble st = _
    unfold enterBody
    simp only [doBeginEdit, hb, doEndEdit]
    generalize enterSteps (enter env self fuel) fuel env self frm dest new strategy
      (env.beginEdit dest { New := new, Source := dest, EditRoot := root } bubble st).2 = c
      at hs ⊢
    obtain ⟨o, s, t⟩ := c
    simp only at hs
    subst hs
    refine ⟨_, _, rfl, ?_⟩
    cases he : (env.endEdit dest { New := new, Source := dest, EditRoot := root } bubble s).1
      <;> simp [andThen, after, he]

end BracketProofs

section SwallowedFind

/-- C11 fails on the code for `Find`: the destination holds the case `tls`
with its container `cert`, the source the leaf `tcpPort` of the case `tcp`,
and `Find` fails on every lookup.  The Upsert clears `tlsPort`, asks `Find`
for `cert`, gets a selection that carries `LastErr`, and still returns
success; `cert` stays where it was, next to the new `tcpPort`. -/
theorem failed_find_is_swallowed :
    failedFind.LastErr = some (.NewErr "backing store unavailable") ∧
    Event.op (.Find dstRoot "cert") (.selection failedFind)
      ∈ (edit (findFailEnv choiceSchema) plainEditor 3 srcRoot dstRoot editUpsert tlsStore).2.2 ∧
    (edit (findFailEnv choiceSchema) plainEditor 3 srcRoot dstRoot editUpsert tlsStore).1
      = .ret none ∧
    (edit (findFailEnv choiceSchema) plainEditor 3 srcRoot dstRoot editUpsert tlsStore).2.1.get
      [.field "dst", .field "cert"] = some .present ∧
    (edit (findFailEnv choiceSchema) plainEditor 3 srcRoot dstRoot editUpsert tlsStore).2.1.get
      [.field "dst", .field "tcpPort"] = some (.leaf (.int 80)) := by
  decide

end SwallowedFind

section LeafSteps

variable {M N V σ : Type}

theorem isClearing_not_choose (e : Event M N V) (h : e.isClearing = true) :
    e.isChoose = false := by
  cases e with
  | op o r => cases o <;> simp_all [Event.isClearing, Event.isChoose]
  | _ => rfl

/-- C14: when the source's `GetValueHnd` succeeds and produces no value,
`leaf` returns success, leaves the store as the read left it, and its log
holds the invocation and that one read on the source: no `Choose`,
`ClearField`, `Find`, `Delete` or `SetValueHnd` is issued. -/
theorem leaf_without_value_is_silent [DecidableEq M] (env : Env M N V σ) (self : editor M V)
    (frm dest : Selection M N V) (m : M) (new : Bool) (strategy : editStrategy) (st : σ)
    (h : (leafRead env self frm m new strategy st).1 = (none, none)) :
    leaf env self frm dest m new strategy st
      = (.ret none, (leafRead env self frm m new strategy st).2,
          [.leaf frm dest m new strategy,
           .op (.GetValueHnd frm (leafRequest self frm frm m) (leafUseDefault self new strategy))
             (.value none none)]) ∧
    ∀ e ∈ (leaf env self frm dest m new strategy st).2.2,
      e.isChoose = false ∧ e.isClearing = false ∧ e.isSetValueHnd = false ∧ e.edits = false := by
  have hl : leaf env self frm dest m new strategy st
      = (.ret none, (leafRead env self frm m new strategy st).2,
          [.leaf frm dest m new strategy,
           .op (.GetValueHnd frm (leafRequest self frm frm m) (leafUseDefault self new strategy))
             (.value none none)]) := by
    simp only [leafRead, leafRequest, leafUseDefault] at h ⊢
    unfold leaf doGetValueHnd
    simp only [h, after, List.singleton_append, List.cons_append, List.nil_append]
  refine ⟨hl, ?_⟩
  rw [hl]
  intro e he
  simp only [List.mem_cons, List.mem_singleton, List.not_mem_nil, or_false] at he
  rcases he with he | he <;> subst he <;>
    simp [Event.isChoose, Event.isClearing, Event.isSetValueHnd, Event.edits, Op.edits]

/-- C19: `leaf` issues a `Choose` exactly when the strategy is Upsert, the
read of the source succeeded with a value, and the leaf's immediate schema
parent is a choice case.  When the read succeeded with a value and the
strategy is not Upsert, or the parent is not a choice case, the log is the
invocation, the read and the `SetValueHnd` on the destination, and nothing
else; `leaf` returns what `SetValueHnd` returned. -/
theorem leaf_consults_choice_iff [DecidableEq M] (env : Env M N V σ) (self : editor M V)
    (frm dest : Selection M N V) (m : M) (new : Bool) (strategy : editStrategy) (st : σ) :
    ((∃ e ∈ (leaf env self frm dest m new strategy st).2.2, e.isChoose = true) ↔
      (strategy = editUpsert ∧
        (∃ val, (leafRead env self frm m new strategy st).1 = (none, some val)) ∧
        (env.parentCase m).isSome = true)) ∧
    (∀ val, (leafRead env self frm m new strategy st).1 = (none, some val) →
      (strategy ≠ editUpsert ∨ env.parentCase m = none) →
      leaf env self frm dest m new strategy st
        = (.ret (env.SetValueHnd dest (leafRequest self dest frm m) val
              (leafRead env self frm m new strategy st).2).1,
           (env.SetValueHnd dest (leafRequest self dest frm m) val
              (leafRead env self frm m new strategy st).2).2,
           [.leaf frm dest m new strategy,
            leafReadEvent env self frm m new strategy st,
            leafSetEvent env self frm dest m val
              (leafRead env self frm m new strategy st).2])) := by
  have hset := doSetValueHnd_ret env self frm dest m
  simp only [leafRead, leafReadEvent, leafSetEvent, leafRequest, leafUseDefault] at hset ⊢
  unfold leaf doGetValueHnd
  dsimp only
  generalize env.GetValueHnd frm
    { Selection := frm, Path := .mk frm.Path m [], Base := self.basePath, Meta := m }
    ((strategy != editUpdate && new) || self.useDefault) st = g
  obtain ⟨⟨err, hnd⟩, st1⟩ := g
  cases err with
  | some e => simp [after, Event.isChoose]
  | none =>
    cases hnd with
    | none => simp [after, Event.isChoose]
    | some val =>
      by_cases hs : strategy = editUpsert
      · cases hp : env.parentCase m with
        | none =>
          simp [hs, clearOnDifferentChoiceCase, hp, andThen, after, hset, Event.isChoose]
        | some c =>
          refine ⟨⟨fun _ => ⟨hs, ⟨val, rfl⟩, rfl⟩, fun _ => ?_⟩, fun _ _ h => ?_⟩
          · refine ⟨.op (.Choose dest (env.caseChoice c))
              (.chosen (env.Choose dest (env.caseChoice c) st1).1.1
                (env.Choose dest (env.caseChoice c) st1).1.2), ?_, rfl⟩
            simp only [hs, if_true, after_log, andThen_log, clearOnDifferentChoiceCase, hp,
              doChoose]
            split <;> simp
          · rcases h with h | h
            · exact absurd hs h
            · simp at h
      · simp [hs, andThen, after, hset, Event.isChoose]

end LeafSteps

section LeafWitness

/-- Witness of C14: the source holds no `debug`, and no default is asked
for. -/
theorem leaf_without_value_is_silent_witness :
    (leafRead (memEnv appSchema) plainEditor srcRoot debugMeta false editUpsert appStore).1
      = (none, none) ∧
    (leaf (memEnv appSchema) plainEditor srcRoot dstRoot debugMeta false editUpsert appStore).1
      = .ret none ∧
    (leaf (memEnv appSchema) plainEditor srcRoot dstRoot debugMeta false editUpsert
      appStore).2.1 = appStore :=
  ⟨by decide,
   congrArg Prod.fst (leaf_without_value_is_silent (memEnv appSchema) plainEditor srcRoot
     dstRoot debugMeta false editUpsert appStore (by decide)).1,
   (congrArg (fun r => r.2.1) (leaf_without_value_is_silent (memEnv appSchema) plainEditor
     srcRoot dstRoot debugMeta false editUpsert appStore (by decide)).1).trans (by decide)⟩

end LeafWitness
section LogFamilies

variable {M N V σ : Type}

theorem logAll_singleton (P : Event M N V → Prop) (x : Event M N V) (h : P x) :
    ∀ e ∈ [x], P e := by
  intro e he
  rw [List.mem_singleton] at he
  exact he ▸ h

theorem clearChoiceCaseLoop_logAll [DecidableEq M] (P : Event M N V → Prop)
    (env : Env M N V σ) (sel : Selection M N V) (ms : List M) (st : σ)
    (hop : ∀ o r, o.isHook = false → P (.op o r)) :
    LogAll P (clearChoiceCaseLoop env sel ms st) := by
  intro e he
  have h := clearChoiceCaseLoop_log_isClearing env sel ms st e he
  cases e with
  | op o r => cases o <;> first | exact hop _ _ rfl | simp [Event.isClearing] at h
  | _ => simp [Event.isClearing] at h

/-- A property of the invocation of `leaf` and of every operation that is not
a hook holds of the whole log of `leaf`. -/
theorem leaf_logAll [DecidableEq M] (P : Event M N V → Prop) (env : Env M N V σ)
    (self : editor M V) (frm dest : Selection M N V) (m : M) (new : Bool)
    (strategy : editStrategy) (st : σ)
    (hself : P (.leaf frm dest m new strategy))
    (hop : ∀ o r, o.isHook = false → P (.op o r)) :
    LogAll P (leaf env self frm dest m new strategy st) := by
  unfold leaf
  apply logAll_after _ _ _ (logAll_singleton P _ hself)
  apply logAll_after _ _ _ (logAll_singleton P _ (hop _ _ (by rfl)))
  beta_reduce
  split
  · exact logAll_done _ _ _
  · split
    · exact logAll_done _ _ _
    · apply logAll_andThen
      · split
        · unfold clearOnDifferentChoiceCase
          split
          · exact logAll_done _ _ _
          · apply logAll_after _ _ _ (logAll_singleton P _ (hop _ _ (by rfl)))
            beta_reduce
            split
            · exact logAll_done _ _ _
            · split
              · exact logAll_done _ _ _
              · split
                · exact logAll_done _ _ _
                · exact clearChoiceCaseLoop_logAll P env _ _ _ hop
        · exact logAll_done _ _ _
      · intro st2
        apply logAll_after _ _ _ (logAll_singleton P _ (hop _ _ (by rfl)))
        beta_reduce
        split <;> exact logAll_done _ _ _

theorem logAll_doSelect (P : Event M N V → Prop) (env : Env M N V σ) (sel : Selection M N V)
    (r : ChildRequest M N V) (st : σ) (k : Selection M N V → σ → Result M N V σ)
    (hop : ∀ o r, o.isHook = false → P (.op o r))
    (hk : ∀ c st1, LogAll P (k c st1)) : LogAll P (doSelect env sel r st k) :=
  logAll_after _ _ _ (logAll_singleton P _ (hop _ _ rfl)) (hk _ _)

theorem logAll_doSelectListItem (P : Event M N V → Prop) (env : Env M N V σ)
    (sel : Selection M N V) (r : ListRequest M N V) (st : σ)
    (k : Selection M N V → List V → σ → Result M N V σ)
    (hop : ∀ o r, o.isHook = false → P (.op o r))
    (hk : ∀ c key st1, LogAll P (k c key st1)) : LogAll P (doSelectListItem env sel r st k) :=
  logAll_after _ _ _ (logAll_singleton P _ (hop _ _ rfl)) (hk _ _ _)

/-- A property of the invocation of `node`, of every operation that is not a
hook, and of the log of `enter` for a source and a destination that are not
nil, holds of the whole log of `node`. -/
theorem node_logAll (P : Event M N V → Prop)
    (enterRec : Selection M N V → Selection M N V → Bool → editStrategy → Bool → Bool →
      σ → Result M N V σ)
    (env : Env M N V σ) (self : editor M V) (frm dest : Selection M N V) (m : M)
    (new : Bool) (strategy : editStrategy) (st : σ)
    (hself : P (.node frm dest m new strategy))
    (hop : ∀ o r, o.isHook = false → P (.op o r))
    (hrec : ∀ a b c st1, a.IsNil = false → b.IsNil = false →
      LogAll P (enterRec a b c strategy false false st1)) :
    LogAll P (node enterRec env self frm dest m new strategy st) := by
  unfold node
  apply logAll_after _ _ _ (logAll_singleton P _ hself)
  dsimp only
  apply logAll_doSelect P env _ _ _ _ hop
  intro fromChild st1
  beta_reduce
  split
  · exact logAll_done _ _ _
  · rename_i hfc
    have hfc1 : fromChild.IsNil = false := by
      cases h : fromChild.IsNil
      · rfl
      · exact absurd (Or.inr h) hfc
    have hdesc : ∀ path toChild newChild st2,
        LogAll P (nodeDescend enterRec env m path strategy fromChild toChild newChild st2) := by
      intro path toChild newChild st2
      unfold nodeDescend
      split
      · exact logAll_done _ _ _
      · rename_i htc
        exact hrec _ _ _ _ hfc1 (by simpa using htc)
    have hcreate : ∀ (r : ChildRequest M N V) path st2,
        LogAll P (doSelect env dest r st2 fun toChild1 st3 =>
          if toChild1.LastErr ≠ none then (.ret toChild1.LastErr, st3, [])
          else nodeDescend enterRec env m path strategy fromChild toChild1 true st3) := by
      intro r path st2
      apply logAll_doSelect P env _ _ _ _ hop
      intro toChild1 st3
      beta_reduce
      split
      · exact logAll_done _ _ _
      · exact hdesc _ _ _ _
    apply logAll_doSelect P env _ _ _ _ hop
    intro toChild st2
    beta_reduce
    repeat' first
      | exact logAll_done _ _ _
      | exact hdesc _ _ _ _
      | exact hcreate _ _ _
      | split

theorem listAdvance_logAll (P : Event M N V → Prop)
    (loop : Selection M N V → List V → ListRequest M N V → ListRequest M N V →
      σ → Result M N V σ)
    (env : Env M N V σ) (frm dest : Selection M N V) (fromChild : Selection M N V)
    (key : List V) (fromRequest toRequest : ListRequest M N V) (r : Result M N V σ)
    (hop : ∀ o r, o.isHook = false → P (.op o r))
    (hloop : ∀ a b c d st, LogAll P (loop a b c d st))
    (hr : LogAll P r) :
    LogAll P (listAdvance loop env frm dest fromChild key fromRequest toRequest r) := by
  unfold listAdvance
  apply logAll_andThen _ _ _ hr
  intro st4
  apply logAll_doSelectListItem P env _ _ _ _ hop
  intro _ _ _
  beta_reduce
  split
  · exact logAll_done _ _ _
  · exact hloop _ _ _ _ _

theorem listDescend_logAll (P : Event M N V → Prop)
    (enterRec : Selection M N V → Selection M N V → Bool → editStrategy → Bool → Bool →
      σ → Result M N V σ)
    (loop : Selection M N V → List V → ListRequest M N V → ListRequest M N V →
      σ → Result M N V σ)
    (env : Env M N V σ) (frm dest : Selection M N V) (fromChild : Selection M N V)
    (key : List V) (fromRequest toRequest : ListRequest M N V)
    (toChild : Selection M N V) (newItem : Bool) (st : σ)
    (hop : ∀ o r, o.isHook = false → P (.op o r))
    (hrec : ∀ a b c st1, a.IsNil = false → b.IsNil = false →
      LogAll P (enterRec a b c editUpsert false false st1))
    (hloop : ∀ a b c d st, LogAll P (loop a b c d st))
    (hfc : fromChild.IsNil = false) :
    LogAll P (listDescend enterRec loop env frm dest fromChild key fromRequest toRequest
      toChild newItem st) := by
  unfold listDescend
  split
  · exact logAll_done _ _ _
  · split
    · exact logAll_done _ _ _
    · exact listAdvance_logAll P loop env frm dest fromChild key fromRequest toRequest _ hop
        hloop (hrec _ _ _ _ hfc (by simp_all))

theorem listItem_logAll (P : Event M N V → Prop)
    (enterRec : Selection M N V → Selection M N V → Bool → editStrategy → Bool → Bool →
      σ → Result M N V σ)
    (loop : Selection M N V → List V → ListRequest M N V → ListRequest M N V →
      σ → Result M N V σ)
    (env : Env M N V σ) (frm dest : Selection M N V) (strategy : editStrategy)
    (fromChild : Selection M N V) (key : List V) (fromRequest toRequest : ListRequest M N V)
    (st : σ)
    (hop : ∀ o r, o.isHook = false → P (.op o r))
    (hrec : ∀ a b c st1, a.IsNil = false → b.IsNil = false →
      LogAll P (enterRec a b c editUpsert false false st1))
    (hloop : ∀ a b c d st, LogAll P (loop a b c d st))
    (hfc : fromChild.IsNil = false) :
    LogAll P (listItem enterRec loop env frm dest strategy fromChild key fromRequest
      toRequest st) := by
  unfold listItem listSwitch
  dsimp only
  repeat' first
    | exact logAll_done _ _ _
    | exact listDescend_logAll P enterRec loop env frm dest fromChild key _ _ _ _ _ hop hrec
        hloop hfc
    | (apply logAll_doSelectListItem P env _ _ _ _ hop; intro _ _ _; beta_reduce)
    | split

theorem listLoop_logAll (P : Event M N V → Prop)
    (enterRec : Selection M N V → Selection M N V → Bool → editStrategy → Bool → Bool →
      σ → Result M N V σ)
    (env : Env M N V σ) (frm dest : Selection M N V) (strategy : editStrategy)
    (hop : ∀ o r, o.isHook = false → P (.op o r))
    (hrec : ∀ a b c st1, a.IsNil = false → b.IsNil = false →
      LogAll P (enterRec a b c editUpsert false false st1))
    (fuel : Nat) :
    ∀ fromChild key fromRequest toRequest st,
      LogAll P (listLoop enterRec env frm dest strategy fuel fromChild key fromRequest
        toRequest st) := by
  induction fuel with
  | zero =>
    intro fromChild key fromRequest toRequest st
    unfold listLoop
    split <;> exact logAll_done _ _ _
  | succ n ih =>
    intro fromChild key fromRequest toRequest st
    unfold listLoop
    split
    · exact logAll_done _ _ _
    · exact listItem_logAll P enterRec _ env frm dest strategy _ _ _ _ _ hop hrec ih
        (by simp_all)

/-- A property of the invocation of `list`, of every operation that is not a
hook, and of the log of `enter` under Upsert for a source and a destination
that are not nil, holds of the whole log of `list`. -/
theorem list_logAll (P : Event M N V → Prop)
    (enterRec : Selection M N V → Selection M N V → Bool → editStrategy → Bool → Bool →
      σ → Result M N V σ)
    (fuel : Nat) (env : Env M N V σ) (self : editor M V) (frm dest : Selection M N V) (m : M)
    (new : Bool) (strategy : editStrategy) (st : σ)
    (hself : P (.list frm dest m new strategy))
    (hop : ∀ o r, o.isHook = false → P (.op o r))
    (hrec : ∀ a b c st1, a.IsNil = false → b.IsNil = false →
      LogAll P (enterRec a b c editUpsert false false st1)) :
    LogAll P (list enterRec fuel env self frm dest m new strategy st) := by
  unfold list
  apply logAll_after _ _ _ (logAll_singleton P _ hself)
  repeat' first
    | exact logAll_done _ _ _
    | exact listLoop_logAll P enterRec env frm dest strategy hop hrec fuel _ _ _ _ _
    | (apply logAll_doSelectListItem P env _ _ _ _ hop; intro _ _ _; beta_reduce)
    | split

theorem enterChildren_logAll [DecidableEq M] (P : Event M N V → Prop)
    (enterRec : Selection M N V → Selection M N V → Bool → editStrategy → Bool → Bool →
      σ → Result M N V σ)
    (env : Env M N V σ) (self : editor M V) (frm dest : Selection M N V)
    (new : Bool) (strategy : editStrategy) (ms : List M)
    (hleaf : ∀ m, P (.leaf frm dest m new strategy))
    (hnode : ∀ m, P (.node frm dest m new strategy))
    (hop : ∀ o r, o.isHook = false → P (.op o r))
    (hrec : ∀ a b c st1, a.IsNil = false → b.IsNil = false →
      LogAll P (enterRec a b c strategy false false st1)) :
    ∀ st, LogAll P (enterChildren enterRec env self frm dest new strategy ms st) := by
  induction ms with
  | nil => intro st; exact logAll_done _ _ _
  | cons m ms ih =>
    intro st
    unfold enterChildren
    apply logAll_andThen _ _ _ _ ih
    split
    · exact leaf_logAll P env self frm dest m new strategy st (hleaf m) hop
    · exact node_logAll P enterRec env self frm dest m new strategy st (hnode m) hop hrec

/-- The invocations a run of `enter` may make, given a class `A` of calls
that is closed under the two ways `enter` is called again: with the same
strategy from `node`, with Upsert from `list`, each time for a source and a
destination that are not nil and with `root` and `bubble` off.  A property
that holds of what every call of the class logs itself holds of the whole
log. -/
theorem enter_logAll [DecidableEq M] (P : Event M N V → Prop)
    (A : Selection M N V → Selection M N V → editStrategy → Bool → Bool → Prop)
    (env : Env M N V σ) (self : editor M V)
    (hop : ∀ o r, o.isHook = false → P (.op o r))
    (hcall : ∀ a b new d root bubble, A a b d root bubble →
      P (.enter a b new d root bubble) ∧
      (∀ r, P (.op (.beginEdit b { New := new, Source := b, EditRoot := root } bubble) r)) ∧
      (∀ r, P (.op (.endEdit b { New := new, Source := b, EditRoot := root } bubble) r)) ∧
      (∀ m, P (.leaf a b m new d)) ∧ (∀ m, P (.node a b m new d)) ∧
      (∀ m, P (.list a b m new d)))
    (hdown : ∀ a b d root bubble, A a b d root bubble →
      ∀ a1 b1, a1.IsNil = false → b1.IsNil = false →
        A a1 b1 d false false ∧ A a1 b1 editUpsert false false)
    (fuel : Nat) :
    ∀ a b new d root bubble st, A a b d root bubble →
      LogAll P (enter env self fuel a b new d root bubble st) := by
  induction fuel with
  | zero =>
    intro a b new d root bubble st _
    exact logAll_done _ _ _
  | succ n ih =>
    intro a b new d root bubble st hA
    obtain ⟨h1, h2, h3, h4, h5, h6⟩ := hcall a b new d root bubble hA
    have hsame : ∀ a1 b1 c st1, a1.IsNil = false → b1.IsNil = false →
        LogAll P (enter env self n a1 b1 c d false false st1) :=
      fun a1 b1 c st1 ha hb => ih a1 b1 c d false false st1 (hdown a b d root bubble hA a1 b1 ha hb).1
    have hups : ∀ a1 b1 c st1, a1.IsNil = false → b1.IsNil = false →
        LogAll P (enter env self n a1 b1 c editUpsert false false st1) :=
      fun a1 b1 c st1 ha hb =>
        ih a1 b1 c editUpsert false false st1 (hdown a b d root bubble hA a1 b1 ha hb).2
    show LogAll P (enterBody (enter env self n) n env self a b new d root bubble st)
    unfold enterBody enterSteps doBeginEdit doEndEdit
    apply logAll_after _ _ _ (logAll_singleton P _ h1)
    apply logAll_after _ _ _ (logAll_singleton P _ (h2 _))
    beta_reduce
    split
    · exact logAll_done _ _ _
    · apply logAll_andThen
      · split
        · exact list_logAll P _ n env self a b _ new d _ (h6 _) hop hups
        · exact enterChildren_logAll P _ env self a b new d _ h4 h5 hop hsame _
      · intro st2
        apply logAll_after _ _ _ (logAll_singleton P _ (h3 _))
        beta_reduce
        split <;> exact logAll_done _ _ _

end LogFamilies
section StrategyInForce

variable {M N V σ : Type}

/-- Every invocation of a run of `enter` with the strategy `s` or with Upsert
carries `s` or Upsert. -/
theorem enter_strategy_log [DecidableEq M] (env : Env M N V σ) (self : editor M V)
    (s : editStrategy) (fuel : Nat) (frm dest : Selection M N V) (new : Bool)
    (d : editStrategy) (root bubble : Bool) (st : σ) (hd : d = s ∨ d = editUpsert) :
    LogAll (fun e => e.strategy = none ∨ e.strategy = some s ∨ e.strategy = some editUpsert)
      (enter env self fuel frm dest new d root bubble st) := by
  apply enter_logAll (fun e => e.strategy = none ∨ e.strategy = some s ∨
      e.strategy = some editUpsert) (fun _ _ d _ _ => d = s ∨ d = editUpsert) env self
  · intro o r _
    exact Or.inl rfl
  · intro a b new d root bubble hA
    have h : some d = some s ∨ some d = some editUpsert := by
      rcases hA with h | h
      · exact Or.inl (congrArg some h)
      · exact Or.inr (congrArg some h)
    exact ⟨Or.inr h, fun _ => Or.inl rfl, fun _ => Or.inl rfl, fun _ => Or.inr h,
      fun _ => Or.inr h, fun _ => Or.inr h⟩
  · intro a b d root bubble hA a1 b1 _ _
    exact ⟨hA, Or.inr rfl⟩
  · exact hd

theorem listLoop_hands_upsert
    (enterRec : Selection M N V → Selection M N V → Bool → editStrategy → Bool → Bool →
      σ → Result M N V σ)
    (env : Env M N V σ) (frm dest : Selection M N V) (strategy : editStrategy) (fuel : Nat) :
    listLoop enterRec env frm dest strategy fuel
      = listLoop (fun x y c _ r b => enterRec x y c editUpsert r b) env frm dest strategy
          fuel := by
  induction fuel with
  | zero => rfl
  | succ n ih =>
    funext fromChild key fromRequest toRequest st
    show (if fromChild.IsNil then _ else listItem enterRec (listLoop enterRec env frm dest
        strategy n) env frm dest strategy fromChild key fromRequest toRequest st)
      = (if fromChild.IsNil then _ else listItem _ (listLoop _ env frm dest strategy n) env frm
        dest strategy fromChild key fromRequest toRequest st)
    rw [ih]
    rfl

/-- C12 as stated fails: an Update of a list whose one item the destination
holds succeeds, and below the item `enter` and `leaf` are invoked with
Upsert. -/
theorem update_enters_list_item_with_upsert :
    (edit (memEnv itemSchema) plainEditor 3 srcList dstList editUpdate itemStore).1
      = .ret none ∧
    ¬ ∀ e ∈ (edit (memEnv itemSchema) plainEditor 3 srcList dstList editUpdate itemStore).2.2,
        e.strategy = none ∨ e.strategy = some editUpdate := by
  decide

end StrategyInForce

section RootMarks

variable {M N V σ : Type}

/-- The steps of `enter` between the hooks, for calls of `enter` with `root`
and `bubble` off from there on, log no root mark. -/
theorem enterSteps_no_root_mark [DecidableEq M] (env : Env M N V σ) (self : editor M V)
    (fuel : Nat) (frm dest : Selection M N V) (new : Bool) (strategy : editStrategy) (st : σ) :
    LogAll (fun e => e.isRootMark = false)
      (enterSteps (enter env self fuel) fuel env self frm dest new strategy st) := by
  have hop : ∀ (o : Op M N V) (r : Resp M N V), o.isHook = false →
      (Event.op o r).isRootMark = false := by
    intro o r h
    cases o <;> first | rfl | simp [Op.isHook] at h
  have hrec : ∀ a b c d st1, LogAll (fun e => e.isRootMark = false)
      (enter env self fuel a b c d false false st1) := by
    intro a b c d st1
    apply enter_logAll (fun e => e.isRootMark = false)
      (fun _ _ _ root bubble => root = false ∧ bubble = false) env self hop
    · intro a b new d root bubble hA
      obtain ⟨h1, h2⟩ := hA
      subst h1
      subst h2
      exact ⟨rfl, fun _ => rfl, fun _ => rfl, fun _ => rfl, fun _ => rfl, fun _ => rfl⟩
    · intro a b d root bubble _ a1 b1 _ _
      exact ⟨⟨rfl, rfl⟩, ⟨rfl, rfl⟩⟩
    · exact ⟨rfl, rfl⟩
  unfold enterSteps
  split
  · exact list_logAll (fun e => e.isRootMark = false) _ fuel env self frm dest _ new strategy
      st rfl hop (fun a b c st1 _ _ => hrec a b c _ st1)
  · exact enterChildren_logAll (fun e => e.isRootMark = false) _ env self frm dest new
      strategy _ (fun _ => rfl) (fun _ => rfl) hop (fun a b c st1 _ _ => hrec a b c _ st1) _

/-- C15: the log of `edit(from, to, s)` starts with the invocation of `enter`
with `new = false`, `root = true`, `bubble = true` and with the `beginEdit`
that carries `EditRoot = true` and `bubble = true`.  What follows holds no
invocation of `enter` with `root` or `bubble` set and no `beginEdit` or
`endEdit` with `EditRoot` or `bubble` set, except for one `endEdit` with
`EditRoot = true` and `bubble = true` as the very last entry; on success that
`endEdit` is there and has succeeded. -/
theorem edit_marks_root_once [DecidableEq M] (env : Env M N V σ) (self : editor M V)
    (fuel : Nat) (frm dest : Selection M N V) (s : editStrategy) (st : σ) :
    ∃ b mid tail,
      (edit env self (fuel + 1) frm dest s st).2.2
        = .enter frm dest false s true true ::
          .op (.beginEdit dest { New := false, Source := dest, EditRoot := true } true)
            (.error b) :: (mid ++ tail) ∧
      (∀ e ∈ mid, e.isRootMark = false) ∧
      (tail = [] ∨ ∃ err, tail
        = [.op (.endEdit dest { New := false, Source := dest, EditRoot := true } true)
            (.error err)]) ∧
      ((edit env self (fuel + 1) frm dest s st).1 = .ret none →
        tail = [.op (.endEdit dest { New := false, Source := dest, EditRoot := true } true)
            (.error none)]) := by
  have hsteps := enterSteps_no_root_mark env self fuel frm dest false s
  show ∃ b mid tail,
    (enterBody (enter env self fuel) fuel env self frm dest false s true true st).2.2 = _ ∧ _ ∧
      _ ∧ ((enterBody (enter env self fuel) fuel env self frm dest false s true true st).1
        = .ret none → _)
  unfold enterBody doBeginEdit doEndEdit
  generalize env.beginEdit dest { New := false, Source := dest, EditRoot := true } true st = g
  obtain ⟨b, st1⟩ := g
  cases b with
  | some e =>
    refine ⟨some e, [], [], rfl, fun _ h => absurd h (List.not_mem_nil _), Or.inl rfl, ?_⟩
    intro h
    simp [after] at h
  | none =>
    have hs := hsteps st1
    dsimp only
    generalize enterSteps (enter env self fuel) fuel env self frm dest false s st1 = r at hs ⊢
    obtain ⟨o, st2, t⟩ := r
    by_cases ho : o = .ret none
    · subst ho
      simp only [andThen, after]
      generalize env.endEdit dest { New := false, Source := dest, EditRoot := true } true
        st2 = g2
      obtain ⟨err, st3⟩ := g2
      refine ⟨none, t, [.op (.endEdit dest { New := false, Source := dest, EditRoot := true }
        true) (.error err)], ?_, hs, Or.inr ⟨err, rfl⟩, ?_⟩
      · cases err <;> simp
      · intro h
        cases err with
        | none => rfl
        | some e => simp at h
    · have hand : ∀ k : σ → Result M N V σ, andThen (o, st2, t) k = (o, st2, t) := by
        intro k
        cases o with
        | ret e =>
          cases e with
          | none => exact absurd rfl ho
          | some e => rfl
        | panic => rfl
        | outOfFuel => rfl
      rw [hand]
      exact ⟨none, t, [], by simp [after], hs, Or.inl rfl, fun h => absurd h ho⟩

end RootMarks

section UpsertErrors

variable {M N V σ : Type}

theorem traced_after (env : Env M N V σ) (p t : List (Event M N V)) (r : Result M N V σ)
    (h : Traced env (p ++ t) r) : Traced env p (after t r) := by
  unfold Traced at *
  simp only [after_fst, after_log, ← List.append_assoc]
  exact h

theorem traced_andThen (env : Env M N V σ) (p : List (Event M N V)) (r : Result M N V σ)
    (k : σ → Result M N V σ) (hr : Traced env p r)
    (hk : ∀ st p2, Traced env p2 (k st)) : Traced env p (andThen r k) := by
  unfold Traced at *
  rw [andThen_fst, andThen_log]
  by_cases h : r.1 = .ret none
  · simp only [h, if_true, ← List.append_assoc]
    exact hk _ _
  · simp only [h, if_false]
    exact hr

theorem traced_quiet (env : Env M N V σ) (p : List (Event M N V)) (o : Outcome) (st : σ)
    (ho : ∀ e, o ≠ .ret (some e)) : Traced env p ((o, st, []) : Result M N V σ) :=
  fun e h => absurd h (ho e)

theorem traced_ok (env : Env M N V σ) (p : List (Event M N V)) (st : σ) :
    Traced env p ((.ret none, st, []) : Result M N V σ) :=
  traced_quiet env p _ st (by simp)

theorem traced_lastErr (env : Env M N V σ) (p : List (Event M N V)) (f : Option Err) (st : σ)
    (h : Answered p f) : Traced env p ((.ret f, st, []) : Result M N V σ) := by
  intro e he
  simp only [Outcome.ret.injEq] at he
  subst he
  rcases h with h | ⟨o, resp, h1, h2⟩
  · simp at h
  · exact Or.inl ⟨o, resp, by simpa using h1, h2⟩

theorem traced_create (env : Env M N V σ) (p : List (Event M N V)) (e : Err) (st : σ)
    (h : Err.couldNotCreate env e) :
    Traced env p ((.ret (some e), st, []) : Result M N V σ) := by
  intro e2 he
  simp only [Outcome.ret.injEq, Option.some.injEq] at he
  subst he
  exact Or.inr h

theorem answered_snoc (p : List (Event M N V)) (o : Op M N V) (resp : Resp M N V) :
    Answered (p ++ [.op o resp]) resp.failure :=
  Or.inr ⟨o, resp, by simp, rfl⟩

theorem traced_errorOp (env : Env M N V σ) (p : List (Event M N V)) (o : Op M N V)
    (res : Option Err × σ) (k : Option Err → σ → Result M N V σ)
    (hfail : ∀ e st1, k (some e) st1 = (.ret (some e), st1, []))
    (hok : ∀ st1 p2, Traced env p2 (k none st1)) :
    Traced env p (after [.op o (.error res.1)] (k res.1 res.2)) := by
  apply traced_after
  obtain ⟨err, st1⟩ := res
  cases err with
  | some e =>
    show Traced env _ (k (some e) st1)
    rw [hfail]
    exact traced_lastErr env _ _ st1 (answered_snoc p o (.error (some e)))
  | none => exact hok _ _

theorem traced_doBeginEdit (env : Env M N V σ) (dest : Selection M N V)
    (r : NodeRequest M N V) (bubble : Bool) (st : σ) (k : Option Err → σ → Result M N V σ)
    (p : List (Event M N V))
    (hfail : ∀ e st1, k (some e) st1 = (.ret (some e), st1, []))
    (hok : ∀ st1 p2, Traced env p2 (k none st1)) :
    Traced env p (doBeginEdit env dest r bubble st k) :=
  traced_errorOp env p _ (env.beginEdit dest r bubble st) k hfail hok

theorem traced_doEndEdit (env : Env M N V σ) (dest : Selection M N V)
    (r : NodeRequest M N V) (bubble : Bool) (st : σ) (k : Option Err → σ → Result M N V σ)
    (p : List (Event M N V))
    (hfail : ∀ e st1, k (some e) st1 = (.ret (some e), st1, []))
    (hok : ∀ st1 p2, Traced env p2 (k none st1)) :
    Traced env p (doEndEdit env dest r bubble st k) :=
  traced_errorOp env p _ (env.endEdit dest r bubble st) k hfail hok

theorem traced_doSetValueHnd (env : Env M N V σ) (sel : Selection M N V)
    (r : FieldRequest M N V) (hnd : V) (st : σ) (k : Option Err → σ → Result M N V σ)
    (p : List (Event M N V))
    (hfail : ∀ e st1, k (some e) st1 = (.ret (some e), st1, []))
    (hok : ∀ st1 p2, Traced env p2 (k none st1)) :
    Traced env p (doSetValueHnd env sel r hnd st k) :=
  traced_errorOp env p _ (env.SetValueHnd sel r hnd st) k hfail hok

theorem traced_doClearField (env : Env M N V σ) (sel : Selection M N V) (m : M) (st : σ)
    (k : Option Err → σ → Result M N V σ) (p : List (Event M N V))
    (hfail : ∀ e st1, k (some e) st1 = (.ret (some e), st1, []))
    (hok : ∀ st1 p2, Traced env p2 (k none st1)) :
    Traced env p (doClearField env sel m st k) :=
  traced_errorOp env p _ (env.ClearField sel m st) k hfail hok

theorem traced_doDelete (env : Env M N V σ) (sel : Selection M N V) (st : σ)
    (k : Option Err → σ → Result M N V σ) (p : List (Event M N V))
    (hfail : ∀ e st1, k (some e) st1 = (.ret (some e), st1, []))
    (hok : ∀ st1 p2, Traced env p2 (k none st1)) :
    Traced env p (doDelete env sel st k) :=
  traced_errorOp env p _ (env.Delete sel st) k hfail hok

theorem traced_doGetValueHnd (env : Env M N V σ) (sel : Selection M N V)
    (r : FieldRequest M N V) (useDefault : Bool) (st : σ)
    (k : Option Err → Option V → σ → Result M N V σ) (p : List (Event M N V))
    (hfail : ∀ e hnd st1, k (some e) hnd st1 = (.ret (some e), st1, []))
    (hok : ∀ hnd st1 p2, Traced env p2 (k none hnd st1)) :
    Traced env p (doGetValueHnd env sel r useDefault st k) := by
  unfold doGetValueHnd
  apply traced_after
  generalize env.GetValueHnd sel r useDefault st = res
  obtain ⟨⟨err, hnd⟩, st1⟩ := res
  cases err with
  | some e =>
    show Traced env _ (k (some e) hnd st1)
    rw [hfail]
    exact traced_lastErr env _ _ st1 (answered_snoc p _ (.value (some e) hnd))
  | none => exact hok _ _ _

theorem traced_doChoose (env : Env M N V σ) (sel : Selection M N V) (choice : M) (st : σ)
    (k : Option M → Option Err → σ → Result M N V σ) (p : List (Event M N V))
    (hfail : ∀ c e st1, k c (some e) st1 = (.ret (some e), st1, []))
    (hok : ∀ c st1 p2, Traced env p2 (k c none st1)) :
    Traced env p (doChoose env sel choice st k) := by
  unfold doChoose
  apply traced_after
  generalize env.Choose sel choice st = res
  obtain ⟨⟨c, err⟩, st1⟩ := res
  cases err with
  | some e =>
    show Traced env _ (k c (some e) st1)
    rw [hfail]
    exact traced_lastErr env _ _ st1 (answered_snoc p _ (.chosen c (some e)))
  | none => exact hok _ _ _

theorem traced_doFind (env : Env M N V σ) (sel : Selection M N V) (ident : String) (st : σ)
    (k : Selection M N V → σ → Result M N V σ) (p : List (Event M N V))
    (hk : ∀ c st1 p2, Traced env p2 (k c st1)) :
    Traced env p (doFind env sel ident st k) :=
  traced_after env p _ _ (hk _ _ _)

theorem traced_doSelect (env : Env M N V σ) (sel : Selection M N V) (r : ChildRequest M N V)
    (st : σ) (k : Selection M N V → σ → Result M N V σ) (p : List (Event M N V))
    (hk : ∀ c st1 p2, Answered p2 c.LastErr → Traced env p2 (k c st1)) :
    Traced env p (doSelect env sel r st k) :=
  traced_after env p _ _ (hk _ _ _ (answered_snoc p _ (.selection _)))

theorem traced_doSelectListItem (env : Env M N V σ) (sel : Selection M N V)
    (r : ListRequest M N V) (st : σ) (k : Selection M N V → List V → σ → Result M N V σ)
    (p : List (Event M N V))
    (hk : ∀ c key st1 p2, Answered p2 c.LastErr → Traced env p2 (k c key st1)) :
    Traced env p (doSelectListItem env sel r st k) :=
  traced_after env p _ _ (hk _ _ _ _ (answered_snoc p _ (.item _ _)))

theorem clearChoiceCaseLoop_traced [DecidableEq M] (env : Env M N V σ) (sel : Selection M N V)
    (ms : List M) :
    ∀ (st : σ) (p : List (Event M N V)), Traced env p (clearChoiceCaseLoop env sel ms st) := by
  induction ms with
  | nil => intro st p; exact traced_ok env p st
  | cons m ms ih =>
    intro st p
    unfold clearChoiceCaseLoop
    split
    · exact traced_doClearField env sel m st _ p (fun _ _ => rfl) ih
    · apply traced_doFind env sel _ st _ p
      intro c st1 p2
      beta_reduce
      split
      · exact traced_doDelete env c st1 _ p2 (fun _ _ => rfl) ih
      · exact ih st1 p2

theorem leaf_traced [DecidableEq M] (env : Env M N V σ) (self : editor M V)
    (frm dest : Selection M N V) (m : M) (new : Bool) (strategy : editStrategy) (st : σ)
    (p : List (Event M N V)) :
    Traced env p (leaf env self frm dest m new strategy st) := by
  unfold leaf
  apply traced_after
  dsimp only
  apply traced_doGetValueHnd env frm _ _ st _ _ (fun _ _ _ => rfl)
  intro hnd st1 p2
  cases hnd with
  | none => exact traced_ok env p2 st1
  | some val =>
    dsimp only
    apply traced_andThen
    · split
      · unfold clearOnDifferentChoiceCase
        split
        · exact traced_ok env p2 st1
        · apply traced_doChoose env dest _ st1 _ p2 (fun _ _ _ => rfl)
          intro c st2 p3
          beta_reduce
          cases c with
          | none => exact traced_ok env p3 st2
          | some c =>
            dsimp only
            split
            · exact traced_ok env p3 st2
            · exact clearChoiceCaseLoop_traced env dest _ st2 p3
      · exact traced_ok env p2 st1
    · intro st2 p3
      exact traced_doSetValueHnd env dest _ val _ _ _ (fun _ _ => rfl)
        (fun st3 p4 => traced_ok env p4 st3)

theorem nodeDescend_traced
    (enterRec : Selection M N V → Selection M N V → Bool → editStrategy → Bool → Bool →
      σ → Result M N V σ)
    (env : Env M N V σ)
    (hrec : ∀ a b c e f st p, Traced env p (enterRec a b c editUpsert e f st))
    (m : M) (toPath : Path M V) (fromChild toChild : Selection M N V) (newChild : Bool)
    (st : σ) (p : List (Event M N V)) :
    Traced env p
      (nodeDescend enterRec env m toPath editUpsert fromChild toChild newChild st) := by
  unfold nodeDescend
  split
  · exact traced_create env p _ st (Or.inl ⟨m, toPath, rfl⟩)
  · exact hrec _ _ _ _ _ _ p

theorem node_traced
    (enterRec : Selection M N V → Selection M N V → Bool → editStrategy → Bool → Bool →
      σ → Result M N V σ)
    (env : Env M N V σ)
    (hrec : ∀ a b c e f st p, Traced env p (enterRec a b c editUpsert e f st))
    (self : editor M V) (frm dest : Selection M N V) (m : M) (new : Bool) (st : σ)
    (p : List (Event M N V)) :
    Traced env p (node enterRec env self frm dest m new editUpsert st) := by
  unfold node
  apply traced_after
  dsimp only
  apply traced_doSelect env frm _ st _ _
  intro fromChild st1 p2 h2
  beta_reduce
  split
  · exact traced_lastErr env p2 _ st1 h2
  · apply traced_doSelect env dest _ st1 _ p2
    intro toChild st2 p3 h3
    beta_reduce
    split
    · exact traced_lastErr env p3 _ st2 h3
    · split
      · rename_i h
        exact absurd h (by decide)
      · split
        · split
          · apply traced_doSelect env dest _ st2 _ p3
            intro toChild1 st3 p4 h4
            beta_reduce
            split
            · exact traced_lastErr env p4 _ st3 h4
            · exact nodeDescend_traced enterRec env hrec m _ _ _ _ st3 p4
          · exact nodeDescend_traced enterRec env hrec m _ _ _ _ st2 p3
        · rename_i h
          exact absurd rfl h

theorem listAdvance_traced
    (loop : Selection M N V → List V → ListRequest M N V → ListRequest M N V →
      σ → Result M N V σ)
    (env : Env M N V σ)
    (hloop : ∀ a b c d st p, Traced env p (loop a b c d st))
    (frm dest : Selection M N V) (fromChild : Selection M N V)
    (key : List V) (fromRequest toRequest : ListRequest M N V) (r : Result M N V σ)
    (p : List (Event M N V)) (hr : Traced env p r) :
    Traced env p (listAdvance loop env frm dest fromChild key fromRequest toRequest r) := by
  unfold listAdvance
  apply traced_andThen env p r _ hr
  intro st4 p2
  apply traced_doSelectListItem env frm _ _ _ _
  intro c key1 st5 p3 h3
  beta_reduce
  split
  · exact traced_lastErr env p3 _ st5 h3
  · exact hloop _ _ _ _ _ p3

theorem listDescend_traced
    (enterRec : Selection M N V → Selection M N V → Bool → editStrategy → Bool → Bool →
      σ → Result M N V σ)
    (loop : Selection M N V → List V → ListRequest M N V → ListRequest M N V →
      σ → Result M N V σ)
    (env : Env M N V σ)
    (hrec : ∀ a b c e f st p, Traced env p (enterRec a b c editUpsert e f st))
    (hloop : ∀ a b c d st p, Traced env p (loop a b c d st))
    (frm dest : Selection M N V) (fromChild : Selection M N V)
    (key : List V) (fromRequest toRequest : ListRequest M N V)
    (toChild : Selection M N V) (newItem : Bool) (st : σ)
    (p : List (Event M N V)) (hp : Answered p toChild.LastErr) :
    Traced env p (listDescend enterRec loop env frm dest fromChild key fromRequest toRequest
      toChild newItem st) := by
  unfold listDescend
  split
  · exact traced_lastErr env p _ st hp
  · split
    · exact traced_create env p _ st (Or.inr ⟨dest, rfl⟩)
    · exact listAdvance_traced loop env hloop frm dest fromChild key fromRequest toRequest _ p
        (hrec _ _ _ _ _ _ p)

theorem listItem_traced
    (enterRec : Selection M N V → Selection M N V → Bool → editStrategy → Bool → Bool →
      σ → Result M N V σ)
    (loop : Selection M N V → List V → ListRequest M N V → ListRequest M N V →
      σ → Result M N V σ)
    (env : Env M N V σ)
    (hrec : ∀ a b c e f st p, Traced env p (enterRec a b c editUpsert e f st))
    (hloop : ∀ a b c d st p, Traced env p (loop a b c d st))
    (frm dest : Selection M N V) (fromChild : Selection M N V) (key : List V)
    (fromRequest toRequest : ListRequest M N V) (st : σ) (p : List (Event M N V)) :
    Traced env p (listItem enterRec loop env frm dest editUpsert fromChild key fromRequest
      toRequest st) := by
  have hswitch : ∀ fr tr toChild st1 p2, Answered p2 toChild.LastErr →
      Traced env p2 (listSwitch enterRec loop env frm dest editUpsert fromChild key fr tr
        toChild st1) := by
    intro fr tr toChild st1 p2 h2
    unfold listSwitch
    split
    · rename_i h
      exact absurd h (by decide)
    · split
      · split
        · apply traced_doSelectListItem env dest _ st1 _ p2
          intro c _ st2 p3 h3
          exact listDescend_traced enterRec loop env hrec hloop frm dest fromChild key fr tr c
            true st2 p3 h3
        · exact listDescend_traced enterRec loop env hrec hloop frm dest fromChild key fr tr
            toChild false st1 p2 h2
      · rename_i h
        exact absurd rfl h
  unfold listItem
  dsimp only
  split
  · apply traced_doSelectListItem env dest _ st _ p
    intro c _ st1 p2 h2
    beta_reduce
    split
    · exact traced_lastErr env p2 _ st1 h2
    · exact hswitch _ _ c st1 p2 h2
  · exact hswitch _ _ Selection.empty st p (Or.inl rfl)

theorem listLoop_traced
    (enterRec : Selection M N V → Selection M N V → Bool → editStrategy → Bool → Bool →
      σ → Result M N V σ)
    (env : Env M N V σ)
    (hrec : ∀ a b c e f st p, Traced env p (enterRec a b c editUpsert e f st))
    (frm dest : Selection M N V) (fuel : Nat) :
    ∀ fromChild key fromRequest toRequest st (p : List (Event M N V)),
      Traced env p (listLoop enterRec env frm dest editUpsert fuel fromChild key fromRequest
        toRequest st) := by
  induction fuel with
  | zero =>
    intro fromChild key fromRequest toRequest st p
    unfold listLoop
    split
    · exact traced_ok env p st
    · exact traced_quiet env p _ st (by simp)
  | succ n ih =>
    intro fromChild key fromRequest toRequest st p
    unfold listLoop
    split
    · exact traced_ok env p st
    · exact listItem_traced enterRec _ env hrec ih frm dest _ _ _ _ _ p

theorem list_traced
    (enterRec : Selection M N V → Selection M N V → Bool → editStrategy → Bool → Bool →
      σ → Result M N V σ)
    (env : Env M N V σ)
    (hrec : ∀ a b c e f st p, Traced env p (enterRec a b c editUpsert e f st))
    (fuel : Nat) (self : editor M V) (frm dest : Selection M N V) (m : M)
    (new : Bool) (st : σ) (p : List (Event M N V)) :
    Traced env p (list enterRec fuel env self frm dest m new editUpsert st) := by
  unfold list
  apply traced_after
  split
  · exact traced_quiet env _ _ st (by simp)
  · dsimp only
    apply traced_doSelectListItem env frm _ st _ _
    intro c key st1 p2 h2
    beta_reduce
    split
    · exact traced_lastErr env p2 _ st1 h2
    · split
      · exact traced_ok env p2 st1
      · exact listLoop_traced enterRec env hrec frm dest fuel _ _ _ _ _ p2

theorem enterChildren_traced [DecidableEq M]
    (enterRec : Selection M N V → Selection M N V → Bool → editStrategy → Bool → Bool →
      σ → Result M N V σ)
    (env : Env M N V σ)
    (hrec : ∀ a b c e f st p, Traced env p (enterRec a b c editUpsert e f st))
    (self : editor M V) (frm dest : Selection M N V) (new : Bool) (ms : List M) :
    ∀ (st : σ) (p : List (Event M N V)),
      Traced env p (enterChildren enterRec env self frm dest new editUpsert ms st) := by
  induction ms with
  | nil => intro st p; exact traced_ok env p st
  | cons m ms ih =>
    intro st p
    unfold enterChildren
    apply traced_andThen env p _ _ _ ih
    split
    · exact leaf_traced env self frm dest m new editUpsert st p
    · exact node_traced enterRec env hrec self frm dest m new st p

/-- An error that a run of `enter` under Upsert returns is the failure of a
logged operation or a "could not create" error. -/
theorem enter_traced [DecidableEq M] (env : Env M N V σ) (self : editor M V) (fuel : Nat) :
    ∀ frm dest new root bubble st (p : List (Event M N V)),
      Traced env p (enter env self fuel frm dest new editUpsert root bubble st) := by
  induction fuel with
  | zero =>
    intro frm dest new root bubble st p
    exact traced_quiet env p _ st (by simp)
  | succ n ih =>
    intro frm dest new root bubble st p
    show Traced env p (enterBody (enter env self n) n env self frm dest new editUpsert root
      bubble st)
    unfold enterBody
    apply traced_after
    apply traced_doBeginEdit env dest _ bubble st _ _ (fun _ _ => rfl)
    intro st1 p2
    dsimp only
    apply traced_andThen
    · unfold enterSteps
      split
      · exact list_traced (enter env self n) env ih n self frm dest _ new st1 p2
      · exact enterChildren_traced (enter env self n) env ih self frm dest new _ st1 p2
    · intro st2 p3
      exact traced_doEndEdit env dest _ bubble _ _ _ (fun _ _ => rfl)
        (fun st3 p4 => traced_ok env p4 st3)

/-- C13: in every edit with strategy Upsert each invocation of `enter`,
`leaf`, `node` and `list` carries Upsert, and an error that the edit returns
is the failure some logged operation answered with, or one of the two "could
not create" errors.  In particular an error with a status code, such as 409
or 404, is returned only when an operation answered with it: the editor makes
none itself. -/
theorem upsert_never_conflicts [DecidableEq M] (env : Env M N V σ) (self : editor M V)
    (fuel : Nat) (frm dest : Selection M N V) (st : σ) :
    (∀ e ∈ (edit env self fuel frm dest editUpsert st).2.2,
      e.strategy = none ∨ e.strategy = some editUpsert) ∧
    (∀ e, (edit env self fuel frm dest editUpsert st).1 = .ret (some e) →
      (∃ o resp, Event.op o resp ∈ (edit env self fuel frm dest editUpsert st).2.2 ∧
        resp.failure = some e) ∨
      Err.couldNotCreate env e) ∧
    (∀ msg code, (edit env self fuel frm dest editUpsert st).1
        = .ret (some (.NewErrC msg code)) →
      ∃ o resp, Event.op o resp ∈ (edit env self fuel frm dest editUpsert st).2.2 ∧
        resp.failure = some (.NewErrC msg code)) := by
  have h2 : ∀ e, (edit env self fuel frm dest editUpsert st).1 = .ret (some e) →
      (∃ o resp, Event.op o resp ∈ (edit env self fuel frm dest editUpsert st).2.2 ∧
        resp.failure = some e) ∨
      Err.couldNotCreate env e := by
    intro e he
    have h := enter_traced env self fuel frm dest false true true st [] e he
    simpa using h
  refine ⟨?_, h2, ?_⟩
  · intro e he
    have h := enter_strategy_log env self editUpsert fuel frm dest false editUpsert true true st
      (Or.inl rfl) e he
    rcases h with h | h | h
    · exact Or.inl h
    · exact Or.inr h
    · exact Or.inr h
  · intro msg code he
    rcases h2 _ he with h | h
    · exact h
    · rcases h with ⟨m, p, h⟩ | ⟨d, h⟩ <;> simp at h

end UpsertErrors
section UnknownStrategy

variable {M N V σ : Type}

/-- C17 as stated fails: with a strategy value that is none of the three, the
edit of a container that holds leaves only succeeds, and writes them. -/
theorem unknown_strategy_on_leaves_succeeds :
    (7 : editStrategy) ≠ editUpsert ∧ (7 : editStrategy) ≠ editInsert ∧
    (7 : editStrategy) ≠ editUpdate ∧
    (edit (memEnv appSchema) plainEditor 3 srcRoot dstRoot 7 appStore).1 = .ret none ∧
    (edit (memEnv appSchema) plainEditor 3 srcRoot dstRoot 7 appStore).2.1.get
      [.field "dst", .field "port"] = some (.leaf (.int 8090)) := by
  decide

/-- C17 as amended: for a strategy value other than Upsert, Insert and
Update, `node` returns the 501 error for a source child that is there, once
the lookup in the destination has succeeded, and the loop body of `list`
returns the 501 error for a source item, once the lookup by key has succeeded
(and at once when the key is empty); both without any creating operation and
without reaching `enter`. -/
theorem unknown_strategy_fails_at_switch
    (enterRec : Selection M N V → Selection M N V → Bool → editStrategy → Bool → Bool →
      σ → Result M N V σ)
    (loop : Selection M N V → List V → ListRequest M N V → ListRequest M N V →
      σ → Result M N V σ)
    (env : Env M N V σ) (self : editor M V) (frm dest : Selection M N V) (m : M)
    (new : Bool) (strategy : editStrategy) (st : σ)
    (fromChild : Selection M N V) (key : List V) (fromRequest toRequest : ListRequest M N V)
    (h1 : strategy ≠ editUpsert) (h2 : strategy ≠ editInsert) (h3 : strategy ≠ editUpdate) :
    ((nodeSource env self frm m st).1.LastErr = none →
      (nodeSource env self frm m st).1.IsNil = false →
      (nodeProbe env self frm dest m st).1.LastErr = none →
      node enterRec env self frm dest m new strategy st
        = (.ret (some (.NewErrC "Stratgey not implemented" 501)),
           (nodeProbe env self frm dest m st).2,
           nodeProbeLog env self frm dest m new strategy st)) ∧
    (key.length > 0 →
      (listProbe env dest fromChild key fromRequest toRequest st).1.1.LastErr = none →
      listItem enterRec loop env frm dest strategy fromChild key fromRequest toRequest st
        = (.ret (some (.NewErrC "Stratgey not implmented" 501)),
           (listProbe env dest fromChild key fromRequest toRequest st).2,
           [listProbeEvent env dest fromChild key fromRequest toRequest st])) ∧
    (key.length = 0 →
      listItem enterRec loop env frm dest strategy fromChild key fromRequest toRequest st
        = (.ret (some (.NewErrC "Stratgey not implmented" 501)), st, [])) := by
  simp only [nodeProbeLog, nodeProbe, nodeSource, nodeFromRequest, nodeToRequest,
    listProbeEvent, listProbe, listProbeRequest] at *
  refine ⟨?_, ?_, ?_⟩
  · intro g1 g2 g3
    simp_all [node, doSelect, after, nodeDescend]
  · intro hk g3
    simp_all [listItem, listSwitch, listDescend, doSelectListItem, after, listToRequest,
      ListRequest.SetRow]
  · intro hk
    have hk0 : ¬ (key.length > 0) := by omega
    simp_all [listItem, listSwitch, Selection.empty, Selection.IsNil]

/-- Witness of C17: the strategy value 7, and a source child `web` that the
destination holds. -/
theorem unknown_strategy_fails_at_switch_witness :
    ((7 : editStrategy) ≠ editUpsert ∧ (7 : editStrategy) ≠ editInsert ∧
      (7 : editStrategy) ≠ editUpdate) ∧
    (node (enter (memEnv webSchema) plainEditor 2) (memEnv webSchema) plainEditor srcRoot
        dstRoot webMeta false 7 webStore).1
      = .ret (some (.NewErrC "Stratgey not implemented" 501)) :=
  ⟨by decide,
   congrArg Prod.fst ((unknown_strategy_fails_at_switch (enter (memEnv webSchema) plainEditor 2)
      (listLoop (enter (memEnv webSchema) plainEditor 2) (memEnv webSchema) srcRoot dstRoot 7 2)
      (memEnv webSchema) plainEditor srcRoot dstRoot webMeta false 7 webStore
      srcItemA [] itemFromRequest itemToRequest (by decide) (by decide) (by decide)).1
      (by decide) (by decide) (by decide))⟩

end UnknownStrategy

section EmptyKeyItems

variable {M N V σ : Type}

/-- C20: for a source item whose key is empty the loop body of `list` issues
no lookup in the destination.  Under Update it returns the 404 error with an
empty log and the store untouched.  Under Insert and under Upsert its first
entry is the creating `SelectListItem`, whatever the destination holds; it
returns the error of that operation, or the "could not create" error when the
item is still nil, and otherwise goes on with `enter` on the new item with
`new = true` (and Upsert): the 409 error is not among its answers. -/
theorem empty_key_item_skips_lookup
    (enterRec : Selection M N V → Selection M N V → Bool → editStrategy → Bool → Bool →
      σ → Result M N V σ)
    (loop : Selection M N V → List V → ListRequest M N V → ListRequest M N V →
      σ → Result M N V σ)
    (env : Env M N V σ) (frm dest : Selection M N V)
    (fromChild : Selection M N V) (fromRequest toRequest : ListRequest M N V) (st : σ) :
    listItem enterRec loop env frm dest editUpdate fromChild [] fromRequest toRequest st
      = (.ret (some (.NewErrC (listNotFoundMsg env [] dest) 404)), st, []) ∧
    (∀ strategy, strategy = editInsert ∨ strategy = editUpsert →
      (listCreateRequest dest fromChild [] fromRequest toRequest).New = true ∧
      (∀ e, (listCreateFirst env dest fromChild [] fromRequest toRequest st).1.1.LastErr
          = some e →
        listItem enterRec loop env frm dest strategy fromChild [] fromRequest toRequest st
          = (.ret (some e), (listCreateFirst env dest fromChild [] fromRequest toRequest st).2,
             [listCreateFirstEvent env dest fromChild [] fromRequest toRequest st])) ∧
      ((listCreateFirst env dest fromChild [] fromRequest toRequest st).1.1.LastErr = none →
        (listCreateFirst env dest fromChild [] fromRequest toRequest st).1.1.IsNil = true →
        listItem enterRec loop env frm dest strategy fromChild [] fromRequest toRequest st
          = (.ret (some (.NewErr (listCreateMsg env dest))),
             (listCreateFirst env dest fromChild [] fromRequest toRequest st).2,
             [listCreateFirstEvent env dest fromChild [] fromRequest toRequest st])) ∧
      ((listCreateFirst env dest fromChild [] fromRequest toRequest st).1.1.LastErr = none →
        (listCreateFirst env dest fromChild [] fromRequest toRequest st).1.1.IsNil = false →
        listItem enterRec loop env frm dest strategy fromChild [] fromRequest toRequest st
          = after [listCreateFirstEvent env dest fromChild [] fromRequest toRequest st]
              (listAdvance loop env frm dest fromChild [] (listKeyedRequest [] fromRequest)
                (listCreateRequest dest fromChild [] fromRequest toRequest)
                (enterRec fromChild
                  (listCreateFirst env dest fromChild [] fromRequest toRequest st).1.1
                  true editUpsert false false
                  (listCreateFirst env dest fromChild [] fromRequest toRequest st).2)))) := by
  have e1 := editUpsert_ne_editInsert
  have e2 := editUpdate_ne_editInsert
  have e3 := editUpdate_ne_editUpsert
  have e5 : (editInsert = editUpdate) = False := by decide
  have e6 : (editInsert = editUpsert) = False := by decide
  have e7 : (editUpsert = editUpdate) = False := by decide
  have hempty : (Selection.empty : Selection M N V).IsNil = true := rfl
  simp only [listCreateFirstEvent, listCreateFirst, listCreateRequest, listKeyedRequest] at *
  refine ⟨?_, ?_⟩
  · simp [listItem, listSwitch, Selection.empty, Selection.IsNil]
  · intro strategy hs
    refine ⟨trivial, ?_, ?_, ?_⟩
    · intro e he
      rcases hs with hs | hs <;> subst hs <;>
        simp_all [listItem, listSwitch, listDescend, doSelectListItem, after]
    · intro h1 h2
      rcases hs with hs | hs <;> subst hs <;>
        simp_all [listItem, listSwitch, listDescend, doSelectListItem, after]
    · intro h1 h2
      rcases hs with hs | hs <;> subst hs <;>
        simp_all [listItem, listSwitch, listDescend, doSelectListItem, after]

end EmptyKeyItems
section RowProofs

variable {M N V σ : Type}

theorem wrap64_succ (i : Nat) (h : i + 1 < 2 ^ 63) : wrap64 ((i : Int) + 1) = (i : Int) + 1 := by
  unfold wrap64
  have h1 : ((i : Int) + 1) < 2 ^ 63 := by exact_mod_cast h
  have h0 : (0 : Int) ≤ (i : Int) := Int.ofNat_nonneg i
  omega

theorem listProbeRequest_eq (self : editor M V) (dest : Selection M N V) (m : M)
    (parent : Path M V) (meta : M) (i : Nat) (item : Selection M N V) (key : List V)
    (fromRequest toRequest : ListRequest M N V)
    (h : RowState self m parent meta i fromRequest toRequest) :
    listProbeRequest dest item key fromRequest toRequest
      = destRequestAt self dest m parent meta i item key false := by
  obtain ⟨h1, _, _, _, _, h6, h7, k, h8⟩ := h
  simp [listProbeRequest, listToRequest, ListRequest.SetRow, destRequestAt, h1, h6, h7, h8,
    Path.setKey]

theorem listCreateRequest_eq (self : editor M V) (dest : Selection M N V) (m : M)
    (parent : Path M V) (meta : M) (i : Nat) (item : Selection M N V) (key : List V)
    (fromRequest toRequest : ListRequest M N V)
    (h : RowState self m parent meta i fromRequest toRequest) :
    listCreateRequest dest item key fromRequest toRequest
      = destRequestAt self dest m parent meta i item key true := by
  obtain ⟨h1, _, _, _, _, h6, h7, k, h8⟩ := h
  simp [listCreateRequest, listToRequest, ListRequest.SetRow, destRequestAt, h1, h6, h7, h8,
    Path.setKey]

theorem listNextRequest_eq (self : editor M V) (dest : Selection M N V) (m : M)
    (parent : Path M V) (meta : M) (i : Nat) (item : Selection M N V) (key : List V)
    (fromRequest toRequest : ListRequest M N V)
    (h : RowState self m parent meta i fromRequest toRequest) (hi : i + 1 < 2 ^ 63) :
    listNextRequest dest item key (listKeyedRequest key fromRequest)
      = nextSourceRequest self dest m parent meta (i + 1) item key := by
  obtain ⟨h1, h2, h3, h4, ⟨k, h5⟩, _, _, _⟩ := h
  simp [listNextRequest, listKeyedRequest, ListRequest.IncrementRow, nextSourceRequest, h1, h2,
    h3, h4, h5, Path.setKey, wrap64_succ i hi]

theorem rowState_next (self : editor M V) (dest : Selection M N V) (m : M)
    (parent : Path M V) (meta : M) (i : Nat) (item : Selection M N V) (key : List V) :
    RowState self m parent meta (i + 1)
      (nextSourceRequest self dest m parent meta (i + 1) item key)
      (destRequestAt self dest m parent meta i item key true) := by
  refine ⟨?_, rfl, rfl, rfl, ⟨key, rfl⟩, rfl, rfl, ⟨key, rfl⟩⟩
  simp [nextSourceRequest]

/-- The loop body of `list` for an item whose destination item is resolved:
the log of the resolution, then `enter` on the pair with Upsert and the foot
of the loop. -/
theorem listItem_resolved
    (enterRec : Selection M N V → Selection M N V → Bool → editStrategy → Bool → Bool →
      σ → Result M N V σ)
    (loop : Selection M N V → List V → ListRequest M N V → ListRequest M N V →
      σ → Result M N V σ)
    (env : Env M N V σ) (frm dest : Selection M N V) (strategy : editStrategy)
    (item : Selection M N V) (key : List V) (fromRequest toRequest : ListRequest M N V)
    (st : σ) (toChild : Selection M N V) (newItem : Bool) (st1 : σ)
    (dlog : List (Event M N V))
    (h : ItemResolved env dest strategy (listProbeRequest dest item key fromRequest toRequest)
      (listCreateRequest dest item key fromRequest toRequest) key st toChild newItem st1 dlog) :
    listItem enterRec loop env frm dest strategy item key fromRequest toRequest st
      = after dlog
          (listAdvance loop env frm dest item key (listKeyedRequest key fromRequest)
            (listCreateRequest dest item key fromRequest toRequest)
            (enterRec item toChild newItem editUpsert false false st1)) := by
  have e1 := editUpsert_ne_editInsert
  have e2 := editUpdate_ne_editInsert
  have e3 := editUpdate_ne_editUpsert
  have e5 : (editInsert = editUpdate) = False := by decide
  have e6 : (editInsert = editUpsert) = False := by decide
  have e7 : (editUpsert = editUpdate) = False := by decide
  have hempty : (Selection.empty : Selection M N V).IsNil = true := rfl
  cases h with
  | found hk h1 h2 hs =>
    simp only [listProbeRequest, listCreateRequest, listKeyedRequest] at *
    rcases hs with hs | hs <;> subst hs <;>
      simp_all [listItem, listSwitch, listDescend, doSelectListItem, after]
  | created hk h1 h2 hs h3 h4 =>
    simp only [listProbeRequest, listCreateRequest, listKeyedRequest] at *
    rcases hs with hs | hs <;> subst hs <;>
      simp_all [listItem, listSwitch, listDescend, doSelectListItem, after]
  | createdUnkeyed hk hs h3 h4 =>
    simp only [listProbeRequest, listCreateRequest, listKeyedRequest] at *
    have hk0 : ¬ (key.length > 0) := by omega
    rcases hs with hs | hs <;> subst hs <;>
      simp_all [listItem, listSwitch, listDescend, doSelectListItem, after]

/-- The foot of the loop of `list` after a successful `enter`: the next
source request, and the next iteration. -/
theorem listAdvance_ok
    (loop : Selection M N V → List V → ListRequest M N V → ListRequest M N V →
      σ → Result M N V σ)
    (env : Env M N V σ) (frm dest : Selection M N V) (item : Selection M N V)
    (key : List V) (fromRequest toRequest : ListRequest M N V) (r : Result M N V σ)
    (hr : r.1 = .ret none)
    (hnext : (env.SelectListItem frm (listNextRequest dest item key fromRequest)
      r.2.1).1.1.LastErr = none) :
    listAdvance loop env frm dest item key fromRequest toRequest r
      = after (r.2.2 ++
          [.op (.SelectListItem frm (listNextRequest dest item key fromRequest))
            (.item
              (env.SelectListItem frm (listNextRequest dest item key fromRequest) r.2.1).1.1
              (env.SelectListItem frm (listNextRequest dest item key fromRequest) r.2.1).1.2)])
          (loop
            (env.SelectListItem frm (listNextRequest dest item key fromRequest) r.2.1).1.1
            (env.SelectListItem frm (listNextRequest dest item key fromRequest) r.2.1).1.2
            (listNextRequest dest item key fromRequest) toRequest
            (env.SelectListItem frm (listNextRequest dest item key fromRequest) r.2.1).2) := by
  obtain ⟨o, st2, t⟩ := r
  simp only at hr hnext
  subst hr
  simp [listAdvance, andThen, doSelectListItem, after, hnext]

/-- The loop of `list` follows a run of the row protocol. -/
theorem listLoop_follows
    (enterRec : Selection M N V → Selection M N V → Bool → editStrategy → Bool → Bool →
      σ → Result M N V σ)
    (env : Env M N V σ) (self : editor M V) (frm dest : Selection M N V) (m : M)
    (strategy : editStrategy) (parent : Path M V) (meta : M)
    (i : Nat) (item : Selection M N V) (key : List V) (st : σ) (n : Nat) (st4 : σ)
    (rest : List (Event M N V))
    (hrun : RowProtocol enterRec env self frm dest m strategy parent meta i item key st n st4
      rest) :
    ∀ (fuel : Nat) (fromRequest toRequest : ListRequest M N V),
      n ≤ fuel → i + n < 2 ^ 63 → RowState self m parent meta i fromRequest toRequest →
      listLoop enterRec env frm dest strategy fuel item key fromRequest toRequest st
        = (.ret none, st4, rest) := by
  induction hrun with
  | stop i item key st hnil =>
    intro fuel fromRequest toRequest _ _ _
    cases fuel <;> simp [listLoop, hnil]
  | step i item key st toChild newItem st1 dlog n st4 rest hnil hres henter hnext _ ih =>
    intro fuel fromRequest toRequest hfuel hrows hstate
    cases fuel with
    | zero => omega
    | succ f =>
      have hi : i + 1 < 2 ^ 63 := by omega
      rw [← listProbeRequest_eq self dest m parent meta i item key fromRequest toRequest hstate,
        ← listCreateRequest_eq self dest m parent meta i item key fromRequest toRequest hstate]
        at hres
      rw [← listNextRequest_eq self dest m parent meta i item key fromRequest toRequest hstate hi]
        at hnext
      have hloop := ih f (nextSourceRequest self dest m parent meta (i + 1) item key)
        (destRequestAt self dest m parent meta i item key true) (by omega) (by omega)
        (rowState_next self dest m parent meta i item key)
      rw [← listNextRequest_eq self dest m parent meta i item key fromRequest toRequest hstate hi,
        ← listCreateRequest_eq self dest m parent meta i item key fromRequest toRequest hstate]
        at hloop
      show (if item.IsNil then _ else listItem enterRec (listLoop enterRec env frm dest strategy
        f) env frm dest strategy item key fromRequest toRequest st) = _
      rw [hnil, listItem_resolved enterRec _ env frm dest strategy item key fromRequest toRequest
        st toChild newItem st1 dlog hres,
        listAdvance_ok _ env frm dest item key _ _ _ henter hnext, hloop,
        ← listNextRequest_eq self dest m parent meta i item key fromRequest toRequest hstate hi]
      simp [after]

end RowProofs
section RowTheorem

variable {M N V σ : Type}

theorem rowProtocol_zero
    (enterRec : Selection M N V → Selection M N V → Bool → editStrategy → Bool → Bool →
      σ → Result M N V σ)
    (env : Env M N V σ) (self : editor M V) (frm dest : Selection M N V) (m : M)
    (strategy : editStrategy) (parent : Path M V) (meta : M)
    (i : Nat) (item : Selection M N V) (key : List V) (st : σ) (n : Nat) (st4 : σ)
    (rest : List (Event M N V))
    (hrun : RowProtocol enterRec env self frm dest m strategy parent meta i item key st n st4
      rest) (hn : n = 0) : rest = [] ∧ st4 = st := by
  cases hrun with
  | stop => exact ⟨rfl, rfl⟩
  | step => omega

/-- C18: the row protocol of `list`.  Let the source answer the first request
(`First = true`, row 0) without error, and let the row protocol run from
there for `n` items: each item's destination item is resolved with requests
of the item's row number, `enter` succeeds on each pair, and the source
answers the request of the next row (`First = false`, the previous key in
the path) without error, the last time with a nil selection.  With fuel for
`n` iterations, and `n` a row number an `int64` holds, `list` returns success
with exactly the log and the store of that run: `n + 1` source requests with
the rows `0, ..., n`, one call of `enter` per item, in the order of the
source.  For `n = 0` the log holds the invocation and the first source
request only. -/
theorem list_follows_row_protocol
    (enterRec : Selection M N V → Selection M N V → Bool → editStrategy → Bool → Bool →
      σ → Result M N V σ)
    (fuel : Nat) (env : Env M N V σ) (self : editor M V) (frm dest : Selection M N V) (m : M)
    (new : Bool) (strategy : editStrategy) (st : σ) (parent : Path M V) (meta : M)
    (pkey : List V) (n : Nat) (st4 : σ) (rest : List (Event M N V))
    (hpath : frm.Path = .mk parent meta pkey)
    (hfirst : (env.SelectListItem frm (firstSourceRequest self frm m parent meta pkey)
      st).1.1.LastErr = none)
    (hrun : RowProtocol enterRec env self frm dest m strategy parent meta 0
      (env.SelectListItem frm (firstSourceRequest self frm m parent meta pkey) st).1.1
      (env.SelectListItem frm (firstSourceRequest self frm m parent meta pkey) st).1.2
      (env.SelectListItem frm (firstSourceRequest self frm m parent meta pkey) st).2
      n st4 rest)
    (hfuel : n ≤ fuel) (hrows : n < 2 ^ 63) :
    list enterRec fuel env self frm dest m new strategy st
      = (.ret none, st4,
         .list frm dest m new strategy ::
         .op (.SelectListItem frm (firstSourceRequest self frm m parent meta pkey))
           (.item
             (env.SelectListItem frm (firstSourceRequest self frm m parent meta pkey) st).1.1
             (env.SelectListItem frm (firstSourceRequest self frm m parent meta pkey) st).1.2)
           :: rest) ∧
    (n = 0 → rest = []) := by
  refine ⟨?_, fun hn => (rowProtocol_zero enterRec env self frm dest m strategy parent meta _ _
    _ _ _ _ _ hrun hn).1⟩
  have hloop := listLoop_follows enterRec env self frm dest m strategy parent meta _ _ _ _ _ _
    _ hrun fuel
    { Selection := frm,
      Path := .mk parent meta
        (env.SelectListItem frm (firstSourceRequest self frm m parent meta pkey) st).1.2,
      Base := self.basePath, From := Selection.empty, New := false, First := true, Row64 := 0,
      Key := [], Meta := m }
    { Selection := dest,
      Path := .mk parent meta
        (env.SelectListItem frm (firstSourceRequest self frm m parent meta pkey) st).1.2,
      Base := self.basePath, From := Selection.empty, New := false, First := true, Row64 := 0,
      Key := [], Meta := m }
    hfuel (by omega) ⟨by simp, rfl, rfl, rfl, ⟨_, rfl⟩, rfl, rfl, ⟨_, rfl⟩⟩
  rw [list_of_path enterRec fuel env self frm dest m new strategy st parent meta pkey hpath]
  simp only [firstSourceRequest] at hfirst hloop ⊢
  unfold doSelectListItem
  simp only [hfirst, ne_eq, not_true_eq_false, if_false]
  by_cases hnil : (env.SelectListItem frm
      { Selection := frm, Path := .mk parent meta pkey, Base := self.basePath,
        From := Selection.empty, New := false, First := true, Row64 := 0, Key := [],
        Meta := m } st).1.1.IsNil = true
  · have h0 : listLoop enterRec env frm dest strategy fuel
        (env.SelectListItem frm
          { Selection := frm, Path := .mk parent meta pkey, Base := self.basePath,
            From := Selection.empty, New := false, First := true, Row64 := 0, Key := [],
            Meta := m } st).1.1
        (env.SelectListItem frm
          { Selection := frm, Path := .mk parent meta pkey, Base := self.basePath,
            From := Selection.empty, New := false, First := true, Row64 := 0, Key := [],
            Meta := m } st).1.2
        { Selection := frm,
          Path := .mk parent meta
            (env.SelectListItem frm
              { Selection := frm, Path := .mk parent meta pkey, Base := self.basePath,
                From := Selection.empty, New := false, First := true, Row64 := 0, Key := [],
                Meta := m } st).1.2,
          Base := self.basePath, From := Selection.empty, New := false, First := true,
          Row64 := 0, Key := [], Meta := m }
        { Selection := dest,
          Path := .mk parent meta
            (env.SelectListItem frm
              { Selection := frm, Path := .mk parent meta pkey, Base := self.basePath,
                From := Selection.empty, New := false, First := true, Row64 := 0, Key := [],
                Meta := m } st).1.2,
          Base := self.basePath, From := Selection.empty, New := false, First := true,
          Row64 := 0, Key := [], Meta := m }
        (env.SelectListItem frm
          { Selection := frm, Path := .mk parent meta pkey, Base := self.basePath,
            From := Selection.empty, New := false, First := true, Row64 := 0, Key := [],
            Meta := m } st).2
        = (.ret none, (env.SelectListItem frm
          { Selection := frm, Path := .mk parent meta pkey, Base := self.basePath,
            From := Selection.empty, New := false, First := true, Row64 := 0, Key := [],
            Meta := m } st).2, []) := by
      cases fuel <;> simp [listLoop, hnil]
    rw [h0] at hloop
    simp only [hnil, if_true, hloop, after]
    simp
  · simp only [hnil, if_false, hloop, after]
    simp

end RowTheorem

section RowWitness

/-- Witness of C18: the source list holds the one item `a`, which the
destination holds too; Upsert. -/
theorem list_follows_row_protocol_witness :
    srcList.Path = .mk .nil itemMeta [] ∧ 1 ≤ 2 ∧ 1 < 2 ^ 63 ∧
    (list (enter (memEnv itemSchema) plainEditor 2) 2 (memEnv itemSchema) plainEditor srcList
      dstList itemMeta false editUpsert itemStore).1 = .ret none :=
  ⟨rfl, by decide, by decide,
   congrArg Prod.fst
     (list_follows_row_protocol (enter (memEnv itemSchema) plainEditor 2) 2
       (memEnv itemSchema) plainEditor srcList dstList itemMeta false editUpsert itemStore
       .nil itemMeta [] 1 _ _ rfl (by decide)
       (RowProtocol.step 0 _ _ _ _ _ _ _ 0 _ _ (by decide)
         (ItemResolved.found _ (by decide) (by decide) (by decide) (Or.inr rfl))
         (by decide) (by decide) (RowProtocol.stop 1 _ _ _ (by decide)))
       (by decide) (by decide)).1⟩

end RowWitness
section NilSelections

variable {M N V σ : Type}

/-- C16: `enter` is never invoked again with a nil source or a nil
destination.  Every invocation of `enter` in the log of `edit` after the
first, which is the one `edit` makes, has a source and a destination that are
not nil.  When the source child is nil with no error, `node` returns success
and its log holds its invocation and the `Select` on the source only.  When
the creating `Select` of `node` (under Insert, and under Upsert after a
lookup that found nothing) answers with a nil selection and no error, `node`
returns its "could not create" error and its log ends with that `Select`.
When the creating `SelectListItem` of the loop body of `list` (under Insert
and Upsert, after a lookup that found nothing, or without lookup for an empty
key) answers with a nil selection and no error, the loop body returns the
"could not create" error of `list` and its log ends with that operation.  In
general the code after the strategy switch returns these errors for a
destination that is nil with no error, whichever branch it comes from;
`enter` is not reached in any of these cases. -/
theorem enter_never_recurses_into_nil [DecidableEq M] (env : Env M N V σ) (self : editor M V)
    (fuel : Nat) (frm dest : Selection M N V) (s : editStrategy) (st : σ) :
    (∀ e ∈ (edit env self fuel frm dest s st).2.2.tail, e.entersNil = false) ∧
    (∀ enterRec m new,
      (nodeSource env self frm m st).1.LastErr = none →
      (nodeSource env self frm m st).1.IsNil = true →
      node enterRec env self frm dest m new s st
        = (.ret none, (nodeSource env self frm m st).2,
           [.node frm dest m new s,
            .op (.Select frm (nodeFromRequest self frm m))
              (.selection (nodeSource env self frm m st).1)])) ∧
    (∀ enterRec m new, s = editInsert ∨ s = editUpsert →
      (nodeSource env self frm m st).1.LastErr = none →
      (nodeSource env self frm m st).1.IsNil = false →
      (nodeProbe env self frm dest m st).1.LastErr = none →
      (nodeProbe env self frm dest m st).1.IsNil = true →
      (nodeCreate env self frm dest m st).1.LastErr = none →
      (nodeCreate env self frm dest m st).1.IsNil = true →
      node enterRec env self frm dest m new s st
        = (.ret (some (.NewErr (nodeCreateMsg env m (.mk frm.Path m [])))),
           (nodeCreate env self frm dest m st).2,
           nodeCreateLog env self frm dest m new s st)) ∧
    (∀ enterRec loop fromChild key fromRequest toRequest,
      s = editInsert ∨ s = editUpsert → key.length > 0 →
      (listProbe env dest fromChild key fromRequest toRequest st).1.1.LastErr = none →
      (listProbe env dest fromChild key fromRequest toRequest st).1.1.IsNil = true →
      (listCreate env dest fromChild key fromRequest toRequest st).1.1.LastErr = none →
      (listCreate env dest fromChild key fromRequest toRequest st).1.1.IsNil = true →
      listItem enterRec loop env frm dest s fromChild key fromRequest toRequest st
        = (.ret (some (.NewErr (listCreateMsg env dest))),
           (listCreate env dest fromChild key fromRequest toRequest st).2,
           [listProbeEvent env dest fromChild key fromRequest toRequest st,
            listCreateEvent env dest fromChild key fromRequest toRequest st])) ∧
    (∀ enterRec loop fromChild fromRequest toRequest,
      s = editInsert ∨ s = editUpsert →
      (listCreateFirst env dest fromChild [] fromRequest toRequest st).1.1.LastErr = none →
      (listCreateFirst env dest fromChild [] fromRequest toRequest st).1.1.IsNil = true →
      listItem enterRec loop env frm dest s fromChild [] fromRequest toRequest st
        = (.ret (some (.NewErr (listCreateMsg env dest))),
           (listCreateFirst env dest fromChild [] fromRequest toRequest st).2,
           [listCreateFirstEvent env dest fromChild [] fromRequest toRequest st])) ∧
    (∀ enterRec m path fromChild toChild newChild,
      toChild.IsNil = true →
      nodeDescend enterRec env m path s fromChild toChild newChild st
        = (.ret (some (.NewErr (nodeCreateMsg env m path))), st, [])) ∧
    (∀ enterRec loop fromChild key fromRequest toRequest toChild newItem,
      toChild.LastErr = none → toChild.IsNil = true →
      listDescend enterRec loop env frm dest fromChild key fromRequest toRequest toChild
          newItem st
        = (.ret (some (.NewErr (listCreateMsg env dest))), st, [])) := by
  have e1 := editUpsert_ne_editInsert
  have e2 := editUpdate_ne_editInsert
  have e3 := editUpdate_ne_editUpsert
  have e5 : (editInsert = editUpdate) = False := by decide
  have e6 : (editInsert = editUpsert) = False := by decide
  have e7 : (editUpsert = editUpdate) = False := by decide
  have hempty : (Selection.empty : Selection M N V).IsNil = true := rfl
  refine ⟨?_, ?_, ?_, ?_, ?_, ?_, ?_⟩
  · have hop : ∀ (o : Op M N V) (r : Resp M N V), o.isHook = false →
        (Event.op o r).entersNil = false := fun _ _ _ => rfl
    cases fuel with
    | zero =>
      intro e he
      simp [edit, enter] at he
    | succ n =>
      have hrec : ∀ a b c d st1, a.IsNil = false → b.IsNil = false →
          LogAll (fun e => e.entersNil = false) (enter env self n a b c d false false st1) := by
        intro a b c d st1 ha hb
        apply enter_logAll (fun e => e.entersNil = false)
          (fun a b _ _ _ => a.IsNil = false ∧ b.IsNil = false) env self hop
        · intro a b new d root bubble hA
          refine ⟨?_, fun _ => rfl, fun _ => rfl, fun _ => rfl, fun _ => rfl, fun _ => rfl⟩
          simp [Event.entersNil, hA.1, hA.2]
        · intro a b d root bubble _ a1 b1 h1 h2
          exact ⟨⟨h1, h2⟩, ⟨h1, h2⟩⟩
        · exact ⟨ha, hb⟩
      show ∀ e ∈ (enterBody (enter env self n) n env self frm dest false s true true
        st).2.2.tail, e.entersNil = false
      unfold enterBody
      rw [after_log]
      show LogAll (fun e => e.entersNil = false) _
      unfold doBeginEdit doEndEdit enterSteps
      apply logAll_after _ _ _ (logAll_singleton (fun e => e.entersNil = false) _ (by rfl))
      beta_reduce
      split
      · exact logAll_done _ _ _
      · apply logAll_andThen
        · split
          · exact list_logAll (fun e => e.entersNil = false) _ n env self frm dest _ false s _
              rfl hop (fun a b c st1 ha hb => hrec a b c _ st1 ha hb)
          · exact enterChildren_logAll (fun e => e.entersNil = false) _ env self frm dest false
              s _ (fun _ => rfl) (fun _ => rfl) hop
              (fun a b c st1 ha hb => hrec a b c _ st1 ha hb) _
        · intro st2
          apply logAll_after _ _ _ (logAll_singleton (fun e => e.entersNil = false) _ (by rfl))
          beta_reduce
          split <;> exact logAll_done _ _ _
  · intro enterRec m new h1 h2
    simp only [nodeSource, nodeFromRequest] at h1 h2 ⊢
    unfold node doSelect
    simp [h1, h2, after]
  · intro enterRec m new hs g1 g2 g3 g4 g5 g6
    simp only [nodeCreateLog, nodeProbeLog, nodeCreate, nodeProbe, nodeSource, nodeFromRequest,
      nodeToRequest] at *
    rcases hs with hs | hs <;> subst hs <;>
      simp_all [node, doSelect, after, nodeDescend]
  · intro enterRec loop fromChild key fromRequest toRequest hs hk g1 g2 g3 g4
    simp only [listProbeEvent, listCreateEvent, listProbe, listCreate, listProbeRequest,
      listCreateRequest] at *
    rcases hs with hs | hs <;> subst hs <;>
      simp_all [listItem, listSwitch, listDescend, doSelectListItem, after]
  · intro enterRec loop fromChild fromRequest toRequest hs g1 g2
    simp only [listCreateFirstEvent, listCreateFirst, listCreateRequest] at *
    rcases hs with hs | hs <;> subst hs <;>
      simp_all [listItem, listSwitch, listDescend, doSelectListItem, after]
  · intro enterRec m path fromChild toChild newChild h
    simp [nodeDescend, h]
  · intro enterRec loop fromChild key fromRequest toRequest toChild newItem h1 h2
    simp [listDescend, h1, h2]

end NilSelections

section NilWitness

/-- A run of C16: under Upsert the source holds `web`, the destination does
not, and the backing store creates nothing; `node` returns its "could not
create" error. -/
theorem enter_never_recurses_into_nil_witness :
    (editUpsert = editInsert ∨ editUpsert = editUpsert) ∧
    (nodeCreate (refusingEnv webSchema) plainEditor srcRoot dstRoot webMeta
      webSourceStore).1.IsNil = true ∧
    (node (enter (refusingEnv webSchema) plainEditor 2) (refusingEnv webSchema) plainEditor
      srcRoot dstRoot webMeta false editUpsert webSourceStore).1
      = .ret (some (.NewErr (nodeCreateMsg (refusingEnv webSchema) webMeta
          (.mk srcRoot.Path webMeta [])))) :=
  ⟨Or.inr rfl, by decide,
   congrArg Prod.fst ((enter_never_recurses_into_nil (refusingEnv webSchema) plainEditor 2
     srcRoot dstRoot editUpsert webSourceStore).2.2.1 (enter (refusingEnv webSchema) plainEditor 2)
     webMeta false (Or.inr rfl) (by decide) (by decide) (by decide) (by decide) (by decide)
     (by decide))⟩

end NilWitness
section FrameProofs

variable {M N V σ : Type}

theorem inForce_append (t1 t2 : List (Event M N V)) :
    ∀ k : List Frame, inForce k (t1 ++ t2) = (inForce k t1).bind (fun k2 => inForce k2 t2) := by
  induction t1 with
  | nil => intro k; simp [inForce]
  | cons e t ih =>
    intro k
    cases e with
    | op o r =>
      cases o <;> first
        | (simp only [List.cons_append, inForce]; exact ih k)
        | (cases k <;> simp [inForce, ih])
    | enter a b c d e f =>
      cases k with
      | nil => simp [inForce]
      | cons f k1 =>
        simp only [List.cons_append, inForce]
        split
        · exact ih _
        · rfl
    | leaf a b m c d =>
      cases k with
      | nil => simp [inForce]
      | cons f k1 =>
        simp only [List.cons_append, inForce]
        split
        · exact ih _
        · rfl
    | node a b m c d =>
      cases k with
      | nil => simp [inForce]
      | cons f k1 =>
        simp only [List.cons_append, inForce]
        split
        · exact ih _
        · rfl
    | list a b m c d =>
      cases k with
      | nil => simp [inForce]
      | cons f k1 =>
        simp only [List.cons_append, inForce]
        split
        · exact ih _
        · rfl

/-- An invocation that carries another strategy than the one in force is
rejected. -/
theorem inForce_rejects (f : Frame) (k : List Frame) (a b : Selection M N V) (m : M)
    (new root bubble : Bool) (d : editStrategy) (t : List (Event M N V)) :
    (d ≠ f.handsDown → inForce (f :: k) (.enter a b new d root bubble :: t) = none) ∧
    (d ≠ f.strategy → inForce (f :: k) (.leaf a b m new d :: t) = none) ∧
    (d ≠ f.strategy → inForce (f :: k) (.node a b m new d :: t) = none) ∧
    (d ≠ f.strategy → inForce (f :: k) (.list a b m new d :: t) = none) := by
  refine ⟨?_, ?_, ?_, ?_⟩ <;> intro h <;> simp [inForce, h]

theorem inForce_rests (d : editStrategy) (k : List Frame) (t : List (Event M N V))
    (h : ∀ e ∈ t, e.restsIn d = true) :
    inForce ({ strategy := d, inList := false } :: k) t
      = some ({ strategy := d, inList := false } :: k) := by
  induction t with
  | nil => rfl
  | cons e t ih =>
    have he := h e (List.mem_cons_self _ _)
    have ht := ih (fun x hx => h x (List.mem_cons_of_mem _ hx))
    cases e with
    | op o r => cases o <;> first | (simp only [inForce]; exact ht) | simp [Event.restsIn, Op.isHook] at he
    | leaf a b m c s =>
      have hs : s = d := by simpa [Event.restsIn] using he
      subst hs
      simp only [inForce, and_self, if_true]
      exact ht
    | enter a b c s e f => simp [Event.restsIn] at he
    | node a b m c s => simp [Event.restsIn] at he
    | list a b m c s => simp [Event.restsIn] at he

theorem keeps_done (k : List Frame) (o : Outcome) (st : σ) :
    Keeps k k ((o, st, []) : Result M N V σ) :=
  ⟨k, rfl, fun _ => rfl⟩

theorem keeps_stop (k0 k1 : List Frame) (o : Outcome) (st : σ) (ho : o ≠ .ret none) :
    Keeps k0 k1 ((o, st, []) : Result M N V σ) :=
  ⟨k0, rfl, fun h => absurd h ho⟩

theorem keeps_after (k0 k1 k2 : List Frame) (t : List (Event M N V)) (r : Result M N V σ)
    (ht : inForce k0 t = some k1) (hr : Keeps k1 k2 r) : Keeps k0 k2 (after t r) := by
  obtain ⟨k3, h1, h2⟩ := hr
  refine ⟨k3, ?_, h2⟩
  rw [after_log, inForce_append, ht]
  exact h1

theorem keeps_andThen (k0 k1 k2 : List Frame) (r : Result M N V σ) (k : σ → Result M N V σ)
    (hr : Keeps k0 k1 r) (hk : ∀ st, Keeps k1 k2 (k st)) : Keeps k0 k2 (andThen r k) := by
  obtain ⟨k3, h1, h2⟩ := hr
  unfold Keeps
  rw [andThen_fst, andThen_log]
  by_cases h : r.1 = .ret none
  · obtain ⟨k4, h3, h4⟩ := hk r.2.1
    simp only [h, if_true]
    refine ⟨k4, ?_, h4⟩
    rw [inForce_append, h1, h2 h]
    exact h3
  · simp only [h, if_false]
    exact ⟨k3, h1, fun h5 => h5.elim⟩

theorem keeps_doSelect (k0 k1 : List Frame) (env : Env M N V σ) (sel : Selection M N V)
    (r : ChildRequest M N V) (st : σ) (k : Selection M N V → σ → Result M N V σ)
    (hk : ∀ c st1, Keeps k0 k1 (k c st1)) : Keeps k0 k1 (doSelect env sel r st k) :=
  keeps_after k0 k0 k1 _ _ rfl (hk _ _)

theorem keeps_doSelectListItem (k0 k1 : List Frame) (env : Env M N V σ)
    (sel : Selection M N V) (r : ListRequest M N V) (st : σ)
    (k : Selection M N V → List V → σ → Result M N V σ)
    (hk : ∀ c key st1, Keeps k0 k1 (k c key st1)) :
    Keeps k0 k1 (doSelectListItem env sel r st k) :=
  keeps_after k0 k0 k1 _ _ rfl (hk _ _ _)

theorem leaf_keeps [DecidableEq M] (env : Env M N V σ) (self : editor M V)
    (frm dest : Selection M N V) (m : M) (new : Bool) (d : editStrategy) (st : σ)
    (k : List Frame) :
    Keeps ({ strategy := d, inList := false } :: k) ({ strategy := d, inList := false } :: k)
      (leaf env self frm dest m new d st) :=
  ⟨_, inForce_rests d k _
    (leaf_logAll (fun e => e.restsIn d = true) env self frm dest m new d st
      (by simp [Event.restsIn]) (fun o r h => by simp [Event.restsIn, h])),
   fun _ => rfl⟩

theorem node_keeps
    (enterRec : Selection M N V → Selection M N V → Bool → editStrategy → Bool → Bool →
      σ → Result M N V σ)
    (env : Env M N V σ) (self : editor M V) (frm dest : Selection M N V) (m : M)
    (new : Bool) (d : editStrategy) (st : σ) (k : List Frame)
    (hrec : ∀ a b c e f st1,
      Keeps ({ strategy := d, inList := false } :: k) ({ strategy := d, inList := false } :: k)
        (enterRec a b c d e f st1)) :
    Keeps ({ strategy := d, inList := false } :: k) ({ strategy := d, inList := false } :: k)
      (node enterRec env self frm dest m new d st) := by
  unfold node nodeDescend
  apply keeps_after _ ({ strategy := d, inList := false } :: k) _ _ _ (by simp [inForce])
  repeat' first
    | exact keeps_done _ _ _
    | exact hrec _ _ _ _ _ _
    | (apply keeps_doSelect; intro _ _; beta_reduce)
    | split

theorem listAdvance_keeps (k : List Frame)
    (loop : Selection M N V → List V → ListRequest M N V → ListRequest M N V →
      σ → Result M N V σ)
    (hloop : ∀ a b c d st, Keeps k k (loop a b c d st))
    (env : Env M N V σ) (frm dest : Selection M N V) (fromChild : Selection M N V)
    (key : List V) (fromRequest toRequest : ListRequest M N V) (r : Result M N V σ)
    (hr : Keeps k k r) :
    Keeps k k (listAdvance loop env frm dest fromChild key fromRequest toRequest r) := by
  unfold listAdvance
  apply keeps_andThen k k k _ _ hr
  intro st4
  apply keeps_doSelectListItem
  intro _ _ _
  beta_reduce
  split
  · exact keeps_done _ _ _
  · exact hloop _ _ _ _ _

theorem listDescend_keeps (k : List Frame)
    (enterRec : Selection M N V → Selection M N V → Bool → editStrategy → Bool → Bool →
      σ → Result M N V σ)
    (loop : Selection M N V → List V → ListRequest M N V → ListRequest M N V →
      σ → Result M N V σ)
    (hrec : ∀ a b c e f st1, Keeps k k (enterRec a b c editUpsert e f st1))
    (hloop : ∀ a b c d st, Keeps k k (loop a b c d st))
    (env : Env M N V σ) (frm dest : Selection M N V) (fromChild : Selection M N V)
    (key : List V) (fromRequest toRequest : ListRequest M N V)
    (toChild : Selection M N V) (newItem : Bool) (st : σ) :
    Keeps k k (listDescend enterRec loop env frm dest fromChild key fromRequest toRequest
      toChild newItem st) := by
  unfold listDescend
  split
  · exact keeps_done _ _ _
  · split
    · exact keeps_done _ _ _
    · exact listAdvance_keeps k loop hloop env frm dest fromChild key fromRequest toRequest _
        (hrec _ _ _ _ _ _)

theorem listItem_keeps (k : List Frame)
    (enterRec : Selection M N V → Selection M N V → Bool → editStrategy → Bool → Bool →
      σ → Result M N V σ)
    (loop : Selection M N V → List V → ListRequest M N V → ListRequest M N V →
      σ → Result M N V σ)
    (hrec : ∀ a b c e f st1, Keeps k k (enterRec a b c editUpsert e f st1))
    (hloop : ∀ a b c d st, Keeps k k (loop a b c d st))
    (env : Env M N V σ) (frm dest : Selection M N V) (strategy : editStrategy)
    (fromChild : Selection M N V) (key : List V) (fromRequest toRequest : ListRequest M N V)
    (st : σ) :
    Keeps k k (listItem enterRec loop env frm dest strategy fromChild key fromRequest
      toRequest st) := by
  unfold listItem listSwitch
  dsimp only
  repeat' first
    | exact keeps_done _ _ _
    | exact listDescend_keeps k enterRec loop hrec hloop env frm dest fromChild key _ _ _ _ _
    | (apply keeps_doSelectListItem; intro _ _ _; beta_reduce)
    | split

theorem listLoop_keeps (k : List Frame)
    (enterRec : Selection M N V → Selection M N V → Bool → editStrategy → Bool → Bool →
      σ → Result M N V σ)
    (hrec : ∀ a b c e f st1, Keeps k k (enterRec a b c editUpsert e f st1))
    (env : Env M N V σ) (frm dest : Selection M N V) (strategy : editStrategy) (fuel : Nat) :
    ∀ fromChild key fromRequest toRequest st,
      Keeps k k (listLoop enterRec env frm dest strategy fuel fromChild key fromRequest
        toRequest st) := by
  induction fuel with
  | zero =>
    intro fromChild key fromRequest toRequest st
    unfold listLoop
    split <;> exact keeps_done _ _ _
  | succ n ih =>
    intro fromChild key fromRequest toRequest st
    unfold listLoop
    split
    · exact keeps_done _ _ _
    · exact listItem_keeps k enterRec _ hrec ih env frm dest strategy _ _ _ _ _

theorem list_keeps
    (enterRec : Selection M N V → Selection M N V → Bool → editStrategy → Bool → Bool →
      σ → Result M N V σ)
    (fuel : Nat) (env : Env M N V σ) (self : editor M V) (frm dest : Selection M N V) (m : M)
    (new : Bool) (d : editStrategy) (st : σ) (k : List Frame)
    (hrec : ∀ a b c e f st1,
      Keeps ({ strategy := d, inList := true } :: k) ({ strategy := d, inList := true } :: k)
        (enterRec a b c editUpsert e f st1)) :
    Keeps ({ strategy := d, inList := false } :: k) ({ strategy := d, inList := true } :: k)
      (list enterRec fuel env self frm dest m new d st) := by
  unfold list
  apply keeps_after _ ({ strategy := d, inList := true } :: k) _ _ _ (by simp [inForce])
  repeat' first
    | exact keeps_done _ _ _
    | exact listLoop_keeps _ enterRec hrec env frm dest d fuel _ _ _ _ _
    | (apply keeps_doSelectListItem; intro _ _ _; beta_reduce)
    | split

theorem enterChildren_keeps [DecidableEq M]
    (enterRec : Selection M N V → Selection M N V → Bool → editStrategy → Bool → Bool →
      σ → Result M N V σ)
    (env : Env M N V σ) (self : editor M V) (frm dest : Selection M N V)
    (new : Bool) (d : editStrategy) (k : List Frame)
    (hrec : ∀ a b c e f st1,
      Keeps ({ strategy := d, inList := false } :: k) ({ strategy := d, inList := false } :: k)
        (enterRec a b c d e f st1))
    (ms : List M) :
    ∀ st, Keeps ({ strategy := d, inList := false } :: k)
      ({ strategy := d, inList := false } :: k)
      (enterChildren enterRec env self frm dest new d ms st) := by
  induction ms with
  | nil => intro st; exact keeps_done _ _ _
  | cons m ms ih =>
    intro st
    unfold enterChildren
    apply keeps_andThen _ ({ strategy := d, inList := false } :: k) _ _ _ _ ih
    split
    · exact leaf_keeps env self frm dest m new d st k
    · exact node_keeps enterRec env self frm dest m new d st k hrec

/-- Every run of `enter` that is called with the strategy the innermost frame
hands down has each of its invocations carry the strategy in force, and on
success leaves the frames as it found them. -/
theorem enter_keeps [DecidableEq M] (env : Env M N V σ) (self : editor M V) (fuel : Nat) :
    ∀ (frm dest : Selection M N V) (new : Bool) (d : editStrategy) (root bubble : Bool) (st : σ)
      (f : Frame) (k : List Frame), f.handsDown = d →
      Keeps (f :: k) (f :: k) (enter env self fuel frm dest new d root bubble st) := by
  induction fuel with
  | zero =>
    intro frm dest new d root bubble st f k _
    exact keeps_done _ _ _
  | succ n ih =>
    intro frm dest new d root bubble st f k hd
    have hsame : ∀ a b c e g st1,
        Keeps ({ strategy := d, inList := false } :: f :: k)
          ({ strategy := d, inList := false } :: f :: k)
          (enter env self n a b c d e g st1) :=
      fun a b c e g st1 => ih a b c d e g st1 _ _ (by simp [Frame.handsDown])
    have hups : ∀ a b c e g st1,
        Keeps ({ strategy := d, inList := true } :: f :: k)
          ({ strategy := d, inList := true } :: f :: k)
          (enter env self n a b c editUpsert e g st1) :=
      fun a b c e g st1 => ih a b c editUpsert e g st1 _ _ (by simp [Frame.handsDown])
    have hend : ∀ (top : Frame) st2,
        Keeps (top :: f :: k) (f :: k)
          (doEndEdit env dest { New := new, Source := dest, EditRoot := root } bubble st2
            fun err st3 =>
              match err with
              | some e => ((.ret (some e), st3, []) : Result M N V σ)
              | none => (.ret none, st3, [])) := by
      intro top st2
      unfold doEndEdit
      apply keeps_after _ (f :: k) _ _ _ (by simp [inForce])
      beta_reduce
      split <;> exact keeps_done _ _ _
    show Keeps (f :: k) (f :: k)
      (enterBody (enter env self n) n env self frm dest new d root bubble st)
    unfold enterBody doBeginEdit
    apply keeps_after _ ({ strategy := d, inList := false } :: f :: k) _ _ _
      (by simp [inForce, hd])
    apply keeps_after _ ({ strategy := d, inList := false } :: f :: k) _ _ _ (by simp [inForce])
    beta_reduce
    split
    · exact keeps_stop _ _ _ _ (by simp)
    · unfold enterSteps
      split
      · exact keeps_andThen _ ({ strategy := d, inList := true } :: f :: k) _ _ _
          (list_keeps _ n env self frm dest _ new d _ _ hups) (hend _)
      · exact keeps_andThen _ ({ strategy := d, inList := false } :: f :: k) _ _ _
          (enterChildren_keeps _ env self frm dest new d _ hsame _ _) (hend _)

/-- C12 as amended: every invocation of `enter`, `leaf`, `node` and `list`
made during `edit(from, to, s)` carries the strategy in force where it is
made.  That is `s` for the invocation of `enter` that `edit` makes; for an
invocation of `leaf`, `node` or `list` it is the strategy of the invocation
of `enter` that makes it; for the invocation of `enter` that `node` makes it
is the strategy of `node`; and for the invocation of `enter` that `list`
makes for an item it is Upsert, whatever the strategy of `list`.  So every
invocation that is not below a list item carries `s`, and every invocation
below a list item carries Upsert.  On success all frames are closed again.
In particular every invocation carries `s` or Upsert. -/
theorem strategy_in_force_per_frame [DecidableEq M] (env : Env M N V σ)
    (self : editor M V) (fuel : Nat) (frm dest : Selection M N V) (s : editStrategy) (st : σ) :
    (inForce [{ strategy := s, inList := false }]
      (edit env self fuel frm dest s st).2.2).isSome = true ∧
    ((edit env self fuel frm dest s st).1 = .ret none →
      inForce [{ strategy := s, inList := false }] (edit env self fuel frm dest s st).2.2
        = some [{ strategy := s, inList := false }]) ∧
    (∀ e ∈ (edit env self fuel frm dest s st).2.2,
      e.strategy = none ∨ e.strategy = some s ∨ e.strategy = some editUpsert) := by
  obtain ⟨k2, h1, h2⟩ := enter_keeps env self fuel frm dest false s true true st
    { strategy := s, inList := false } [] (by simp [Frame.handsDown])
  refine ⟨?_, ?_, ?_⟩
  · show (inForce _ (enter env self fuel frm dest false s true true st).2.2).isSome = true
    rw [h1]
    rfl
  · intro h
    show inForce _ (enter env self fuel frm dest false s true true st).2.2 = _
    rw [h1, h2 h]
  · exact enter_strategy_log env self s fuel frm dest false s true true st (Or.inl rfl)

end FrameProofs
section FindDefect

/-- C5 fails on the code when `Find` fails: the destination holds the case
`tls` with its leaf `tlsPort` and its container `cert`, `Choose` reports
`tls`, and the leaf `tcpPort` of the case `tcp` is upserted.  `leaf` clears
`tlsPort`, asks `Find` for `cert`, gets a selection that carries `LastErr`,
issues no `Delete`, writes `tcpPort` with `SetValueHnd` and returns success:
afterwards `cert` and its leaf `file` are still there, next to `tcpPort`. -/
theorem leaf_keeps_case_when_find_fails :
    (findFailEnv choiceSchema).parentCase tcpPortMeta = some tcpMeta ∧
    ((findFailEnv choiceSchema).Choose dstRoot transportMeta tlsStore).1 = (some tlsMeta, none) ∧
    tlsMeta ≠ tcpMeta ∧
    Event.op (.Find dstRoot "cert") (.selection failedFind)
      ∈ (leaf (findFailEnv choiceSchema) plainEditor srcRoot dstRoot tcpPortMeta false editUpsert
          tlsStore).2.2 ∧
    (leaf (findFailEnv choiceSchema) plainEditor srcRoot dstRoot tcpPortMeta false editUpsert
      tlsStore).2.2.any Event.isSetValueHnd = true ∧
    (leaf (findFailEnv choiceSchema) plainEditor srcRoot dstRoot tcpPortMeta false editUpsert
      tlsStore).1 = .ret none ∧
    (leaf (findFailEnv choiceSchema) plainEditor srcRoot dstRoot tcpPortMeta false editUpsert
      tlsStore).2.1.get [.field "dst", .field "cert"] = some .present ∧
    (leaf (findFailEnv choiceSchema) plainEditor srcRoot dstRoot tcpPortMeta false editUpsert
      tlsStore).2.1.get [.field "dst", .field "cert", .field "file"]
        = some (.leaf (.str "pem")) ∧
    (leaf (findFailEnv choiceSchema) plainEditor srcRoot dstRoot tcpPortMeta false editUpsert
      tlsStore).2.1.get [.field "dst", .field "tcpPort"] = some (.leaf (.int 80)) := by
  decide

/-- C10 fails on the code when `Find` fails: on the same store, with a
`SetValueHnd` that fails with "disk full", the first failure of the edit is
that of `Find`.  The walk goes on after it, issues `SetValueHnd`, and `edit`
returns the error of `SetValueHnd`, not the first one. -/
theorem later_error_returned_after_failed_find :
    (edit (diskFullEnv choiceSchema) plainEditor 3 srcRoot dstRoot editUpsert tlsStore).2.2.length
      = 8 ∧
    (edit (diskFullEnv choiceSchema) plainEditor 3 srcRoot dstRoot editUpsert tlsStore).2.2.drop 6
      = [.op (.Find dstRoot "cert") (.selection failedFind),
         .op (.SetValueHnd dstRoot (leafRequest plainEditor dstRoot srcRoot tcpPortMeta)
           (.int 80)) (.error (some (.NewErr "disk full")))] ∧
    failedFind.LastErr = some (.NewErr "backing store unavailable") ∧
    (edit (diskFullEnv choiceSchema) plainEditor 3 srcRoot dstRoot editUpsert
      tlsStore).2.2.filterMap Event.failure
      = [.NewErr "backing store unavailable", .NewErr "disk full"] ∧
    (edit (diskFullEnv choiceSchema) plainEditor 3 srcRoot dstRoot editUpsert tlsStore).1
      = .ret (some (.NewErr "disk full")) := by
  decide

end FindDefect
end yang
